import Mathlib

/-!
Verification of the SyncRep synchronization engine.

This file gives a shallow embedding of the engine sources
(fileSync.ts, directorySync.ts, settings.ts, main.ts) and proves
properties of the embedded definitions.

Modeling conventions:
- Paths are strings with the slash separator, exactly as the vault-side
  code manipulates them.  JS string primitives (startsWith, substring,
  split) and the Node path helpers (join, basename, dirname, extname,
  relative) are modeled over the underlying character lists, for the
  normalized slash-separated inputs the engine feeds them.
- The managed store (Obsidian vault) is modeled through the collaborator
  contract the spec states in section 6: files and folders keyed by path,
  create and createFolder fail when the path is already occupied, modify
  rewrites an existing file, trash removes an entry.
- Every mutating call is recorded in a trace of actions; a failing call
  (create on an occupied path) is recorded but leaves the state unchanged.
- File contents carry their kind; reading a file as text or as binary is
  a deterministic projection, which models utf8 decoding and encoding.
- Fallible external reads are modeled with Except: a file whose read
  fails, or a directory whose listing fails, carries an error value.
- The change guard flag manipulations are recorded in the trace as
  guardSet, guardClear (synchronous clear) and guardScheduleClear ms
  (clear scheduled behind a settling delay of ms milliseconds).
-/

/-! ## JS string and Node path helpers -/

/-- Model of the JS string startsWith: prefix test on character lists. -/
def jsStartsWith (s pre : String) : Bool :=
  pre.data.isPrefixOf s.data

/-- Model of the JS substring from a character index to the end. -/
def jsSubstringFrom (s : String) (i : Nat) : String :=
  String.mk (s.data.drop i)

/-- Model of the regex replace of backslashes by slashes. -/
def normSlashes (s : String) : String :=
  String.mk (s.data.map (fun c => if c = '\\' then '/' else c))

/-- Split a character list at every occurrence of the separator.
Matches the JS split: the result is never empty, and empty segments
are kept. -/
def splitChars (sep : Char) : List Char → List (List Char)
  | [] => [[]]
  | c :: cs =>
    match splitChars sep cs with
    | [] => if c = sep then [[], []] else [[c]]
    | r :: rs => if c = sep then [] :: r :: rs else (c :: r) :: rs

/-- Model of the JS split on the slash character. -/
def jsSplitSlash (s : String) : List String :=
  (splitChars '/' s.data).map String.mk

/-- Characters of the last slash-separated segment. -/
def lastSegChars (l : List Char) : List Char :=
  (l.reverse.takeWhile (fun c => c ≠ '/')).reverse

/-- Model of Node path.basename for slash-separated paths. -/
def pathBasename (p : String) : String :=
  String.mk (lastSegChars p.data)

/-- Model of Node path.dirname for slash-separated paths: the part before
the last slash, the dot when there is no slash, the root slash for
top-level absolute paths. -/
def pathDirname (p : String) : String :=
  if p.data.contains '/' then
    let kept := (p.data.reverse.dropWhile (fun c => c ≠ '/')).drop 1
    if kept = [] then "/" else String.mk kept.reverse
  else "."

/-- Extension characters of a basename, following the Node rule: the part
from the last dot, empty when there is no dot or when the only dot is the
leading character. -/
def extChars (base : List Char) : List Char :=
  let rev := base.reverse
  let after := rev.takeWhile (fun c => c ≠ '.')
  if after.length = rev.length then []
  else if after.length + 1 = rev.length then []
  else '.' :: after.reverse

/-- Model of path.extname followed by toLowerCase, as used by the engine. -/
def extnameLower (p : String) : String :=
  String.mk ((extChars (lastSegChars p.data)).map Char.toLower)

/-- Model of Node path.join for two normalized segments: concatenation with
a single separating slash, with empty parts dropped. -/
def pjoin (a b : String) : String :=
  if a = "" then b else if b = "" then a else a ++ "/" ++ b

/-- Helper for pathRelative: drop the common leading segments. -/
def dropCommonSegs : List String → List String → List String × List String
  | a :: as, b :: bs =>
    if a = b then dropCommonSegs as bs else (a :: as, b :: bs)
  | as, bs => (as, bs)

/-- Model of Node path.relative for already-resolved slash-separated paths:
drop the common prefix of segments, go up once per remaining source
segment, then descend into the remaining target segments. -/
def pathRelative (fromP toP : String) : String :=
  let f := (jsSplitSlash fromP).filter (fun seg => seg ≠ "")
  let t := (jsSplitSlash toP).filter (fun seg => seg ≠ "")
  let (fr, tr) := dropCommonSegs f t
  String.intercalate "/" (List.replicate fr.length ".." ++ tr)

/-- Progressive slash-joined path prefixes: for each proper slash position
the prefix before it (skipping the empty prefix of absolute paths),
followed by the path itself. -/
def slashPrefixesGo : List Char → List Char → List (List Char)
  | [], _ => []
  | c :: rest, acc =>
    if c = '/' then
      let ps := slashPrefixesGo rest (acc ++ [c])
      if acc = [] then ps else acc :: ps
    else slashPrefixesGo rest (acc ++ [c])

/-- All the directories a recursive mkdir of the path creates. -/
def pathPrefixChain (p : String) : List String :=
  (slashPrefixesGo p.data []).map String.mk ++ [p]

/-! ## Contents -/

/-- File content carrying its kind. -/
inductive Content where
  | text (s : String)
  | bin (b : List Nat)
deriving DecidableEq, Repr

/-- Reading a content as utf8 text; decoding bytes is modeled by a fixed
deterministic function. -/
def readTextOf : Content → String
  | .text s => s
  | .bin b => String.mk (b.map Char.ofNat)

/-- Reading a content as bytes; encoding text is modeled by a fixed
deterministic function. -/
def readBinOf : Content → List Nat
  | .bin b => b
  | .text s => s.data.map Char.toNat

/-! ## Settings (settings.ts) -/

/-- The sync mode setting: all files except exclusions, or only the
included folders. -/
inductive SyncMode where
  | all
  | includeMode
deriving DecidableEq, Repr

/-- The SyncRepSettings interface from settings.ts (the cosmetic
highlightColor field is omitted). -/
structure SyncRepSettings where
  syncFolderPath : String
  syncOnSave : Bool
  syncInterval : Nat
  excludedFolders : List String
  includedFolders : List String
  externalIncludedFolders : List String
  syncMode : SyncMode
  debugMode : Bool
deriving DecidableEq, Repr

/-! ## Path policy (fileSync.ts lines 91-155, 454-476) -/

/-- The fixed allow-list of binary extensions (fileSync.ts lines 93-101). -/
def binaryExtensions : List String :=
  [".png", ".jpg", ".jpeg", ".gif", ".bmp", ".tiff", ".webp",
   ".pdf", ".doc", ".docx", ".xls", ".xlsx", ".ppt", ".pptx",
   ".zip", ".rar", ".7z", ".tar", ".gz",
   ".mp3", ".wav", ".ogg", ".flac", ".m4a",
   ".mp4", ".avi", ".mov", ".wmv", ".mkv", ".webm",
   ".exe", ".dll", ".so", ".dylib",
   ".ttf", ".otf", ".woff", ".woff2"]

/-- isBinaryFileType (fileSync.ts lines 91-104). -/
def isBinaryFileType (filePath : String) : Bool :=
  binaryExtensions.contains (extnameLower filePath)

/-- isIncluded (fileSync.ts lines 118-133): the file is under one of the
included folders, the empty included folder being a wildcard. -/
def isIncluded (s : SyncRepSettings) (filePath : String) : Bool :=
  s.includedFolders.any (fun includedFolder =>
    includedFolder = "" ||
    filePath = includedFolder ||
    jsStartsWith filePath (includedFolder ++ "/"))

/-- isExternalIncluded (fileSync.ts lines 136-147): the file is under a
folder named like the basename of a configured external folder. -/
def isExternalIncluded (s : SyncRepSettings) (filePath : String) : Bool :=
  s.externalIncludedFolders.any (fun externalFolder =>
    let folderName := pathBasename externalFolder
    filePath = folderName || jsStartsWith filePath (folderName ++ "/"))

/-- isExcluded (fileSync.ts lines 149-155). -/
def isExcluded (s : SyncRepSettings) (filePath : String) : Bool :=
  s.excludedFolders.any (fun folder =>
    filePath = folder ||
    jsStartsWith filePath (folder ++ "/") ||
    jsStartsWith filePath (folder ++ "\\"))

/-- shouldSyncFile (fileSync.ts lines 107-115). -/
def shouldSyncFile (s : SyncRepSettings) (filePath : String) : Bool :=
  match s.syncMode with
  | .all => !(isExcluded s filePath)
  | .includeMode => isIncluded s filePath || isExternalIncluded s filePath

/-- getExternalPath (fileSync.ts lines 455-476): none when no sync root is
configured; substitution of the real external root for paths under a
folder named like an external folder basename; plain concatenation under
the sync root otherwise. -/
def getExternalPath (s : SyncRepSettings) (vaultPath : String) : Option String :=
  if s.syncFolderPath = "" then none
  else
    match s.externalIncludedFolders.findSome? (fun externalFolder =>
      let folderName := pathBasename externalFolder
      if vaultPath = folderName || jsStartsWith vaultPath (folderName ++ "/") then
        some (pjoin externalFolder (jsSubstringFrom vaultPath (folderName.length + 1)))
      else none) with
    | some p => some p
    | none => some (pjoin s.syncFolderPath vaultPath)

/-! ## The managed store (collaborator contract, spec section 6) -/

/-- A vault lookup result: a file with its content, a folder, or nothing. -/
inductive VEntry where
  | vfile (c : Content)
  | vfolder
  | vmissing
deriving DecidableEq, Repr

/-- The managed store: files and folders keyed by vault path. -/
structure Vault where
  files : List (String × Content)
  folders : List String
deriving DecidableEq, Repr

/-- Model of vault.getAbstractFileByPath. -/
def Vault.getAbs (v : Vault) (p : String) : VEntry :=
  match v.files.lookup p with
  | some c => .vfile c
  | none => if v.folders.contains p then .vfolder else .vmissing

/-- Model of vault.create and vault.createBinary: fails (already exists)
when an entry occupies the path, otherwise adds the file.  Returns the
new state and whether the call succeeded. -/
def vaultCreateCall (v : Vault) (p : String) (c : Content) : Vault × Bool :=
  match v.getAbs p with
  | .vmissing => ({ v with files := (p, c) :: v.files }, true)
  | _ => (v, false)

/-- Model of vault.createFolder: fails when the path is occupied. -/
def vaultCreateFolderCall (v : Vault) (p : String) : Vault × Bool :=
  match v.getAbs p with
  | .vmissing => ({ v with folders := p :: v.folders }, true)
  | _ => (v, false)

/-- Model of vault.modify and vault.modifyBinary: rewrites the content of
an existing file. -/
def vaultModifyApply (v : Vault) (p : String) (c : Content) : Vault :=
  { v with files := v.files.map (fun e => if e.1 = p then (p, c) else e) }

/-- Model of vault.trash: removes the entry at the path. -/
def vaultTrashApply (v : Vault) (p : String) : Vault :=
  { files := v.files.filter (fun e => e.1 ≠ p),
    folders := v.folders.filter (fun q => q ≠ p) }

/-! ## The external store (flat filesystem view) -/

/-- The external filesystem as flat path maps. -/
structure ExtFS where
  files : List (String × Content)
  dirs : List String
deriving DecidableEq, Repr

/-- Model of fs.existsSync. -/
def ExtFS.existsPath (fs : ExtFS) (p : String) : Bool :=
  fs.files.any (fun e => e.1 = p) || fs.dirs.contains p

/-- Model of the stat isDirectory test. -/
def ExtFS.isDir (fs : ExtFS) (p : String) : Bool :=
  fs.dirs.contains p

/-- Model of fs.mkdirSync with the recursive option. -/
def ExtFS.mkdirRecursive (fs : ExtFS) (p : String) : ExtFS :=
  { fs with dirs := pathPrefixChain p ++ fs.dirs }

/-- Model of fs.writeFileSync: upsert of the file content. -/
def ExtFS.writeFile (fs : ExtFS) (p : String) (c : Content) : ExtFS :=
  { fs with files := (p, c) :: fs.files.filter (fun e => e.1 ≠ p) }

/-- Model of fs.unlinkSync. -/
def ExtFS.unlink (fs : ExtFS) (p : String) : ExtFS :=
  { fs with files := fs.files.filter (fun e => e.1 ≠ p) }

/-- Model of fs.rmdirSync without options. -/
def ExtFS.rmdir (fs : ExtFS) (p : String) : ExtFS :=
  { fs with dirs := fs.dirs.filter (fun q => q ≠ p) }

/-- Rewrite one path under a rename of old to new. -/
def renameOne (old new p : String) : String :=
  if p = old then new
  else if jsStartsWith p (old ++ "/") then new ++ jsSubstringFrom p old.length
  else p

/-- Model of fs.renameSync: moves the path and everything below it. -/
def ExtFS.renamePath (fs : ExtFS) (old new : String) : ExtFS :=
  { files := fs.files.map (fun e => (renameOne old new e.1, e.2)),
    dirs := fs.dirs.map (renameOne old new) }

/-- Model of fs.copyFileSync. -/
def ExtFS.copyFile (fs : ExtFS) (src dst : String) : ExtFS :=
  match fs.files.lookup src with
  | some c => fs.writeFile dst c
  | none => fs

/-- The direct child name of a directory carried by a path, when the path
is strictly one level below the directory. -/
def childNameOf (d p : String) : Option String :=
  if jsStartsWith p (d ++ "/") then
    let n := jsSubstringFrom p (d.length + 1)
    if n ≠ "" && !(n.data.contains '/') then some n else none
  else none

/-- Names of the direct child files of a directory (readdir file entries). -/
def ExtFS.childFiles (fs : ExtFS) (d : String) : List String :=
  (fs.files.filterMap (fun e => childNameOf d e.1)).dedup

/-- Names of the direct child directories (readdir directory entries). -/
def ExtFS.childDirs (fs : ExtFS) (d : String) : List String :=
  (fs.dirs.filterMap (fun q => childNameOf d q)).dedup

/-- Names returned by a plain readdir of the directory. -/
def ExtFS.readdirNames (fs : ExtFS) (d : String) : List String :=
  fs.childFiles d ++ fs.childDirs d

/-! ## Traced effects -/

/-- The mutating calls an engine operation performs, plus the change guard
manipulations.  Vault create and modify actions cover both the text and
the binary call of the source; the content records which one fired. -/
inductive Act where
  | vaultCreate (p : String) (c : Content)
  | vaultModify (p : String) (c : Content)
  | vaultCreateFolder (p : String)
  | vaultTrash (p : String)
  | extWrite (p : String) (c : Content)
  | extMkdir (p : String)
  | extDelete (p : String)
  | extRename (src dst : String)
  | extCopy (src dst : String)
  | extRmdir (p : String)
  | extRmdirRecursive (p : String)
  | guardSet
  | guardClear
  | guardScheduleClear (ms : Nat)
deriving DecidableEq, Repr

/-- Managed-store write calls, as counted by the idempotence property:
vault create, createFolder and modify calls (text or binary). -/
def Act.isVaultWrite : Act → Bool
  | .vaultCreate _ _ => true
  | .vaultModify _ _ => true
  | .vaultCreateFolder _ => true
  | _ => false

/-- Managed-store file-write calls: create and modify, not createFolder. -/
def Act.isVaultFileWrite : Act → Bool
  | .vaultCreate _ _ => true
  | .vaultModify _ _ => true
  | _ => false

/-- syncFile (fileSync.ts lines 341-384): policy gate, external path
resolution, recursive creation of the missing parent directory, then an
unconditional kind-appropriate write.  A vault read failure is caught and
abandons the operation. -/
def syncFile (s : SyncRepSettings) (v : Vault) (filePath : String)
    (fs : ExtFS) : ExtFS × List Act :=
  if !(shouldSyncFile s filePath) then (fs, [])
  else
    match getExternalPath s filePath with
    | none => (fs, [])
    | some destPath =>
      let destDir := pathDirname destPath
      let (fs, acts) :=
        if !(fs.existsPath destDir) then
          (fs.mkdirRecursive destDir, [Act.extMkdir destDir])
        else (fs, [])
      match v.getAbs filePath with
      | .vfile c =>
        let written :=
          if isBinaryFileType filePath then Content.bin (readBinOf c)
          else Content.text (readTextOf c)
        (fs.writeFile destPath written, acts ++ [Act.extWrite destPath written])
      | _ => (fs, acts)

/-- handleFileDeletion (fileSync.ts lines 386-422): the external file is
deleted only when it exists and the user confirms through the modal.
Note the function itself performs no policy check; its callers do. -/
def handleFileDeletion (s : SyncRepSettings) (filePath : String)
    (confirmed : Bool) (fs : ExtFS) : ExtFS × List Act :=
  match getExternalPath s filePath with
  | none => (fs, [])
  | some externalPath =>
    if fs.existsPath externalPath then
      if confirmed then (fs.unlink externalPath, [Act.extDelete externalPath])
      else (fs, [])
    else (fs, [])

/-- handleFileRename (fileSync.ts lines 663-695): when the old external
path exists, create the new parent directory when missing and rename;
otherwise report false so the caller falls back to syncFile.  The result
is none when either external path does not resolve (the early return). -/
def handleFileRename (s : SyncRepSettings) (oldPath newPath : String)
    (fs : ExtFS) : ExtFS × List Act × Option Bool :=
  match getExternalPath s oldPath, getExternalPath s newPath with
  | some oldExternalPath, some newExternalPath =>
    if fs.existsPath oldExternalPath then
      let newParentDir := pathDirname newExternalPath
      let (fs, acts) :=
        if !(fs.existsPath newParentDir) then
          (fs.mkdirRecursive newParentDir, [Act.extMkdir newParentDir])
        else (fs, [])
      (fs.renamePath oldExternalPath newExternalPath,
       acts ++ [Act.extRename oldExternalPath newExternalPath], some true)
    else (fs, [], some false)
  | _, _ => (fs, [], none)

/-- One pending piece of moveDirectoryContents work. -/
inductive MdcCall where
  | top (sourceDir targetDir : String)
  | fileLoop (sourceDir targetDir : String) (names : List String)
  | dirLoop (sourceDir targetDir : String) (names : List String)

/-- The moveDirectoryContents engine: create the target when missing, take
the listing snapshot, move each file (copy then delete the original),
recurse into each subdirectory and remove it when it emptied. -/
def mdcRun : Nat → MdcCall → ExtFS → ExtFS × List Act
  | 0, _, fs => (fs, [])
  | Nat.succ fuel, .top sourceDir targetDir, fs =>
    let (fs, acts0) :=
      if !(fs.existsPath targetDir) then
        (fs.mkdirRecursive targetDir, [Act.extMkdir targetDir])
      else (fs, [])
    let fileNames := fs.childFiles sourceDir
    let dirNames := fs.childDirs sourceDir
    let (fs, acts1) := mdcRun fuel (.fileLoop sourceDir targetDir fileNames) fs
    let (fs, acts2) := mdcRun fuel (.dirLoop sourceDir targetDir dirNames) fs
    (fs, acts0 ++ acts1 ++ acts2)
  | Nat.succ _, .fileLoop _ _ [], fs => (fs, [])
  | Nat.succ fuel, .fileLoop sourceDir targetDir (n :: rest), fs =>
    let sourcePath := pjoin sourceDir n
    let targetPath := pjoin targetDir n
    let fs := (fs.copyFile sourcePath targetPath).unlink sourcePath
    let (fs, acts) := mdcRun fuel (.fileLoop sourceDir targetDir rest) fs
    (fs, Act.extCopy sourcePath targetPath :: Act.extDelete sourcePath :: acts)
  | Nat.succ _, .dirLoop _ _ [], fs => (fs, [])
  | Nat.succ fuel, .dirLoop sourceDir targetDir (n :: rest), fs =>
    let sourcePath := pjoin sourceDir n
    let targetPath := pjoin targetDir n
    let (fs, acts1) := mdcRun fuel (.top sourcePath targetPath) fs
    let (fs, acts2) :=
      if fs.readdirNames sourcePath = [] then
        (fs.rmdir sourcePath, [Act.extRmdir sourcePath])
      else (fs, [])
    let (fs, acts3) := mdcRun fuel (.dirLoop sourceDir targetDir rest) fs
    (fs, acts1 ++ acts2 ++ acts3)

/-- moveDirectoryContents proper. -/
def moveDirectoryContents (fuel : Nat) (sourceDir targetDir : String)
    (fs : ExtFS) : ExtFS × List Act :=
  mdcRun fuel (.top sourceDir targetDir) fs

/-- handleFolderRename (directorySync.ts lines 969-1006): rename the
external directory when the target is free, merge the contents into an
existing target, or create the target fresh when the source is missing. -/
def handleFolderRename (s : SyncRepSettings) (fuel : Nat)
    (oldPath newPath : String) (fs : ExtFS) : ExtFS × List Act :=
  match getExternalPath s oldPath, getExternalPath s newPath with
  | some oldExternalPath, some newExternalPath =>
    if fs.existsPath oldExternalPath then
      if fs.existsPath newExternalPath then
        moveDirectoryContents fuel oldExternalPath newExternalPath fs
      else
        (fs.renamePath oldExternalPath newExternalPath,
         [Act.extRename oldExternalPath newExternalPath])
    else
      if !(fs.existsPath newExternalPath) then
        (fs.mkdirRecursive newExternalPath, [Act.extMkdir newExternalPath])
      else (fs, [])
  | _, _ => (fs, [])

/-! ## Vault-side event dispatch (main.ts registerFileEvents) -/

/-- The rename event handler for files (main.ts lines 292-312). -/
def onFileRenameEvent (s : SyncRepSettings) (v : Vault)
    (oldPath newPath : String) (confirmed : Bool)
    (fs : ExtFS) : ExtFS × List Act :=
  let oldShouldSync := shouldSyncFile s oldPath
  let newShouldSync := shouldSyncFile s newPath
  if oldShouldSync && newShouldSync then
    let (fs, acts, renamed) := handleFileRename s oldPath newPath fs
    if renamed = some true then (fs, acts)
    else
      let (fs2, acts2) := syncFile s v newPath fs
      (fs2, acts ++ acts2)
  else if oldShouldSync then handleFileDeletion s oldPath confirmed fs
  else if newShouldSync then syncFile s v newPath fs
  else (fs, [])

/-- ensureVaultDirectory loop (fileSync.ts lines 424-444): walk the slash
segments, creating every missing progressive prefix. -/
def ensureGo : List String → String → Vault → Vault × List Act
  | [], _, v => (v, [])
  | dir :: rest, currentPath, v =>
    let currentPath := if currentPath = "" then dir else currentPath ++ "/" ++ dir
    match v.getAbs currentPath with
    | .vmissing =>
      let (v, _ok) := vaultCreateFolderCall v currentPath
      let (v2, acts) := ensureGo rest currentPath v
      (v2, Act.vaultCreateFolder currentPath :: acts)
    | _ => ensureGo rest currentPath v

/-- ensureVaultDirectory (fileSync.ts lines 424-444). -/
def ensureVaultDirectory (dirPath : String) (v : Vault) : Vault × List Act :=
  ensureGo (jsSplitSlash dirPath) "" v

/-- The vault path of a directory entry: path.join of the parent relative
path and the entry name (with backslash normalization a no-op on the
slash-joined result), the bare name under the empty relative root. -/
def joinRel (rel name : String) : String :=
  if rel = "" then name else rel ++ "/" ++ name

/-- The external-folder substitution loop of handleExternalFileChange
(fileSync.ts lines 172-191): the first configured external folder the
full path starts with rewrites the vault path. -/
def substVaultPath (s : SyncRepSettings) (fullPath relativePath : String) : String :=
  match s.externalIncludedFolders.findSome? (fun externalFolder =>
    if jsStartsWith fullPath externalFolder then
      let folderName := pathBasename externalFolder
      let relativeToExternal := pathRelative externalFolder fullPath
      some (if relativeToExternal ≠ "" then
              normSlashes (pjoin folderName relativeToExternal)
            else folderName)
    else none) with
  | some p => p
  | none => relativePath

/-- The content-difference write step shared by the binary and text
branches of handleExternalFileChange (fileSync.ts lines 199-296): compare
against the existing managed file and modify only on difference; create
otherwise, retrying as a modify when the create reports already exists. -/
def inboundWriteStep (vaultPath : String) (isBin : Bool) (c : Content)
    (v : Vault) : Vault × List Act :=
  let stored := if isBin then Content.bin (readBinOf c) else Content.text (readTextOf c)
  let differs := fun c0 =>
    if isBin then readBinOf c0 ≠ readBinOf c else readTextOf c0 ≠ readTextOf c
  match v.getAbs vaultPath with
  | .vfile c0 =>
    if differs c0 then
      (vaultModifyApply v vaultPath stored, [Act.vaultModify vaultPath stored])
    else (v, [])
  | _ =>
    let parentDir := pathDirname vaultPath
    let (v, acts) :=
      if parentDir ≠ "" && parentDir ≠ "." then ensureVaultDirectory parentDir v
      else (v, [])
    let (v, ok) := vaultCreateCall v vaultPath stored
    let acts := acts ++ [Act.vaultCreate vaultPath stored]
    if ok then (v, acts)
    else
      match v.getAbs vaultPath with
      | .vfile c0 =>
        if differs c0 then
          (vaultModifyApply v vaultPath stored, acts ++ [Act.vaultModify vaultPath stored])
        else (v, acts)
      | _ => (v, acts)

/-- handleExternalFileChange (fileSync.ts lines 157-307): sets the guard,
applies the policy gate on the watch-relative path, resolves the vault
path through the external-folder substitution, performs the
content-difference write, and clears the guard synchronously in the
finally block. -/
def handleExternalFileChange (s : SyncRepSettings) (fs : ExtFS)
    (fullPath relativePath : String) (v : Vault) : Vault × List Act :=
  let (v, body) :=
    if !(shouldSyncFile s relativePath) then (v, [])
    else
      let vaultPath := substVaultPath s fullPath relativePath
      match fs.files.lookup fullPath with
      | none => (v, [])
      | some c => inboundWriteStep vaultPath (isBinaryFileType vaultPath) c v
  (v, Act.guardSet :: body ++ [Act.guardClear])

/-- moveFileToTrash (fileSync.ts lines 644-660). -/
def moveFileToTrash (filePath : String) (v : Vault) : Vault × List Act :=
  match v.getAbs filePath with
  | .vmissing => (v, [])
  | _ => (vaultTrashApply v filePath, [Act.vaultTrash filePath])

/-- handleExternalFileDeletion (fileSync.ts lines 309-339): sets the guard,
applies the policy gate, moves the managed file to the trash when present,
and schedules the guard clear behind the 500 ms settling delay. -/
def handleExternalFileDeletion (s : SyncRepSettings) (relativePath : String)
    (v : Vault) : Vault × List Act :=
  let (v, body) :=
    if !(shouldSyncFile s relativePath) then (v, [])
    else
      match v.getAbs relativePath with
      | .vfile _ => moveFileToTrash relativePath v
      | _ => (v, [])
  (v, Act.guardSet :: body ++ [Act.guardScheduleClear 500])

/-! ## The external tree and the recursive inbound walk -/

/-- An external filesystem entry for the recursive walk: a file whose read
yields a content or an error, or a directory whose listing yields named
entries or an error. -/
inductive ETree where
  | file (content : Except String Content)
  | dir (listing : Except String (List (String × ETree)))

/-- The per-file body of syncDirectoryFromExternal (directorySync.ts lines
1302-1410): read, compare against the managed file, create or modify, and
catch every failure at the item level. -/
def syncExternalFileEntry (content : Except String Content) (p : String)
    (v : Vault) : Vault × List Act :=
  match content with
  | .error _ => (v, [])
  | .ok c => inboundWriteStep p (isBinaryFileType p) c v

mutual

/-- syncDirectoryFromExternal (directorySync.ts lines 1257-1417): policy
gate on the directory path, creation of the missing managed directory,
then the walk over the listing.  A listing failure is rethrown (the catch
at line 1413), which the third component reports. -/
def syncDirectoryFromExternal (s : SyncRepSettings) (t : ETree)
    (relativeDirPath : String) (v : Vault) : Vault × List Act × Bool :=
  match t with
  | .file _ => (v, [], false)
  | .dir listing =>
    if !(shouldSyncFile s relativeDirPath) then (v, [], false)
    else
      let (v, acts) :=
        match v.getAbs relativeDirPath with
        | .vmissing => ensureVaultDirectory relativeDirPath v
        | _ => (v, [])
      match listing with
      | .error _ => (v, acts, true)
      | .ok entries =>
        let (v2, acts2, thrown) := syncEntries s entries relativeDirPath v
        (v2, acts ++ acts2, thrown)

/-- The entry loop of syncDirectoryFromExternal (lines 1286-1412): skip
entries failing the policy, recurse into subdirectories (a rethrown
failure aborts the remaining entries), process files with the item-level
catch. -/
def syncEntries (s : SyncRepSettings) (entries : List (String × ETree))
    (relativeDirPath : String) (v : Vault) : Vault × List Act × Bool :=
  match entries with
  | [] => (v, [], false)
  | (name, child) :: rest =>
    let entryRelativePath := joinRel relativeDirPath name
    if !(shouldSyncFile s entryRelativePath) then
      syncEntries s rest relativeDirPath v
    else
      match child with
      | .dir _ =>
        let (v, acts, thrown) := syncDirectoryFromExternal s child entryRelativePath v
        if thrown then (v, acts, true)
        else
          let (v2, acts2, thrown2) := syncEntries s rest relativeDirPath v
          (v2, acts ++ acts2, thrown2)
      | .file content =>
        let (v, acts) := syncExternalFileEntry content entryRelativePath v
        let (v2, acts2, thrown2) := syncEntries s rest relativeDirPath v
        (v2, acts ++ acts2, thrown2)

end

mutual

/-- scanAndCreateAllDirectories (directorySync.ts lines 1420-1466): create
the managed directory for every participating external directory,
pruning excluded subtrees; every failure, including a listing failure, is
caught by its own catch and never propagates. -/
def scanAndCreateAllDirectories (s : SyncRepSettings) (t : ETree)
    (relativePath : String) (v : Vault) : Vault × List Act :=
  match t with
  | .file _ => (v, [])
  | .dir listing =>
    let (v, acts, explore) :=
      if relativePath ≠ "" then
        if shouldSyncFile s relativePath then
          match v.getAbs relativePath with
          | .vmissing =>
            let (v, a) := ensureVaultDirectory relativePath v
            (v, a, true)
          | _ => (v, [], true)
        else (v, [], false)
      else (v, [], true)
    if !explore then (v, acts)
    else
      match listing with
      | .error _ => (v, acts)
      | .ok entries =>
        let (v2, acts2) := scanEntries s entries relativePath v
        (v2, acts ++ acts2)

/-- The subdirectory loop of scanAndCreateAllDirectories (lines 1453-1461). -/
def scanEntries (s : SyncRepSettings) (entries : List (String × ETree))
    (relativePath : String) (v : Vault) : Vault × List Act :=
  match entries with
  | [] => (v, [])
  | (name, child) :: rest =>
    match child with
    | .dir _ =>
      let entryRelativePath := joinRel relativePath name
      let (v, a1) := scanAndCreateAllDirectories s child entryRelativePath v
      let (v2, a2) := scanEntries s rest relativePath v
      (v2, a1 ++ a2)
    | .file _ => scanEntries s rest relativePath v

end

/-- handleExternalDirectoryCreation (directorySync.ts lines 1196-1223):
policy gate, creation of the missing managed directory, then a content
walk whose rethrown failures this handler catches itself. -/
def handleExternalDirectoryCreation (s : SyncRepSettings) (t : ETree)
    (relativePath : String) (v : Vault) : Vault × List Act :=
  if !(shouldSyncFile s relativePath) then (v, [])
  else
    let (v, a1) :=
      match v.getAbs relativePath with
      | .vmissing => ensureVaultDirectory relativePath v
      | _ => (v, [])
    let (v, a2, _thrown) := syncDirectoryFromExternal s t relativePath v
    (v, a1 ++ a2)

/-- moveFolderToTrash (directorySync.ts lines 1059-1089): trash every
managed file below the folder, then the folder itself. -/
def moveFolderToTrash (folderPath : String) (v : Vault) : Vault × List Act :=
  match v.getAbs folderPath with
  | .vfolder =>
    let notes := (v.files.filter (fun e => jsStartsWith e.1 (folderPath ++ "/"))).map (fun e => e.1)
    let v2 := notes.foldl vaultTrashApply v
    (vaultTrashApply v2 folderPath,
     notes.map Act.vaultTrash ++ [Act.vaultTrash folderPath])
  | _ => (v, [])

/-- handleExternalDirectoryDeletion (directorySync.ts lines 1226-1255):
policy gate, the rename-detection stub that always reports false, then a
soft delete of the managed folder when present. -/
def handleExternalDirectoryDeletion (s : SyncRepSettings)
    (relativePath : String) (v : Vault) : Vault × List Act :=
  if !(shouldSyncFile s relativePath) then (v, [])
  else
    match v.getAbs relativePath with
    | .vfolder => moveFolderToTrash relativePath v
    | _ => (v, [])

/-! ## Full synchronization (directorySync.ts lines 1469-1519) -/

/-- The relative managed root used for a configured external folder during
full sync: the path of the folder relative to the sync root, or its
basename when that relative path is empty. -/
def extRelFor (s : SyncRepSettings) (externalFolder : String) : String :=
  let r := normSlashes (pathRelative s.syncFolderPath externalFolder)
  if r = "" then pathBasename externalFolder else r

/-- Phase 1 loop over the configured external folders (lines 1483-1495):
scan each folder that exists. -/
def scanExtFolders (s : SyncRepSettings) (folders : List String)
    (extWorld : List (String × ETree)) (v : Vault) : Vault × List Act :=
  match folders with
  | [] => (v, [])
  | f :: rest =>
    match extWorld.lookup f with
    | none => scanExtFolders s rest extWorld v
    | some t =>
      let (v, a1) := scanAndCreateAllDirectories s t (extRelFor s f) v
      let (v2, a2) := scanExtFolders s rest extWorld v
      (v2, a1 ++ a2)

/-- Phase 2 loop over the configured external folders (lines 1504-1514):
walk each folder that exists; a rethrown walk failure reaches the shared
catch and skips the remaining folders. -/
def syncExtFolders (s : SyncRepSettings) (folders : List String)
    (extWorld : List (String × ETree)) (v : Vault) : Vault × List Act :=
  match folders with
  | [] => (v, [])
  | f :: rest =>
    match extWorld.lookup f with
    | none => syncExtFolders s rest extWorld v
    | some t =>
      let (v, a1, thrown) := syncDirectoryFromExternal s t (extRelFor s f) v
      if thrown then (v, a1)
      else
        let (v2, a2) := syncExtFolders s rest extWorld v
        (v2, a1 ++ a2)

/-- syncAllExternalDirectories (directorySync.ts lines 1469-1519): phase 1
creates the directory structure of the sync root and of every configured
external folder, phase 2 walks the same trees synchronizing files.  The
external world is the tree of the sync root (none when it does not exist)
plus the trees of the external folders that exist. -/
def syncAllExternalDirectories (s : SyncRepSettings) (root : Option ETree)
    (extWorld : List (String × ETree)) (v : Vault) : Vault × List Act :=
  if s.syncFolderPath = "" then (v, [])
  else
    match root with
    | none => (v, [])
    | some rootTree =>
      let (v, a1) := scanAndCreateAllDirectories s rootTree "" v
      let (v, a2) := scanExtFolders s s.externalIncludedFolders extWorld v
      let (v, a3, thrown) := syncDirectoryFromExternal s rootTree "" v
      if thrown then (v, a1 ++ a2 ++ a3)
      else
        let (v2, a4) := syncExtFolders s s.externalIncludedFolders extWorld v
        (v2, a1 ++ a2 ++ a3 ++ a4)

/-- The syncFromExternal command wrapper (main.ts lines 213-241): sets the
guard, runs the full synchronization, and schedules the guard clear
behind the 500 ms settling delay in the finally block. -/
def pluginSyncFromExternal (s : SyncRepSettings) (root : Option ETree)
    (extWorld : List (String × ETree)) (v : Vault) : Vault × List Act :=
  match root with
  | none => (v, [])
  | some rootTree =>
    if s.syncFolderPath = "" then (v, [])
    else
      let (v2, a) := syncAllExternalDirectories s (some rootTree) extWorld v
      (v2, Act.guardSet :: a ++ [Act.guardScheduleClear 500])

/-! ## Watch service callbacks (directorySync.ts lines 764-954) -/

/-- The recursive watcher callback (setupExternalWatcher, lines 775-856):
drop empty filenames, drop everything while the change guard is set, drop
excluded paths, then dispatch on the stat result.  The subtree argument
is the external tree below the event path, used by the directory-creation
dispatch; the 500 ms debounce before handleExternalFileChange does not
change which handler runs. -/
def watcherEvent (s : SyncRepSettings) (guard : Bool) (eventIsRename : Bool)
    (filename : String) (fs : ExtFS) (subtree : Option ETree)
    (v : Vault) : Vault × List Act :=
  if filename = "" then (v, [])
  else if guard then (v, [])
  else
    let normalizedFilename := normSlashes filename
    if isExcluded s normalizedFilename then (v, [])
    else
      let fullPath := pjoin s.syncFolderPath filename
      if fs.existsPath fullPath then
        if fs.isDir fullPath then
          if eventIsRename then
            match subtree with
            | some t => handleExternalDirectoryCreation s t normalizedFilename v
            | none => (v, [])
          else (v, [])
        else handleExternalFileChange s fs fullPath normalizedFilename v
      else
        if eventIsRename then
          let dirPath := pathDirname fullPath
          let baseName := pathBasename fullPath
          if fs.isDir dirPath then
            if !((fs.childDirs dirPath).contains baseName) then
              let relativeDirPath := normSlashes (pathRelative s.syncFolderPath fullPath)
              match v.getAbs relativeDirPath with
              | .vfolder => handleExternalDirectoryDeletion s relativeDirPath v
              | _ => handleExternalFileDeletion s normalizedFilename v
            else (v, [])
          else handleExternalFileDeletion s normalizedFilename v
        else (v, [])

/-- The fallback per-directory watcher callback (watchDirectory, lines
883-929): same guard gate, exclusion on the path relative to the sync
root, change dispatch for existing files, deletion dispatch on a rename
event for missing paths. -/
def watchDirectoryEvent (s : SyncRepSettings) (guard : Bool)
    (eventIsRename : Bool) (dirPath filename : String) (fs : ExtFS)
    (v : Vault) : Vault × List Act :=
  if filename = "" then (v, [])
  else if guard then (v, [])
  else
    let fullPath := pjoin dirPath filename
    let relativePath := normSlashes (pathRelative s.syncFolderPath fullPath)
    if isExcluded s relativePath then (v, [])
    else if fs.existsPath fullPath then
      if fs.isDir fullPath then (v, [])
      else handleExternalFileChange s fs fullPath relativePath v
    else if eventIsRename then handleExternalFileDeletion s relativePath v
    else (v, [])

/-! ## Derived predicates used by the verification -/

/-- Whether a vault entry is a folder. -/
def VEntry.isFolder : VEntry → Bool
  | .vfolder => true
  | _ => false

/-- Whether a vault entry is missing. -/
def VEntry.isMissing : VEntry → Bool
  | .vmissing => true
  | _ => false

/-- The managed path the ensure loop ends at: the progressive join of the
segments starting from the accumulator. -/
def foldPath (cur : String) : List String → String
  | [] => cur
  | seg :: rest => foldPath (if cur = "" then seg else cur ++ "/" ++ seg) rest

/-- Every progressive join the ensure loop visits. -/
def foldPathsAcc (cur : String) : List String → List String
  | [] => []
  | seg :: rest =>
    let cur2 := if cur = "" then seg else cur ++ "/" ++ seg
    cur2 :: foldPathsAcc cur2 rest

/-- The managed directories an ensureVaultDirectory call on the path can
create: every progressive slash-joined prefix of its segments. -/
def chainStrings (p : String) : List String :=
  foldPathsAcc "" (jsSplitSlash p)

/-- Slash-join of a segment list. -/
def joinWithSlash : List String → String
  | [] => ""
  | [x] => x
  | x :: xs => x ++ "/" ++ joinWithSlash xs

/-- A path whose slash segments are all nonempty, so the ensure loop
rebuilds exactly the path.  The empty path is not good (its single
segment is empty). -/
def goodPath (p : String) : Bool :=
  (jsSplitSlash p).all (fun seg => seg ≠ "")

/-- List disjointness used by the synchronization hypotheses. -/
def disjointL (a b : List String) : Bool :=
  a.all (fun p => !(b.contains p))

mutual

/-- Whether every read in the external tree succeeds. -/
def treeNoErr : ETree → Bool
  | .file (.ok _) => true
  | .file (.error _) => false
  | .dir (.ok entries) => entriesNoErr entries
  | .dir (.error _) => false

/-- List version of treeNoErr. -/
def entriesNoErr : List (String × ETree) → Bool
  | [] => true
  | (_, child) :: rest => treeNoErr child && entriesNoErr rest

end

mutual

/-- Whether the external tree contains no files at all. -/
def treeNoFiles : ETree → Bool
  | .file _ => false
  | .dir (.error _) => true
  | .dir (.ok entries) => entriesNoFiles entries

/-- List version of treeNoFiles. -/
def entriesNoFiles : List (String × ETree) → Bool
  | [] => true
  | (_, child) :: rest => treeNoFiles child && entriesNoFiles rest

end

mutual

/-- The managed paths of the files the walk of the tree from the given
relative root can create or modify: the participating file entries,
following exactly the gating of syncDirectoryFromExternal. -/
def walkFilePaths (s : SyncRepSettings) : ETree → String → List String
  | .file _, _ => []
  | .dir listing, rel =>
    if !(shouldSyncFile s rel) then []
    else
      match listing with
      | .error _ => []
      | .ok entries => walkFilePathsEntries s entries rel

/-- List version of walkFilePaths. -/
def walkFilePathsEntries (s : SyncRepSettings) :
    List (String × ETree) → String → List String
  | [], _ => []
  | (name, child) :: rest, rel =>
    let p := joinRel rel name
    (if !(shouldSyncFile s p) then []
     else
       match child with
       | .dir _ => walkFilePaths s child p
       | .file _ => [p]) ++ walkFilePathsEntries s rest rel

end

mutual

/-- An overapproximation of the managed directories the walk of the tree
can create: the ensure chains of every visited directory path and of the
parent of every participating file path. -/
def walkDirTargets (s : SyncRepSettings) : ETree → String → List String
  | .file _, _ => []
  | .dir listing, rel =>
    if !(shouldSyncFile s rel) then []
    else
      chainStrings rel ++
      match listing with
      | .error _ => []
      | .ok entries => walkDirTargetsEntries s entries rel

/-- List version of walkDirTargets. -/
def walkDirTargetsEntries (s : SyncRepSettings) :
    List (String × ETree) → String → List String
  | [], _ => []
  | (name, child) :: rest, rel =>
    let p := joinRel rel name
    (if !(shouldSyncFile s p) then []
     else
       match child with
       | .dir _ => walkDirTargets s child p
       | .file _ => chainStrings (pathDirname p)) ++ walkDirTargetsEntries s rest rel

end

mutual

/-- An overapproximation of the managed directories the structure scan of
the tree can create. -/
def scanDirTargets (s : SyncRepSettings) : ETree → String → List String
  | .file _, _ => []
  | .dir listing, rel =>
    if rel ≠ "" && !(shouldSyncFile s rel) then []
    else
      chainStrings rel ++
      match listing with
      | .error _ => []
      | .ok entries => scanDirTargetsEntries s entries rel

/-- List version of scanDirTargets. -/
def scanDirTargetsEntries (s : SyncRepSettings) :
    List (String × ETree) → String → List String
  | [], _ => []
  | (name, child) :: rest, rel =>
    (match child with
     | .dir _ => scanDirTargets s child (joinRel rel name)
     | .file _ => []) ++ scanDirTargetsEntries s rest rel

end

/-- Whether the managed entry at the path is a file matching the external
content under the kind-appropriate comparison of the engine. -/
def entryMatches (p : String) (c : Content) (v : Vault) : Bool :=
  match v.getAbs p with
  | .vfile c0 =>
    if isBinaryFileType p then readBinOf c0 == readBinOf c
    else readTextOf c0 == readTextOf c
  | _ => false

mutual

/-- Whether a walk of the tree from the given relative root finds nothing
to do: every visited directory path occupied, every participating file
present with matching content. -/
def Synced (s : SyncRepSettings) : ETree → String → Vault → Bool
  | .file _, _, _ => true
  | .dir listing, rel, v =>
    if !(shouldSyncFile s rel) then true
    else
      !(v.getAbs rel).isMissing &&
      match listing with
      | .error _ => true
      | .ok entries => SyncedEntries s entries rel v

/-- List version of Synced. -/
def SyncedEntries (s : SyncRepSettings) :
    List (String × ETree) → String → Vault → Bool
  | [], _, _ => true
  | (name, child) :: rest, rel, v =>
    let p := joinRel rel name
    (if !(shouldSyncFile s p) then true
     else
       match child with
       | .dir _ => Synced s child p v
       | .file (.error _) => true
       | .file (.ok c) => entryMatches p c v) && SyncedEntries s rest rel v

end

mutual

/-- Whether the structure scan of the tree finds nothing to do: every
participating directory path occupied. -/
def ScanSynced (s : SyncRepSettings) : ETree → String → Vault → Bool
  | .file _, _, _ => true
  | .dir listing, rel, v =>
    if rel ≠ "" && !(shouldSyncFile s rel) then true
    else
      (rel = "" || !(v.getAbs rel).isMissing) &&
      match listing with
      | .error _ => true
      | .ok entries => ScanSyncedEntries s entries rel v

/-- List version of ScanSynced. -/
def ScanSyncedEntries (s : SyncRepSettings) :
    List (String × ETree) → String → Vault → Bool
  | [], _, _ => true
  | (name, child) :: rest, rel, v =>
    (match child with
     | .dir _ => ScanSynced s child (joinRel rel name) v
     | .file _ => true) && ScanSyncedEntries s rest rel v

end

/-- The file paths and directory targets of one gated walk entry. -/
def entryPart (s : SyncRepSettings) (rel : String)
    (e : String × ETree) : List String × List String :=
  let p := joinRel rel e.1
  if !(shouldSyncFile s p) then ([], [])
  else
    match e.2 with
    | .dir _ => (walkFilePaths s e.2 p, walkDirTargets s e.2 p)
    | .file _ => ([p], chainStrings (pathDirname p))

/-- The parts of all entries of a node. -/
def entryParts (s : SyncRepSettings) (entries : List (String × ETree))
    (rel : String) : List (List String × List String) :=
  entries.map (entryPart s rel)

/-- Pairwise separation of the entry parts of a node: each entry avoids
its own directory targets, distinct entries have disjoint file paths, and
no file path of one entry is a directory target of another. -/
def partsOK : List (List String × List String) → Bool
  | [] => true
  | (ps, ts) :: rest =>
    disjointL ps ts &&
    rest.all (fun pt =>
      disjointL ps pt.1 && disjointL pt.1 ps &&
      disjointL ps pt.2 && disjointL pt.1 ts) &&
    partsOK rest

mutual

/-- Wellformedness of a walk: at every participating directory node the
entry parts are pairwise separated, no participating file path lies on
the ensure chain of the node, and every participating entry path has
nonempty slash segments.  These facts hold of every tree that models an
actual filesystem below the relative root. -/
def walkTidy (s : SyncRepSettings) : ETree → String → Bool
  | .file _, _ => true
  | .dir listing, rel =>
    if !(shouldSyncFile s rel) then true
    else
      match listing with
      | .error _ => true
      | .ok entries =>
        partsOK (entryParts s entries rel) &&
        disjointL (walkFilePathsEntries s entries rel) (chainStrings rel) &&
        walkTidyEntries s entries rel

/-- List version of walkTidy. -/
def walkTidyEntries (s : SyncRepSettings) :
    List (String × ETree) → String → Bool
  | [], _ => true
  | (name, child) :: rest, rel =>
    let p := joinRel rel name
    (if !(shouldSyncFile s p) then true
     else
       goodPath p &&
       match child with
       | .dir _ => walkTidy s child p
       | .file _ => true) && walkTidyEntries s rest rel

end

mutual

/-- Wellformedness of a structure scan: every explored directory path has
nonempty slash segments. -/
def scanTidy (s : SyncRepSettings) : ETree → String → Bool
  | .file _, _ => true
  | .dir listing, rel =>
    if rel ≠ "" && !(shouldSyncFile s rel) then true
    else
      match listing with
      | .error _ => true
      | .ok entries => scanTidyEntries s entries rel

/-- List version of scanTidy. -/
def scanTidyEntries (s : SyncRepSettings) :
    List (String × ETree) → String → Bool
  | [], _ => true
  | (name, child) :: rest, rel =>
    (match child with
     | .dir _ => goodPath (joinRel rel name) && scanTidy s child (joinRel rel name)
     | .file _ => true) && scanTidyEntries s rest rel

end

/-- No managed folder occupies a participating external file path of the
walk (the clash that makes the engine retry a create on every run). -/
def walkClashFree (s : SyncRepSettings) (t : ETree) (rel : String)
    (v : Vault) : Bool :=
  (walkFilePaths s t rel).all (fun p => !(v.getAbs p).isFolder)

/-- The walks full synchronization performs: the sync root under the empty
relative root, then each configured external folder that exists under its
relative root. -/
def allWalks (s : SyncRepSettings) (rootTree : ETree)
    (extWorld : List (String × ETree)) : List (String × ETree) :=
  ("", rootTree) ::
    s.externalIncludedFolders.filterMap (fun f =>
      (extWorld.lookup f).map (fun t => (extRelFor s f, t)))

/-- Cross-walk separation: distinct walks have disjoint participating file
paths, and no file path of one walk is a directory target (of the scan or
of the walk) of any walk. -/
def crossOK (s : SyncRepSettings) : List (String × ETree) → Bool
  | [] => true
  | w :: rest =>
    disjointL (walkFilePaths s w.2 w.1) (walkDirTargets s w.2 w.1) &&
    disjointL (walkFilePaths s w.2 w.1) (scanDirTargets s w.2 w.1) &&
    rest.all (fun w2 =>
      disjointL (walkFilePaths s w.2 w.1) (walkFilePaths s w2.2 w2.1) &&
      disjointL (walkFilePaths s w2.2 w2.1) (walkFilePaths s w.2 w.1) &&
      disjointL (walkFilePaths s w.2 w.1) (walkDirTargets s w2.2 w2.1) &&
      disjointL (walkFilePaths s w2.2 w2.1) (walkDirTargets s w.2 w.1) &&
      disjointL (walkFilePaths s w.2 w.1) (scanDirTargets s w2.2 w2.1) &&
      disjointL (walkFilePaths s w2.2 w2.1) (scanDirTargets s w.2 w.1)) &&
    crossOK s rest

/-- The hypotheses of the amended idempotence property, decidable over a
concrete world: every walk reads without failure, is tidy, starts free of
folder-over-file clashes, and has a wellformed relative root; the walks
are pairwise separated.  All of it holds of a world where the external
trees mirror actual directories and the configured external folders lie
outside the sync root. -/
def FullSyncHyp (s : SyncRepSettings) (rootTree : ETree)
    (extWorld : List (String × ETree)) (v : Vault) : Bool :=
  (allWalks s rootTree extWorld).all (fun w =>
    treeNoErr w.2 && walkTidy s w.2 w.1 && scanTidy s w.2 w.1 &&
    walkClashFree s w.2 w.1 v &&
    (w.1 = "" || goodPath w.1)) &&
  crossOK s (allWalks s rootTree extWorld)

/-- Phase 1 of full synchronization: the structure scans (directorySync.ts
lines 1476-1495). -/
def fullSyncPhase1 (s : SyncRepSettings) (rootTree : ETree)
    (extWorld : List (String × ETree)) (v : Vault) : Vault × List Act :=
  let (v, a1) := scanAndCreateAllDirectories s rootTree "" v
  let (v2, a2) := scanExtFolders s s.externalIncludedFolders extWorld v
  (v2, a1 ++ a2)

/-- Phase 2 of full synchronization: the content walks (directorySync.ts
lines 1497-1514). -/
def fullSyncPhase2 (s : SyncRepSettings) (rootTree : ETree)
    (extWorld : List (String × ETree)) (v : Vault) : Vault × List Act :=
  let (v, a3, thrown) := syncDirectoryFromExternal s rootTree "" v
  if thrown then (v, a3)
  else
    let (v2, a4) := syncExtFolders s s.externalIncludedFolders extWorld v
    (v2, a3 ++ a4)

/-- Whether the last trace entry is a guard clear scheduled behind a
settling delay. -/
def lastIsDelayedClear (tr : List Act) : Bool :=
  match tr.getLast? with
  | some (Act.guardScheduleClear _) => true
  | _ => false

/-- Whether an action is a managed-store write call on the given path. -/
def writesPath (p : String) : Act → Bool
  | .vaultCreate q _ => q = p
  | .vaultModify q _ => q = p
  | _ => false

/-- The source directory a moveDirectoryContents call works under. -/
def MdcCall.sourceDir : MdcCall → String
  | .top sd _ => sd
  | .fileLoop sd _ _ => sd
  | .dirLoop sd _ _ => sd

/-- Whether the pending names of a moveDirectoryContents call are nonempty,
as every name produced by a directory listing is. -/
def MdcCall.namesOK : MdcCall → Bool
  | .top _ _ => true
  | .fileLoop _ _ names => names.all (fun n => n ≠ "")
  | .dirLoop _ _ names => names.all (fun n => n ≠ "")

/-! ## Concrete worlds used by the witnesses and counterexamples -/

/-- A configuration in the all-except-excluded mode with the folder old
excluded. -/
def cfgAll : SyncRepSettings :=
  { syncFolderPath := "/r", syncOnSave := true, syncInterval := 0,
    excludedFolders := ["old"], includedFolders := [],
    externalIncludedFolders := [], syncMode := .all, debugMode := false }

/-- A configuration in the include-list mode where the folder a is both
included and excluded. -/
def cfgInc : SyncRepSettings :=
  { syncFolderPath := "/r", syncOnSave := true, syncInterval := 0,
    excludedFolders := ["a"], includedFolders := ["a"],
    externalIncludedFolders := [], syncMode := .includeMode, debugMode := false }

/-- The empty vault. -/
def vaultEmpty : Vault := { files := [], folders := [] }

/-- A vault holding one folder named x. -/
def vaultFolderX : Vault := { files := [], folders := ["x"] }

/-- An external store where both the rename source a and the rename target
b exist and a holds one file. -/
def extfsMerge : ExtFS :=
  { files := [("/r/a/x.md", .text "hi")], dirs := ["/r", "/r/a", "/r/b"] }

/-- An external store holding one note at the sync root. -/
def extfsNote : ExtFS :=
  { files := [("/r/n.md", .text "hello")], dirs := ["/r"] }

/-- An external tree holding one file named x at the root. -/
def treeClash : ETree := .dir (.ok [("x", .file (.ok (.text "hi")))])

/-- An external tree where the listing of the subdirectory a fails and a
file z follows it. -/
def treeErr : ETree :=
  .dir (.ok [("a", .dir (.error "EACCES")), ("z", .file (.ok (.text "zz")))])

/-- A clean external tree: a directory with a note and an empty directory. -/
def treeClean : ETree :=
  .dir (.ok [("d", .dir (.ok [("n.md", .file (.ok (.text "hi")))])),
             ("e", .dir (.ok []))])

/-- An external tree holding exactly one empty directory. -/
def treeEmptyDir : ETree := .dir (.ok [("d", .dir (.ok []))])

/-- Slash-join of character segments, the shape the ensure loop rebuilds. -/
def joinCharList : List (List Char) → List Char
  | [] => []
  | [x] => x
  | x :: xs => x ++ '/' :: joinCharList xs

/-- Preservation contract of an inbound operation: files outside the
avoided set keep their exact content, folders stay folders, and present
entries stay present. -/
def PresStep (v w : Vault) (avoid : List String) : Prop :=
  (∀ p c, v.getAbs p = VEntry.vfile c → p ∉ avoid → w.getAbs p = VEntry.vfile c)
  ∧ (∀ p, v.getAbs p = VEntry.vfolder → w.getAbs p = VEntry.vfolder)
  ∧ (∀ p, v.getAbs p ≠ VEntry.vmissing → w.getAbs p ≠ VEntry.vmissing)

/-- Folder-creation contract of an inbound operation: a folder appears at
a path only when it was already there or the path is among the targets. -/
def FolderChar (v w : Vault) (targets : List String) : Prop :=
  ∀ p, w.getAbs p = VEntry.vfolder → v.getAbs p = VEntry.vfolder ∨ p ∈ targets

/-- The walks the external-folder loops perform for a given folder list. -/
def extWalksOf (s : SyncRepSettings) (folders : List String)
    (extWorld : List (String × ETree)) : List (String × ETree) :=
  folders.filterMap (fun f =>
    (extWorld.lookup f).map (fun t => (extRelFor s f, t)))

/-- All participating file paths of a list of walks. -/
def walksFilePaths (s : SyncRepSettings) (ws : List (String × ETree)) : List String :=
  ws.flatMap (fun w => walkFilePaths s w.2 w.1)

/-- All walk directory targets of a list of walks. -/
def walksDirTargets (s : SyncRepSettings) (ws : List (String × ETree)) : List String :=
  ws.flatMap (fun w => walkDirTargets s w.2 w.1)

/-- All scan directory targets of a list of walks. -/
def walksScanTargets (s : SyncRepSettings) (ws : List (String × ETree)) : List String :=
  ws.flatMap (fun w => scanDirTargets s w.2 w.1)

/-- The create-the-missing-managed-directory step shared by the walk and
the structure scan, split out for the contract proofs below. -/
def walkEnsure (rel : String) (v : Vault) : Vault × List Act :=
  match v.getAbs rel with
  | .vmissing => ensureVaultDirectory rel v
  | _ => (v, [])

/-- The create-and-retry tail of the content-difference write step, split
out for the contract proofs below. -/
def iwsCreate (q : String) (b : Bool) (c : Content) (v : Vault) : Vault × List Act :=
  let stored := if b then Content.bin (readBinOf c) else Content.text (readTextOf c)
  let parentDir := pathDirname q
  let (v1, acts) :=
    if parentDir ≠ "" && parentDir ≠ "." then ensureVaultDirectory parentDir v
    else (v, [])
  let (v2, ok) := vaultCreateCall v1 q stored
  let acts2 := acts ++ [Act.vaultCreate q stored]
  if ok then (v2, acts2)
  else
    match v2.getAbs q with
    | .vfile c0 =>
      if (if b then readBinOf c0 ≠ readBinOf c else readTextOf c0 ≠ readTextOf c) then
        (vaultModifyApply v2 q stored, acts2 ++ [Act.vaultModify q stored])
      else (v2, acts2)
    | _ => (v2, acts2)

/-! ## Basic lemmas about the store models -/

theorem lookup_writeFile_self (fs : ExtFS) (p : String) (c : Content) :
    (fs.writeFile p c).files.lookup p = some c := by
  simp [ExtFS.writeFile, List.lookup]

/-! ## C10 -/

/-- C10: in the include mode shouldSyncFile never consults the
excluded-folders list: every path under an included folder, or under a
folder named like the basename of a configured external folder, is
synchronized even when it also lies under an excludedFolders entry. -/
theorem c10_include_mode_ignores_exclusions (s : SyncRepSettings) (p : String)
    (hmode : s.syncMode = SyncMode.includeMode)
    (hin : isIncluded s p = true ∨ isExternalIncluded s p = true) :
    shouldSyncFile s p = true := by
  unfold shouldSyncFile
  rw [hmode]
  rcases hin with h | h <;> simp [h]

/-- Witness for C10: a concrete configuration where the path is both
included and excluded, and shouldSyncFile still accepts it. -/
theorem c10_witness :
    (cfgInc.syncMode = SyncMode.includeMode
      ∧ isIncluded cfgInc "a/x.md" = true
      ∧ isExcluded cfgInc "a/x.md" = true)
    ∧ shouldSyncFile cfgInc "a/x.md" = true :=
  ⟨by decide,
   c10_include_mode_ignores_exclusions cfgInc "a/x.md" (by decide)
     (Or.inl (by decide))⟩

/-! ## C4 -/

/-- C4: while the change guard flag is set, both watcher callbacks return
without dispatching any inbound handling: the managed store is untouched
and no call is recorded. -/
theorem c4_guard_blocks_watch_events (s : SyncRepSettings)
    (eventIsRename : Bool) (filename dirPath : String) (fs : ExtFS)
    (subtree : Option ETree) (v : Vault) :
    watcherEvent s true eventIsRename filename fs subtree v = (v, [])
    ∧ watchDirectoryEvent s true eventIsRename dirPath filename fs v = (v, []) := by
  constructor
  · unfold watcherEvent
    split
    · rfl
    · rfl
  · unfold watchDirectoryEvent
    split
    · rfl
    · rfl

/-! ## C6 -/

/-- C6: for a managed file passing the policy whose external path
resolves, syncFile reads the content with kind-appropriate decoding
(binary for extensions on the allow-list, utf8 text otherwise), creates
the external parent directory when absent, and always writes the content
to the external path: the write call fires for every prior external
state, with no pre-write comparison, and the external file afterwards
holds exactly the written content. -/
theorem c6_syncFile_always_writes (s : SyncRepSettings) (v : Vault)
    (filePath dest : String) (c : Content) (fs : ExtFS)
    (hsync : shouldSyncFile s filePath = true)
    (hdest : getExternalPath s filePath = some dest)
    (hfile : v.getAbs filePath = VEntry.vfile c) :
    (syncFile s v filePath fs).2 =
      (if fs.existsPath (pathDirname dest) then ([] : List Act)
       else [Act.extMkdir (pathDirname dest)])
      ++ [Act.extWrite dest
            (if isBinaryFileType filePath then Content.bin (readBinOf c)
             else Content.text (readTextOf c))]
    ∧ (syncFile s v filePath fs).1.files.lookup dest =
        some (if isBinaryFileType filePath then Content.bin (readBinOf c)
              else Content.text (readTextOf c)) := by
  unfold syncFile
  rw [hsync, hdest, hfile]
  by_cases hdir : fs.existsPath (pathDirname dest) = true
  · simp [hdir, lookup_writeFile_self]
  · simp at hdir
    simp [hdir, lookup_writeFile_self]

/-- Witness for C6: syncFile on a concrete world overwrites an external
file that already holds different content, with no comparison. -/
theorem c6_witness :
    (shouldSyncFile cfgAll "n.md" = true
      ∧ getExternalPath cfgAll "n.md" = some "/r/n.md"
      ∧ Vault.getAbs { files := [("n.md", Content.text "new")], folders := [] } "n.md"
          = VEntry.vfile (Content.text "new")
      ∧ extfsNote.files.lookup "/r/n.md" = some (Content.text "hello"))
    ∧ (syncFile cfgAll { files := [("n.md", Content.text "new")], folders := [] }
         "n.md" extfsNote).2 =
        (if extfsNote.existsPath (pathDirname "/r/n.md") then ([] : List Act)
         else [Act.extMkdir (pathDirname "/r/n.md")])
        ++ [Act.extWrite "/r/n.md"
              (if isBinaryFileType "n.md" then Content.bin (readBinOf (Content.text "new"))
               else Content.text (readTextOf (Content.text "new")))]
    ∧ (syncFile cfgAll { files := [("n.md", Content.text "new")], folders := [] }
         "n.md" extfsNote).1.files.lookup "/r/n.md" =
        some (if isBinaryFileType "n.md" then Content.bin (readBinOf (Content.text "new"))
              else Content.text (readTextOf (Content.text "new"))) := by
  refine ⟨by decide, ?_⟩
  exact c6_syncFile_always_writes cfgAll _ "n.md" "/r/n.md" (Content.text "new")
    extfsNote (by decide) (by decide) (by decide)

/-! ## C7 -/

/-- C7: with both external paths resolved, handleFileRename creates the
missing new parent directory and performs one filesystem rename — no copy
and no delete appear in the trace — returning true, when the old external
path exists; when it is missing the operation performs no external write,
returns false, and the rename event handler then falls back to a fresh
syncFile on the new path. -/
theorem c7_handleFileRename_spec (s : SyncRepSettings)
    (oldPath newPath oldExt newExt : String) (fs : ExtFS) (v : Vault)
    (confirmed : Bool)
    (h1 : getExternalPath s oldPath = some oldExt)
    (h2 : getExternalPath s newPath = some newExt) :
    (fs.existsPath oldExt = true →
      (handleFileRename s oldPath newPath fs).2.2 = some true
      ∧ (handleFileRename s oldPath newPath fs).2.1 =
          (if fs.existsPath (pathDirname newExt) then ([] : List Act)
           else [Act.extMkdir (pathDirname newExt)])
          ++ [Act.extRename oldExt newExt]
      ∧ (∀ src dst, Act.extCopy src dst ∉ (handleFileRename s oldPath newPath fs).2.1)
      ∧ (∀ q, Act.extDelete q ∉ (handleFileRename s oldPath newPath fs).2.1))
    ∧ (fs.existsPath oldExt = false →
      (handleFileRename s oldPath newPath fs).2.2 = some false
      ∧ (handleFileRename s oldPath newPath fs).2.1 = []
      ∧ (handleFileRename s oldPath newPath fs).1 = fs
      ∧ (shouldSyncFile s oldPath = true → shouldSyncFile s newPath = true →
          onFileRenameEvent s v oldPath newPath confirmed fs = syncFile s v newPath fs)) := by
  constructor
  · intro hex
    unfold handleFileRename
    rw [h1, h2]
    by_cases hdir : fs.existsPath (pathDirname newExt) = true
    · simp [hex, hdir]
    · simp at hdir
      simp [hex, hdir]
  · intro hex
    have hbase :
        handleFileRename s oldPath newPath fs = (fs, [], some false) := by
      unfold handleFileRename
      rw [h1, h2]
      simp [hex]
    refine ⟨by rw [hbase], by rw [hbase], by rw [hbase], ?_⟩
    intro ho hn
    unfold onFileRenameEvent
    rw [ho, hn, hbase]
    simp

/-- Witness for C7: both branches at concrete inputs.  The rename branch
fires on a world where the old external file exists; the fallback branch
fires on the empty external store. -/
theorem c7_witness :
    ((handleFileRename cfgAll "n.md" "m.md" extfsNote).2.2 = some true
      ∧ (handleFileRename cfgAll "n.md" "m.md" extfsNote).2.1 =
          (if extfsNote.existsPath (pathDirname "/r/m.md") then ([] : List Act)
           else [Act.extMkdir (pathDirname "/r/m.md")])
          ++ [Act.extRename "/r/n.md" "/r/m.md"])
    ∧ ((handleFileRename cfgAll "n.md" "m.md" { files := [], dirs := [] }).2.2 = some false
      ∧ onFileRenameEvent cfgAll vaultEmpty "n.md" "m.md" true { files := [], dirs := [] }
          = syncFile cfgAll vaultEmpty "m.md" { files := [], dirs := [] }) := by
  have hA := c7_handleFileRename_spec cfgAll "n.md" "m.md" "/r/n.md" "/r/m.md"
    extfsNote vaultEmpty true (by decide) (by decide)
  have hB := c7_handleFileRename_spec cfgAll "n.md" "m.md" "/r/n.md" "/r/m.md"
    { files := [], dirs := [] } vaultEmpty true (by decide) (by decide)
  refine ⟨⟨(hA.1 (by decide)).1, (hA.1 (by decide)).2.1⟩,
          ⟨(hB.2 (by decide)).1, ?_⟩⟩
  exact (hB.2 (by decide)).2.2.2 (by decide) (by decide)

/-! ## C5 -/

theorem lastIsDelayedClear_concat (l : List Act) (ms : Nat) :
    lastIsDelayedClear (l ++ [Act.guardScheduleClear ms]) = true := by
  simp [lastIsDelayedClear, List.getLast?_concat]

theorem getLast_concat_act (l : List Act) (x : Act) :
    (l ++ [x]).getLast? = some x := by
  simp [List.getLast?_concat]

/-- C5 counterexample: a concrete run of handleExternalFileChange that
performs an inbound-triggered managed write and whose trace ends with a
synchronous guard clear, not with a clear scheduled behind the settling
delay — refuting the claim that the guard is never cleared synchronously
at the end of the inbound handler. -/
theorem c5_counterexample :
    Act.vaultCreate "n.md" (Content.text "hello")
        ∈ (handleExternalFileChange cfgAll extfsNote "/r/n.md" "n.md" vaultEmpty).2
    ∧ lastIsDelayedClear
        (handleExternalFileChange cfgAll extfsNote "/r/n.md" "n.md" vaultEmpty).2 = false
    ∧ (handleExternalFileChange cfgAll extfsNote "/r/n.md" "n.md" vaultEmpty).2.getLast?
        = some Act.guardClear := by
  refine ⟨?_, by decide, by decide⟩
  decide

/-- C5 as amended: handleExternalFileDeletion and the full-sync command
wrapper set the guard first and clear it only through the 500 ms settling
delay, but handleExternalFileChange clears the guard synchronously in its
finally block: its trace always ends with the synchronous clear. -/
theorem c5_amended_guard_clear_discipline (s : SyncRepSettings)
    (relativePath fullPath : String) (fs : ExtFS) (v : Vault) (t : ETree)
    (extWorld : List (String × ETree))
    (hpath : s.syncFolderPath ≠ "") :
    ((handleExternalFileDeletion s relativePath v).2.head? = some Act.guardSet
      ∧ lastIsDelayedClear (handleExternalFileDeletion s relativePath v).2 = true)
    ∧ ((pluginSyncFromExternal s (some t) extWorld v).2.head? = some Act.guardSet
      ∧ lastIsDelayedClear (pluginSyncFromExternal s (some t) extWorld v).2 = true)
    ∧ ((handleExternalFileChange s fs fullPath relativePath v).2.head? = some Act.guardSet
      ∧ (handleExternalFileChange s fs fullPath relativePath v).2.getLast?
          = some Act.guardClear) := by
  refine ⟨?_, ?_, ?_⟩
  · unfold handleExternalFileDeletion
    rcases h : (if (!shouldSyncFile s relativePath) = true then (v, ([] : List Act))
      else
        match v.getAbs relativePath with
        | .vfile _ => moveFileToTrash relativePath v
        | _ => (v, [])) with ⟨v2, body⟩
    exact ⟨rfl, lastIsDelayedClear_concat (Act.guardSet :: body) 500⟩
  · unfold pluginSyncFromExternal
    simp only [hpath, if_neg, ite_false]
    rcases h : syncAllExternalDirectories s (some t) extWorld v with ⟨v2, a⟩
    exact ⟨rfl, lastIsDelayedClear_concat (Act.guardSet :: a) 500⟩
  · unfold handleExternalFileChange
    rcases h : (if (!shouldSyncFile s relativePath) = true then (v, ([] : List Act))
      else
        match fs.files.lookup fullPath with
        | none => (v, [])
        | some c =>
          inboundWriteStep (substVaultPath s fullPath relativePath)
            (isBinaryFileType (substVaultPath s fullPath relativePath)) c v) with ⟨v2, body⟩
    exact ⟨rfl, getLast_concat_act (Act.guardSet :: body) Act.guardClear⟩

/-- Witness for C5: the amended guard discipline at a concrete world. -/
theorem c5_witness :
    ((handleExternalFileDeletion cfgAll "n.md" vaultEmpty).2.head? = some Act.guardSet
      ∧ lastIsDelayedClear (handleExternalFileDeletion cfgAll "n.md" vaultEmpty).2 = true)
    ∧ ((pluginSyncFromExternal cfgAll (some treeClean) [] vaultEmpty).2.head?
          = some Act.guardSet
      ∧ lastIsDelayedClear (pluginSyncFromExternal cfgAll (some treeClean) [] vaultEmpty).2
          = true)
    ∧ ((handleExternalFileChange cfgAll extfsNote "/r/n.md" "n.md" vaultEmpty).2.head?
          = some Act.guardSet
      ∧ (handleExternalFileChange cfgAll extfsNote "/r/n.md" "n.md" vaultEmpty).2.getLast?
          = some Act.guardClear) :=
  c5_amended_guard_clear_discipline cfgAll "n.md" "/r/n.md" extfsNote vaultEmpty
    treeClean [] (by decide)

/-! ## C8 -/

/-- C8 counterexample: a folder rename where both external directories
exist; after the merge the source directory is empty and yet remains on
disk — refuting the claim that the merged source directory remains only
if it is non-empty. -/
theorem c8_counterexample :
    (extfsMerge.existsPath "/r/a" = true ∧ extfsMerge.existsPath "/r/b" = true)
    ∧ (handleFolderRename cfgAll 9 "a" "b" extfsMerge).1.readdirNames "/r/a" = []
    ∧ (handleFolderRename cfgAll 9 "a" "b" extfsMerge).1.dirs.contains "/r/a" = true
    ∧ (handleFolderRename cfgAll 9 "a" "b" extfsMerge).1.files.lookup "/r/b/x.md"
        = some (Content.text "hi") := by
  refine ⟨by decide, by decide, by decide, by decide⟩

theorem childNameOf_ne_empty (d p n : String) (h : childNameOf d p = some n) :
    n ≠ "" := by
  simp only [childNameOf] at h
  split at h
  · split at h
    · rename_i hcond
      simp only [Option.some.injEq] at h
      subst h
      simp only [Bool.and_eq_true, decide_eq_true_eq] at hcond
      exact hcond.1
    · exact absurd h (by simp)
  · exact absurd h (by simp)

theorem childFiles_ne_empty (fs : ExtFS) (d n : String)
    (h : n ∈ fs.childFiles d) : n ≠ "" := by
  unfold ExtFS.childFiles at h
  have h2 := List.mem_dedup.mp h
  obtain ⟨e, _, he⟩ := List.mem_filterMap.mp h2
  exact childNameOf_ne_empty d e.1 n he

theorem childDirs_ne_empty (fs : ExtFS) (d n : String)
    (h : n ∈ fs.childDirs d) : n ≠ "" := by
  unfold ExtFS.childDirs at h
  have h2 := List.mem_dedup.mp h
  obtain ⟨q, _, he⟩ := List.mem_filterMap.mp h2
  exact childNameOf_ne_empty d q n he

theorem pjoin_length_gt (sd n : String) (hsd : sd ≠ "") (hn : n ≠ "") :
    sd.length < (pjoin sd n).length := by
  unfold pjoin
  rw [if_neg hsd, if_neg hn]
  show sd.data.length < (sd ++ "/" ++ n).data.length
  have hd : (sd ++ "/" ++ n).data = sd.data ++ '/' :: n.data := by
    simp [String.data_append]
  rw [hd]
  simp

theorem pjoin_ne_empty (sd n : String) (hsd : sd ≠ "") (hn : n ≠ "") :
    pjoin sd n ≠ "" := by
  intro he
  have := pjoin_length_gt sd n hsd hn
  rw [he] at this
  have h0 : ("" : String).length = 0 := rfl
  omega

theorem mdcRun_rmdir_longer (fuel : Nat) :
    ∀ (call : MdcCall) (fs : ExtFS),
      call.sourceDir ≠ "" → call.namesOK = true →
      ∀ p, Act.extRmdir p ∈ (mdcRun fuel call fs).2 →
        call.sourceDir.length < p.length := by
  induction fuel with
  | zero =>
    intro call fs _ _ p hp
    simp [mdcRun] at hp
  | succ fuel ih =>
    intro call fs hsd hok p hp
    match call with
    | MdcCall.top sd td =>
      simp only [MdcCall.sourceDir] at hsd ⊢
      rw [show mdcRun (Nat.succ fuel) (.top sd td) fs =
          (let pr0 := if (!fs.existsPath td) = true then
              (fs.mkdirRecursive td, [Act.extMkdir td]) else (fs, [])
           let pr1 := mdcRun fuel (.fileLoop sd td (pr0.1.childFiles sd)) pr0.1
           let pr2 := mdcRun fuel (.dirLoop sd td (pr0.1.childDirs sd)) pr1.1
           (pr2.1, pr0.2 ++ pr1.2 ++ pr2.2)) from rfl] at hp
      simp only at hp
      rcases List.mem_append.mp hp with hp1 | hp2
      · rcases List.mem_append.mp hp1 with hp0 | hp1
        · by_cases hex : fs.existsPath td = true <;> simp [hex] at hp0
        · refine ih (.fileLoop sd td _) _ hsd ?_ p hp1
          simp only [MdcCall.namesOK, List.all_eq_true]
          intro n hn
          exact decide_eq_true (childFiles_ne_empty _ sd n hn)
      · refine ih (.dirLoop sd td _) _ hsd ?_ p hp2
        simp only [MdcCall.namesOK, List.all_eq_true]
        intro n hn
        exact decide_eq_true (childDirs_ne_empty _ sd n hn)
    | MdcCall.fileLoop sd td names =>
      simp only [MdcCall.sourceDir] at hsd ⊢
      match names with
      | [] => simp [mdcRun] at hp
      | n :: rest =>
        rw [show mdcRun (Nat.succ fuel) (.fileLoop sd td (n :: rest)) fs =
            (let fs2 := ((fs.copyFile (pjoin sd n) (pjoin td n)).unlink (pjoin sd n))
             let pr := mdcRun fuel (.fileLoop sd td rest) fs2
             (pr.1, Act.extCopy (pjoin sd n) (pjoin td n) :: Act.extDelete (pjoin sd n) :: pr.2))
            from rfl] at hp
        simp only [List.mem_cons] at hp
        rcases hp with h | h | h
        · exact absurd h (by simp)
        · exact absurd h (by simp)
        · have hok2 : (MdcCall.fileLoop sd td rest).namesOK = true := by
            simp only [MdcCall.namesOK, List.all_eq_true] at hok ⊢
            intro x hx
            exact hok x (List.mem_cons_of_mem n hx)
          exact ih (.fileLoop sd td rest) _ hsd hok2 p h
    | MdcCall.dirLoop sd td names =>
      simp only [MdcCall.sourceDir] at hsd ⊢
      match names with
      | [] => simp [mdcRun] at hp
      | n :: rest =>
        have hn : n ≠ "" := by
          simp only [MdcCall.namesOK, List.all_eq_true] at hok
          have := hok n (List.mem_cons_self n rest)
          exact of_decide_eq_true this
        rw [show mdcRun (Nat.succ fuel) (.dirLoop sd td (n :: rest)) fs =
            (let pr1 := mdcRun fuel (.top (pjoin sd n) (pjoin td n)) fs
             let pr2 := if pr1.1.readdirNames (pjoin sd n) = [] then
                 (pr1.1.rmdir (pjoin sd n), [Act.extRmdir (pjoin sd n)]) else (pr1.1, [])
             let pr3 := mdcRun fuel (.dirLoop sd td rest) pr2.1
             (pr3.1, pr1.2 ++ pr2.2 ++ pr3.2)) from rfl] at hp
        simp only at hp
        rcases List.mem_append.mp hp with hp1 | hp3
        · rcases List.mem_append.mp hp1 with hp1 | hp2
          · have hlt := ih (.top (pjoin sd n) (pjoin td n)) fs
              (pjoin_ne_empty sd n hsd hn) (by simp [MdcCall.namesOK]) p hp1
            simp only [MdcCall.sourceDir] at hlt
            have := pjoin_length_gt sd n hsd hn
            omega
          · by_cases hre : ((mdcRun fuel (.top (pjoin sd n) (pjoin td n)) fs).1.readdirNames
                (pjoin sd n)) = [] <;> simp [hre] at hp2
            rw [hp2]
            exact pjoin_length_gt sd n hsd hn
        · have hok2 : (MdcCall.dirLoop sd td rest).namesOK = true := by
            simp only [MdcCall.namesOK, List.all_eq_true] at hok ⊢
            intro x hx
            exact hok x (List.mem_cons_of_mem n hx)
          exact ih (.dirLoop sd td rest) _ hsd hok2 p hp3

theorem mdcRun_preserves_short_dirs (fuel : Nat) :
    ∀ (call : MdcCall) (fs : ExtFS) (q : String),
      call.sourceDir ≠ "" → call.namesOK = true →
      q.length ≤ call.sourceDir.length → q ∈ fs.dirs →
      q ∈ (mdcRun fuel call fs).1.dirs := by
  induction fuel with
  | zero =>
    intro call fs q _ _ _ hq
    simpa [mdcRun] using hq
  | succ fuel ih =>
    intro call fs q hsd hok hlen hq
    match call with
    | MdcCall.top sd td =>
      simp only [MdcCall.sourceDir] at hsd hlen
      rw [show mdcRun (Nat.succ fuel) (.top sd td) fs =
          (let pr0 := if (!fs.existsPath td) = true then
              (fs.mkdirRecursive td, [Act.extMkdir td]) else (fs, [])
           let pr1 := mdcRun fuel (.fileLoop sd td (pr0.1.childFiles sd)) pr0.1
           let pr2 := mdcRun fuel (.dirLoop sd td (pr0.1.childDirs sd)) pr1.1
           (pr2.1, pr0.2 ++ pr1.2 ++ pr2.2)) from rfl]
      simp only
      set pr0 := (if (!fs.existsPath td) = true then
          (fs.mkdirRecursive td, [Act.extMkdir td]) else (fs, [])) with hpr0
      have hq0 : q ∈ pr0.1.dirs := by
        rw [hpr0]
        by_cases hex : fs.existsPath td = true
        · simpa [hex] using hq
        · simp only [hex]
          simp only [Bool.not_eq_true] at hex
          simp [hex, ExtFS.mkdirRecursive]
          right
          exact hq
      have hq1 := ih (.fileLoop sd td (pr0.1.childFiles sd)) pr0.1 q hsd
        (by
          simp only [MdcCall.namesOK, List.all_eq_true]
          intro n hn
          exact decide_eq_true (childFiles_ne_empty _ sd n hn))
        hlen hq0
      exact ih (.dirLoop sd td (pr0.1.childDirs sd))
        (mdcRun fuel (.fileLoop sd td (pr0.1.childFiles sd)) pr0.1).1 q hsd
        (by
          simp only [MdcCall.namesOK, List.all_eq_true]
          intro n hn
          exact decide_eq_true (childDirs_ne_empty _ sd n hn))
        hlen hq1
    | MdcCall.fileLoop sd td names =>
      simp only [MdcCall.sourceDir] at hsd hlen
      match names with
      | [] => simpa [mdcRun] using hq
      | n :: rest =>
        rw [show mdcRun (Nat.succ fuel) (.fileLoop sd td (n :: rest)) fs =
            (let fs2 := ((fs.copyFile (pjoin sd n) (pjoin td n)).unlink (pjoin sd n))
             let pr := mdcRun fuel (.fileLoop sd td rest) fs2
             (pr.1, Act.extCopy (pjoin sd n) (pjoin td n) :: Act.extDelete (pjoin sd n) :: pr.2))
            from rfl]
        simp only
        have hq2 : q ∈ ((fs.copyFile (pjoin sd n) (pjoin td n)).unlink (pjoin sd n)).dirs := by
          unfold ExtFS.copyFile ExtFS.unlink ExtFS.writeFile
          split <;> simpa using hq
        have hok2 : (MdcCall.fileLoop sd td rest).namesOK = true := by
          simp only [MdcCall.namesOK, List.all_eq_true] at hok ⊢
          intro x hx
          exact hok x (List.mem_cons_of_mem n hx)
        exact ih (.fileLoop sd td rest) _ q hsd hok2 hlen hq2
    | MdcCall.dirLoop sd td names =>
      simp only [MdcCall.sourceDir] at hsd hlen
      match names with
      | [] => simpa [mdcRun] using hq
      | n :: rest =>
        have hn : n ≠ "" := by
          simp only [MdcCall.namesOK, List.all_eq_true] at hok
          exact of_decide_eq_true (hok n (List.mem_cons_self n rest))
        rw [show mdcRun (Nat.succ fuel) (.dirLoop sd td (n :: rest)) fs =
            (let pr1 := mdcRun fuel (.top (pjoin sd n) (pjoin td n)) fs
             let pr2 := if pr1.1.readdirNames (pjoin sd n) = [] then
                 (pr1.1.rmdir (pjoin sd n), [Act.extRmdir (pjoin sd n)]) else (pr1.1, [])
             let pr3 := mdcRun fuel (.dirLoop sd td rest) pr2.1
             (pr3.1, pr1.2 ++ pr2.2 ++ pr3.2)) from rfl]
        simp only
        have hlt := pjoin_length_gt sd n hsd hn
        have hq1 := ih (.top (pjoin sd n) (pjoin td n)) fs q
          (pjoin_ne_empty sd n hsd hn) (by simp [MdcCall.namesOK])
          (by simp only [MdcCall.sourceDir]; omega) hq
        simp only [MdcCall.sourceDir] at hq1
        have hq2 : q ∈ (if (mdcRun fuel (.top (pjoin sd n) (pjoin td n)) fs).1.readdirNames
            (pjoin sd n) = [] then
              ((mdcRun fuel (.top (pjoin sd n) (pjoin td n)) fs).1.rmdir (pjoin sd n),
               [Act.extRmdir (pjoin sd n)])
            else ((mdcRun fuel (.top (pjoin sd n) (pjoin td n)) fs).1, [])).1.dirs := by
          split
          · simp only [ExtFS.rmdir, List.mem_filter]
            refine ⟨hq1, ?_⟩
            have : q ≠ pjoin sd n := by
              intro he
              rw [he] at hlen
              omega
            exact decide_eq_true this
          · exact hq1
        have hok2 : (MdcCall.dirLoop sd td rest).namesOK = true := by
          simp only [MdcCall.namesOK, List.all_eq_true] at hok ⊢
          intro x hx
          exact hok x (List.mem_cons_of_mem n hx)
        exact ih (.dirLoop sd td rest) _ q hsd hok2 hlen hq2

/-- C8 as amended: with both external paths resolved, handleFolderRename
merges through moveDirectoryContents when source and target both exist,
and the merged source directory always remains on disk (it is never
removed, even when emptied: every directory removal the merge performs
targets a strictly deeper path); when only the source exists the
directory is renamed in place; when the source is missing the target is
created fresh when absent. -/
theorem c8_amended_folder_rename (s : SyncRepSettings) (fuel : Nat)
    (oldPath newPath oldExt newExt : String) (fs : ExtFS)
    (h1 : getExternalPath s oldPath = some oldExt)
    (h2 : getExternalPath s newPath = some newExt) :
    (fs.existsPath oldExt = true → fs.existsPath newExt = true →
      handleFolderRename s fuel oldPath newPath fs
        = moveDirectoryContents fuel oldExt newExt fs
      ∧ (oldExt ≠ "" →
          (∀ p, Act.extRmdir p ∈ (handleFolderRename s fuel oldPath newPath fs).2 →
            oldExt.length < p.length)
          ∧ (oldExt ∈ fs.dirs →
              oldExt ∈ (handleFolderRename s fuel oldPath newPath fs).1.dirs)))
    ∧ (fs.existsPath oldExt = true → fs.existsPath newExt = false →
      handleFolderRename s fuel oldPath newPath fs
        = (fs.renamePath oldExt newExt, [Act.extRename oldExt newExt]))
    ∧ (fs.existsPath oldExt = false →
      handleFolderRename s fuel oldPath newPath fs
        = if fs.existsPath newExt then (fs, [])
          else (fs.mkdirRecursive newExt, [Act.extMkdir newExt])) := by
  have hbase : ∀ ho : fs.existsPath oldExt = true, ∀ hn : fs.existsPath newExt = true,
      handleFolderRename s fuel oldPath newPath fs
        = moveDirectoryContents fuel oldExt newExt fs := by
    intro ho hn
    unfold handleFolderRename
    rw [h1, h2]
    simp [ho, hn]
  refine ⟨?_, ?_, ?_⟩
  · intro ho hn
    refine ⟨hbase ho hn, ?_⟩
    intro hne
    constructor
    · intro p hp
      rw [hbase ho hn] at hp
      exact mdcRun_rmdir_longer fuel (.top oldExt newExt) fs hne rfl p hp
    · intro hmem
      rw [hbase ho hn]
      exact mdcRun_preserves_short_dirs fuel (.top oldExt newExt) fs oldExt hne rfl
        (Nat.le_refl _) hmem
  · intro ho hn
    unfold handleFolderRename
    rw [h1, h2]
    simp [ho, hn]
  · intro ho
    unfold handleFolderRename
    rw [h1, h2]
    by_cases hn : fs.existsPath newExt = true
    · simp [ho, hn]
    · simp only [Bool.not_eq_true] at hn
      simp [ho, hn]

/-- Witness for C8: the three branches at concrete worlds. -/
theorem c8_witness :
    (handleFolderRename cfgAll 9 "a" "b" extfsMerge
        = moveDirectoryContents 9 "/r/a" "/r/b" extfsMerge
      ∧ ("/r/a" ∈ extfsMerge.dirs →
          "/r/a" ∈ (handleFolderRename cfgAll 9 "a" "b" extfsMerge).1.dirs))
    ∧ handleFolderRename cfgAll 9 "a" "c"
        { files := [("/r/a/x.md", Content.text "hi")], dirs := ["/r", "/r/a"] }
        = (ExtFS.renamePath
            { files := [("/r/a/x.md", Content.text "hi")], dirs := ["/r", "/r/a"] }
            "/r/a" "/r/c", [Act.extRename "/r/a" "/r/c"])
    ∧ handleFolderRename cfgAll 9 "g" "h" { files := [], dirs := ["/r"] }
        = if ExtFS.existsPath { files := [], dirs := ["/r"] } "/r/h"
          then ({ files := [], dirs := ["/r"] }, [])
          else (ExtFS.mkdirRecursive { files := [], dirs := ["/r"] } "/r/h",
                [Act.extMkdir "/r/h"]) := by
  have hA := c8_amended_folder_rename cfgAll 9 "a" "b" "/r/a" "/r/b" extfsMerge
    (by decide) (by decide)
  have hB := c8_amended_folder_rename cfgAll 9 "a" "c" "/r/a" "/r/c"
    { files := [("/r/a/x.md", Content.text "hi")], dirs := ["/r", "/r/a"] }
    (by decide) (by decide)
  have hC := c8_amended_folder_rename cfgAll 9 "g" "h" "/r/g" "/r/h"
    { files := [], dirs := ["/r"] } (by decide) (by decide)
  refine ⟨⟨(hA.1 (by decide) (by decide)).1, ?_⟩,
          hB.2.1 (by decide) (by decide),
          hC.2.2 (by decide)⟩
  exact ((hA.1 (by decide) (by decide)).2 (by decide)).2

/-! ## C1 -/

theorem bool_eq_false_of_ne_true {b : Bool} (h : ¬ b = true) : b = false := by
  cases b
  · rfl
  · exact absurd rfl h

/-- C9 counterexample: in a traversal where the listing of the
subdirectory a fails, the later sibling file z — participating, absent
from the vault — is never processed: the failure is rethrown by
syncDirectoryFromExternal and aborts the remaining traversal, refuting
the claim that a subdirectory-listing failure never aborts it. -/
theorem c9_counterexample :
    shouldSyncFile cfgAll "z" = true
    ∧ vaultEmpty.getAbs "z" = VEntry.vmissing
    ∧ (syncAllExternalDirectories cfgAll (some treeErr) [] vaultEmpty).2.any
        (writesPath "z") = false
    ∧ (syncDirectoryFromExternal cfgAll treeErr "" vaultEmpty).2.2 = true := by
  refine ⟨by decide, by decide, by decide, by decide⟩

/-- C9 as amended: per-item failures on files (read, create, modify) are
caught at the item level and the traversal continues with the remaining
entries, and the structure scan contains even its listing failures; but a
subdirectory-listing failure in the content walk is rethrown: the walk
reports the exception, the entries after the failing one are never
examined, and the failure propagates out of syncDirectoryFromExternal. -/
theorem c9_amended_error_propagation (s : SyncRepSettings)
    (n msg rel : String) (rest rest2 : List (String × ETree)) (v : Vault) :
    (syncEntries s ((n, ETree.file (Except.error msg)) :: rest) rel v
        = syncEntries s rest rel v)
    ∧ (rel ≠ "" → shouldSyncFile s rel = true → v.getAbs rel = VEntry.vmissing →
        scanAndCreateAllDirectories s (ETree.dir (Except.error msg)) rel v
          = ensureVaultDirectory rel v)
    ∧ (shouldSyncFile s (joinRel rel n) = true →
        (syncEntries s ((n, ETree.dir (Except.error msg)) :: rest) rel v).2.2 = true
        ∧ syncEntries s ((n, ETree.dir (Except.error msg)) :: rest) rel v
            = syncEntries s ((n, ETree.dir (Except.error msg)) :: rest2) rel v)
    ∧ (shouldSyncFile s rel = true →
        (syncDirectoryFromExternal s (ETree.dir (Except.error msg)) rel v).2.2 = true) := by
  refine ⟨?_, ?_, ?_, ?_⟩
  · rw [show syncEntries s ((n, ETree.file (Except.error msg)) :: rest) rel v =
        (if (!shouldSyncFile s (joinRel rel n)) = true then syncEntries s rest rel v
         else
           let pr := syncExternalFileEntry (Except.error msg) (joinRel rel n) v
           let pr2 := syncEntries s rest rel pr.1
           (pr2.1, pr.2 ++ pr2.2.1, pr2.2.2)) from rfl]
    by_cases hg : shouldSyncFile s (joinRel rel n) = true
    · simp [hg, syncExternalFileEntry]
    · simp [bool_eq_false_of_ne_true hg]
  · intro hne hg habs
    unfold scanAndCreateAllDirectories
    simp [hne, hg, habs]
  · intro hg
    have heq : ∀ r : List (String × ETree),
        syncEntries s ((n, ETree.dir (Except.error msg)) :: r) rel v =
        ((syncDirectoryFromExternal s (ETree.dir (Except.error msg)) (joinRel rel n) v).1,
         (syncDirectoryFromExternal s (ETree.dir (Except.error msg)) (joinRel rel n) v).2.1,
         true) := by
      intro r
      rw [show syncEntries s ((n, ETree.dir (Except.error msg)) :: r) rel v =
          (if (!shouldSyncFile s (joinRel rel n)) = true then syncEntries s r rel v
           else
             let pr := syncDirectoryFromExternal s (ETree.dir (Except.error msg))
               (joinRel rel n) v
             if pr.2.2 then (pr.1, pr.2.1, true)
             else
               let pr2 := syncEntries s r rel pr.1
               (pr2.1, pr.2.1 ++ pr2.2.1, pr2.2.2)) from rfl]
      simp only [hg, Bool.not_true, if_neg (by simp : ¬ (false = true))]
      have hthrown : (syncDirectoryFromExternal s (ETree.dir (Except.error msg))
          (joinRel rel n) v).2.2 = true := by
        unfold syncDirectoryFromExternal
        simp [hg]
      simp [hthrown]
    exact ⟨by rw [heq rest], by rw [heq rest, heq rest2]⟩
  · intro hg
    unfold syncDirectoryFromExternal
    simp [hg]

/-- Witness for C9: the amended propagation behavior at concrete inputs. -/
theorem c9_witness :
    (syncEntries cfgAll [("bad.md", ETree.file (Except.error "EIO")),
        ("z", ETree.file (Except.ok (Content.text "zz")))] "" vaultEmpty
      = syncEntries cfgAll [("z", ETree.file (Except.ok (Content.text "zz")))] "" vaultEmpty)
    ∧ scanAndCreateAllDirectories cfgAll (ETree.dir (Except.error "EACCES")) "a" vaultEmpty
        = ensureVaultDirectory "a" vaultEmpty
    ∧ (syncEntries cfgAll [("a", ETree.dir (Except.error "EACCES")),
        ("z", ETree.file (Except.ok (Content.text "zz")))] "" vaultEmpty).2.2 = true
    ∧ (syncDirectoryFromExternal cfgAll (ETree.dir (Except.error "EACCES")) "a"
        vaultEmpty).2.2 = true := by
  have h := c9_amended_error_propagation cfgAll "bad.md" "EIO" ""
    [("z", ETree.file (Except.ok (Content.text "zz")))] [] vaultEmpty
  have h2 := c9_amended_error_propagation cfgAll "a" "EACCES" ""
    [("z", ETree.file (Except.ok (Content.text "zz")))] [] vaultEmpty
  have h3 := c9_amended_error_propagation cfgAll "x" "EACCES" "a" [] [] vaultEmpty
  exact ⟨h.1, h3.2.1 (by decide) (by decide) (by decide),
         (h2.2.2.1 (by decide)).1, h3.2.2.2 (by decide)⟩

/-! ## Split and join lemmas -/

theorem splitChars_ne_nil (sep : Char) (l : List Char) : splitChars sep l ≠ [] := by
  cases l with
  | nil => simp [splitChars]
  | cons c cs =>
    unfold splitChars
    cases h : splitChars sep cs with
    | nil => by_cases hc : c = sep <;> simp [hc]
    | cons r rs => by_cases hc : c = sep <;> simp [hc]

theorem joinCharList_splitChars (l : List Char) :
    joinCharList (splitChars '/' l) = l := by
  induction l with
  | nil => simp [splitChars, joinCharList]
  | cons c cs ih =>
    unfold splitChars
    cases h : splitChars '/' cs with
    | nil => exact absurd h (splitChars_ne_nil '/' cs)
    | cons r rs =>
      rw [h] at ih
      by_cases hc : c = '/'
      · subst hc
        simp only [if_pos rfl]
        cases rs with
        | nil =>
          simp only [joinCharList] at ih ⊢
          rw [ih]
          simp
        | cons r2 rs2 =>
          simp only [joinCharList] at ih ⊢
          rw [ih]
          simp
      · simp only [if_neg hc]
        cases rs with
        | nil =>
          simp only [joinCharList] at ih ⊢
          rw [ih]
        | cons r2 rs2 =>
          simp only [joinCharList] at ih ⊢
          simp only [List.cons_append]
          rw [ih]

theorem string_mk_ne_empty (l : List Char) (h : l ≠ []) : String.mk l ≠ "" := by
  intro he
  have : l = [] := by
    have := congrArg String.data he
    simpa using this
  exact h this

theorem foldPath_join (rs : List (List Char)) :
    ∀ (cur : List Char), cur ≠ [] →
      foldPath (String.mk cur) (rs.map String.mk)
        = String.mk (joinCharList (cur :: rs)) := by
  induction rs with
  | nil =>
    intro cur h
    simp [foldPath, joinCharList]
  | cons x rs2 ih =>
    intro cur hcur
    simp only [List.map_cons]
    rw [foldPath]
    rw [if_neg (string_mk_ne_empty cur hcur)]
    have hjoin : String.mk cur ++ "/" ++ String.mk x = String.mk (cur ++ '/' :: x) := by
      apply String.ext
      simp [String.data_append]
    rw [hjoin]
    rw [ih (cur ++ '/' :: x) (by simp)]
    congr 1
    cases rs2 with
    | nil => simp [joinCharList]
    | cons z zs => simp [joinCharList, List.append_assoc]

theorem foldPath_splits (d : String) (h : goodPath d = true ∨ d = "") :
    foldPath "" (jsSplitSlash d) = d := by
  rcases h with h | h
  · unfold goodPath at h
    unfold jsSplitSlash at h ⊢
    cases hs : splitChars '/' d.data with
    | nil => exact absurd hs (splitChars_ne_nil '/' d.data)
    | cons r rs =>
      rw [hs] at h
      have hr : r ≠ [] := by
        simp only [List.map_cons, List.all_cons, Bool.and_eq_true] at h
        have h1 := h.1
        intro he
        rw [he] at h1
        simp at h1
      simp only [List.map_cons]
      rw [foldPath]
      rw [if_pos rfl]
      rw [foldPath_join rs r hr]
      apply String.ext
      show joinCharList (r :: rs) = d.data
      rw [← hs]
      exact joinCharList_splitChars d.data
  · subst h
    rfl

/-! ## Vault primitive characterizations -/

theorem lookup_modify_map (l : List (String × Content)) (q p : String) (c : Content) :
    List.lookup p (l.map (fun e => if e.1 = q then (q, c) else e))
      = if p = q then (List.lookup p l).map (fun _ => c) else List.lookup p l := by
  induction l with
  | nil => by_cases hp : p = q <;> simp [List.lookup, hp]
  | cons e rest ih =>
    obtain ⟨k, cv⟩ := e
    have hmap : List.map (fun e => if e.1 = q then (q, c) else e) ((k, cv) :: rest)
        = (if k = q then (q, c) else (k, cv))
            :: List.map (fun e => if e.1 = q then (q, c) else e) rest := by
      simp
    rw [hmap]
    by_cases hk : k = q
    · rw [if_pos hk]
      by_cases hp : p = q
      · simp [List.lookup, hp, hk]
      · have hb : (p == q) = false := by simpa using hp
        have hb2 : (p == k) = false := by rw [hk]; exact hb
        simp only [List.lookup, hb, hb2]
        rw [ih, if_neg hp]
    · rw [if_neg hk]
      by_cases hp : p = k
      · have hpq : ¬ p = q := by rw [hp]; exact hk
        have hb : (p == k) = true := by simpa using hp
        simp only [List.lookup, hb]
        rw [if_neg hpq]
      · have hb : (p == k) = false := by simpa using hp
        simp only [List.lookup, hb]
        exact ih

theorem lookup_of_getAbs_file (v : Vault) (p : String) (c : Content)
    (h : v.getAbs p = VEntry.vfile c) : v.files.lookup p = some c := by
  unfold Vault.getAbs at h
  cases hl : List.lookup p v.files with
  | some c0 =>
    rw [hl] at h
    simp only [VEntry.vfile.injEq] at h
    subst h
    rfl
  | none =>
    rw [hl] at h
    by_cases hc : v.folders.contains p = true
    · rw [if_pos hc] at h
      exact absurd h (by simp)
    · rw [if_neg hc] at h
      exact absurd h (by simp)

theorem getAbs_of_lookup_some (v : Vault) (p : String) (c : Content)
    (h : v.files.lookup p = some c) : v.getAbs p = VEntry.vfile c := by
  unfold Vault.getAbs
  rw [h]

theorem getAbs_folder_elim (v : Vault) (p : String)
    (h : v.getAbs p = VEntry.vfolder) :
    v.files.lookup p = none ∧ v.folders.contains p = true := by
  unfold Vault.getAbs at h
  cases hl : List.lookup p v.files with
  | some c0 =>
    rw [hl] at h
    exact absurd h (by simp)
  | none =>
    rw [hl] at h
    by_cases hc : v.folders.contains p = true
    · exact ⟨rfl, hc⟩
    · rw [if_neg hc] at h
      exact absurd h (by simp)

theorem getAbs_folder_intro (v : Vault) (p : String)
    (hl : v.files.lookup p = none) (hc : v.folders.contains p = true) :
    v.getAbs p = VEntry.vfolder := by
  unfold Vault.getAbs
  rw [hl, if_pos hc]

theorem getAbs_ne_missing_elim (v : Vault) (p : String)
    (h : v.getAbs p ≠ VEntry.vmissing) :
    (∃ c, v.files.lookup p = some c) ∨ v.folders.contains p = true := by
  unfold Vault.getAbs at h
  cases hl : List.lookup p v.files with
  | some c0 => exact Or.inl ⟨c0, rfl⟩
  | none =>
    rw [hl] at h
    by_cases hc : v.folders.contains p = true
    · exact Or.inr hc
    · rw [if_neg hc] at h
      exact absurd rfl h

theorem getAbs_ne_missing_of_lookup (v : Vault) (p : String) (c : Content)
    (h : v.files.lookup p = some c) : v.getAbs p ≠ VEntry.vmissing := by
  rw [getAbs_of_lookup_some v p c h]
  simp

theorem getAbs_ne_missing_of_contains (v : Vault) (p : String)
    (hc : v.folders.contains p = true) : v.getAbs p ≠ VEntry.vmissing := by
  unfold Vault.getAbs
  cases hl : List.lookup p v.files with
  | some c0 => simp
  | none => rw [if_pos hc]; simp

theorem getAbs_modifyApply_ne (v : Vault) (q p : String) (c : Content) (hp : p ≠ q) :
    (vaultModifyApply v q c).getAbs p = v.getAbs p := by
  unfold vaultModifyApply Vault.getAbs
  simp only
  rw [lookup_modify_map, if_neg hp]

theorem getAbs_modifyApply_file (v : Vault) (q : String) (c c0 : Content)
    (h : v.getAbs q = VEntry.vfile c0) :
    (vaultModifyApply v q c).getAbs q = VEntry.vfile c := by
  have hl := lookup_of_getAbs_file v q c0 h
  unfold vaultModifyApply Vault.getAbs
  simp only
  rw [lookup_modify_map, if_pos rfl, hl]
  rfl

theorem getAbs_modifyApply_nonfile (v : Vault) (q : String) (c : Content)
    (h : v.files.lookup q = none) :
    (vaultModifyApply v q c).getAbs q = v.getAbs q := by
  unfold vaultModifyApply Vault.getAbs
  simp only
  rw [lookup_modify_map, if_pos rfl, h]
  rfl

theorem getAbs_cons_file_ne (v : Vault) (q p : String) (c : Content) (hp : p ≠ q) :
    ({ v with files := (q, c) :: v.files } : Vault).getAbs p = v.getAbs p := by
  unfold Vault.getAbs
  have hb : (p == q) = false := by simpa using hp
  simp only [List.lookup, hb]

theorem getAbs_cons_file_self (v : Vault) (q : String) (c : Content) :
    ({ v with files := (q, c) :: v.files } : Vault).getAbs q = VEntry.vfile c := by
  unfold Vault.getAbs
  simp [List.lookup]

theorem getAbs_cons_folder_ne (v : Vault) (q p : String) (hp : p ≠ q) :
    ({ v with folders := q :: v.folders } : Vault).getAbs p = v.getAbs p := by
  unfold Vault.getAbs
  simp only
  cases hl : List.lookup p v.files with
  | some c0 => rfl
  | none =>
    simp [List.contains_cons, hp]

theorem getAbs_cons_folder_self (v : Vault) (q : String)
    (h : v.getAbs q = VEntry.vmissing) :
    ({ v with folders := q :: v.folders } : Vault).getAbs q = VEntry.vfolder := by
  unfold Vault.getAbs at h ⊢
  simp only at h ⊢
  cases hl : List.lookup q v.files with
  | some c0 => rw [hl] at h; exact absurd h (by simp)
  | none => simp [List.contains_cons]

theorem vaultCreateCall_of_missing (v : Vault) (q : String) (c : Content)
    (h : v.getAbs q = VEntry.vmissing) :
    vaultCreateCall v q c = ({ v with files := (q, c) :: v.files }, true) := by
  unfold vaultCreateCall
  rw [h]

theorem vaultCreateCall_of_present (v : Vault) (q : String) (c : Content)
    (h : v.getAbs q ≠ VEntry.vmissing) :
    vaultCreateCall v q c = (v, false) := by
  unfold vaultCreateCall
  cases hq : v.getAbs q with
  | vfile c0 => rfl
  | vfolder => rfl
  | vmissing => exact absurd hq h

theorem vaultCreateFolderCall_of_missing (v : Vault) (q : String)
    (h : v.getAbs q = VEntry.vmissing) :
    vaultCreateFolderCall v q = ({ v with folders := q :: v.folders }, true) := by
  unfold vaultCreateFolderCall
  rw [h]

theorem vaultCreateFolderCall_of_present (v : Vault) (q : String)
    (h : v.getAbs q ≠ VEntry.vmissing) :
    vaultCreateFolderCall v q = (v, false) := by
  unfold vaultCreateFolderCall
  cases hq : v.getAbs q with
  | vfile c0 => rfl
  | vfolder => rfl
  | vmissing => exact absurd hq h

theorem pres_of_files_eq_folders_sub (v w : Vault) (hf : w.files = v.files)
    (hsub : ∀ q, q ∈ v.folders → q ∈ w.folders) : PresStep v w [] := by
  refine ⟨?_, ?_, ?_⟩
  · intro p c hp _
    have := lookup_of_getAbs_file v p c hp
    exact getAbs_of_lookup_some w p c (by rw [hf]; exact this)
  · intro p hp
    obtain ⟨hl, hc⟩ := getAbs_folder_elim v p hp
    refine getAbs_folder_intro w p (by rw [hf]; exact hl) ?_
    exact List.elem_eq_true_of_mem (hsub p (List.mem_of_elem_eq_true hc))
  · intro p hp
    rcases getAbs_ne_missing_elim v p hp with ⟨c, hl⟩ | hc
    · exact getAbs_ne_missing_of_lookup w p c (by rw [hf]; exact hl)
    · exact getAbs_ne_missing_of_contains w p
        (List.elem_eq_true_of_mem (hsub p (List.mem_of_elem_eq_true hc)))

/-! ## ensureVaultDirectory lemmas -/

theorem ensureGo_files (segs : List String) :
    ∀ (cur : String) (v : Vault), ((ensureGo segs cur v).1).files = v.files := by
  induction segs with
  | nil => intro cur v; rfl
  | cons seg rest ih =>
    intro cur v
    rw [ensureGo]
    cases hab : v.getAbs (if cur = "" then seg else cur ++ "/" ++ seg) with
    | vmissing =>
      simp only
      rw [vaultCreateFolderCall_of_missing _ _ hab]
      simp only
      rw [ih]
    | vfile c => exact ih _ v
    | vfolder => exact ih _ v

theorem ensureGo_folders_sub (segs : List String) :
    ∀ (cur : String) (v : Vault) (q : String),
      q ∈ v.folders → q ∈ ((ensureGo segs cur v).1).folders := by
  induction segs with
  | nil => intro cur v q hq; exact hq
  | cons seg rest ih =>
    intro cur v q hq
    rw [ensureGo]
    cases hab : v.getAbs (if cur = "" then seg else cur ++ "/" ++ seg) with
    | vmissing =>
      simp only
      rw [vaultCreateFolderCall_of_missing _ _ hab]
      simp only
      exact ih _ _ q (List.mem_cons_of_mem _ hq)
    | vfile c => exact ih _ v q hq
    | vfolder => exact ih _ v q hq

theorem ensureGo_pres (segs : List String) (cur : String) (v : Vault) :
    PresStep v (ensureGo segs cur v).1 [] :=
  pres_of_files_eq_folders_sub v _ (ensureGo_files segs cur v)
    (ensureGo_folders_sub segs cur v)

theorem ensureGo_folderChar (segs : List String) :
    ∀ (cur : String) (v : Vault) (p : String),
      ((ensureGo segs cur v).1).getAbs p = VEntry.vfolder →
      v.getAbs p = VEntry.vfolder ∨ p ∈ foldPathsAcc cur segs := by
  induction segs with
  | nil => intro cur v p hp; exact Or.inl hp
  | cons seg rest ih =>
    intro cur v p hp
    rw [ensureGo] at hp
    cases hab : v.getAbs (if cur = "" then seg else cur ++ "/" ++ seg) with
    | vmissing =>
      rw [hab] at hp
      simp only at hp
      rw [vaultCreateFolderCall_of_missing _ _ hab] at hp
      simp only at hp
      rcases ih _ _ p hp with hmid | hmem
      · by_cases hpq : p = (if cur = "" then seg else cur ++ "/" ++ seg)
        · subst hpq
          right
          simp [foldPathsAcc]
        · rw [getAbs_cons_folder_ne _ _ _ hpq] at hmid
          exact Or.inl hmid
      · right
        simp only [foldPathsAcc, List.mem_cons]
        exact Or.inr hmem
    | vfile c =>
      rw [hab] at hp
      rcases ih _ _ p hp with hmid | hmem
      · exact Or.inl hmid
      · right
        simp only [foldPathsAcc, List.mem_cons]
        exact Or.inr hmem
    | vfolder =>
      rw [hab] at hp
      rcases ih _ _ p hp with hmid | hmem
      · exact Or.inl hmid
      · right
        simp only [foldPathsAcc, List.mem_cons]
        exact Or.inr hmem

theorem ensureGo_establish (segs : List String) :
    ∀ (cur : String) (v : Vault), segs ≠ [] →
      ((ensureGo segs cur v).1).getAbs (foldPath cur segs) ≠ VEntry.vmissing := by
  induction segs with
  | nil => intro cur v h; exact absurd rfl h
  | cons seg rest ih =>
    intro cur v _
    cases rest with
    | nil =>
      rw [ensureGo, foldPath]
      simp only [foldPath]
      cases hab : v.getAbs (if cur = "" then seg else cur ++ "/" ++ seg) with
      | vmissing =>
        simp only
        rw [vaultCreateFolderCall_of_missing _ _ hab]
        simp only [ensureGo]
        rw [getAbs_cons_folder_self _ _ hab]
        simp
      | vfile c =>
        simp only [ensureGo]
        rw [hab]
        simp
      | vfolder =>
        simp only [ensureGo]
        rw [hab]
        simp
    | cons seg2 rest2 =>
      rw [ensureGo, foldPath]
      cases hab : v.getAbs (if cur = "" then seg else cur ++ "/" ++ seg) with
      | vmissing =>
        simp only
        rw [vaultCreateFolderCall_of_missing _ _ hab]
        simp only
        exact ih _ _ (by simp)
      | vfile c => exact ih _ _ (by simp)
      | vfolder => exact ih _ _ (by simp)

theorem jsSplitSlash_ne_nil (d : String) : jsSplitSlash d ≠ [] := by
  unfold jsSplitSlash
  intro h
  exact splitChars_ne_nil '/' d.data (List.map_eq_nil_iff.mp h)

theorem ensureVaultDirectory_files (d : String) (v : Vault) :
    ((ensureVaultDirectory d v).1).files = v.files :=
  ensureGo_files _ _ v

theorem ensureVaultDirectory_pres (d : String) (v : Vault) :
    PresStep v (ensureVaultDirectory d v).1 [] :=
  ensureGo_pres _ _ v

theorem ensureVaultDirectory_folderChar (d : String) (v : Vault) (p : String)
    (hp : ((ensureVaultDirectory d v).1).getAbs p = VEntry.vfolder) :
    v.getAbs p = VEntry.vfolder ∨ p ∈ chainStrings d :=
  ensureGo_folderChar _ _ v p hp

theorem ensureVaultDirectory_establish (d : String) (v : Vault)
    (hgood : goodPath d = true ∨ d = "") :
    ((ensureVaultDirectory d v).1).getAbs d ≠ VEntry.vmissing := by
  have h := ensureGo_establish (jsSplitSlash d) "" v (jsSplitSlash_ne_nil d)
  rw [foldPath_splits d hgood] at h
  exact h

/-! ## Composition lemmas for the inbound contracts -/

theorem PresStep_refl (v : Vault) (avoid : List String) : PresStep v v avoid :=
  ⟨fun _ _ h _ => h, fun _ h => h, fun _ h => h⟩

theorem PresStep_trans (v w u : Vault) (a b : List String)
    (h1 : PresStep v w a) (h2 : PresStep w u b) : PresStep v u (a ++ b) := by
  obtain ⟨f1, d1, m1⟩ := h1
  obtain ⟨f2, d2, m2⟩ := h2
  refine ⟨?_, ?_, ?_⟩
  · intro p c hp hpa
    rw [List.mem_append] at hpa
    push_neg at hpa
    exact f2 p c (f1 p c hp hpa.1) hpa.2
  · intro p hp
    exact d2 p (d1 p hp)
  · intro p hp
    exact m2 p (m1 p hp)

theorem PresStep_mono (v w : Vault) (a b : List String)
    (hsub : ∀ x, x ∈ a → x ∈ b) (h : PresStep v w a) : PresStep v w b := by
  obtain ⟨f, d, m⟩ := h
  refine ⟨?_, d, m⟩
  intro p c hp hpb
  exact f p c hp (fun hx => hpb (hsub p hx))

theorem FolderChar_refl (v : Vault) (targets : List String) : FolderChar v v targets :=
  fun _ h => Or.inl h

theorem FolderChar_trans (v w u : Vault) (a b : List String)
    (h1 : FolderChar v w a) (h2 : FolderChar w u b) : FolderChar v u (a ++ b) := by
  intro p hp
  rcases h2 p hp with hw | hb
  · rcases h1 p hw with hv | ha
    · exact Or.inl hv
    · exact Or.inr (List.mem_append.mpr (Or.inl ha))
  · exact Or.inr (List.mem_append.mpr (Or.inr hb))

theorem FolderChar_mono (v w : Vault) (a b : List String)
    (hsub : ∀ x, x ∈ a → x ∈ b) (h : FolderChar v w a) : FolderChar v w b := by
  intro p hp
  rcases h p hp with hv | ha
  · exact Or.inl hv
  · exact Or.inr (hsub p ha)

theorem entryMatches_pres (p : String) (c : Content) (v w : Vault)
    (avoid : List String) (hm : entryMatches p c v = true)
    (hpres : PresStep v w avoid) (hp : p ∉ avoid) :
    entryMatches p c w = true := by
  unfold entryMatches at hm ⊢
  cases hab : v.getAbs p with
  | vfile c0 =>
    rw [hpres.1 p c0 hab hp]
    rw [hab] at hm
    exact hm
  | vfolder => rw [hab] at hm; exact absurd hm (by simp)
  | vmissing => rw [hab] at hm; exact absurd hm (by simp)

theorem disjointL_mem (a b : List String) (h : disjointL a b = true)
    (x : String) (hx : x ∈ a) : x ∉ b := by
  unfold disjointL at h
  rw [List.all_eq_true] at h
  have hc := h x hx
  intro hb
  have : b.contains x = true := List.elem_eq_true_of_mem hb
  rw [this] at hc
  exact absurd hc (by simp)

theorem notFolder_of_ne (e : VEntry) (h : e ≠ VEntry.vfolder) : e.isFolder = false := by
  cases e with
  | vfile c => rfl
  | vfolder => exact absurd rfl h
  | vmissing => rfl

theorem ne_of_notFolder (e : VEntry) (h : e.isFolder = false) : e ≠ VEntry.vfolder := by
  cases e with
  | vfile c => simp
  | vfolder => exact absurd h (by simp [VEntry.isFolder])
  | vmissing => simp

theorem ne_missing_of_not (e : VEntry) (h : e.isMissing = false) : e ≠ VEntry.vmissing := by
  cases e with
  | vfile c => simp
  | vfolder => simp
  | vmissing => exact absurd h (by simp [VEntry.isMissing])

theorem notMissing_of_ne (e : VEntry) (h : e ≠ VEntry.vmissing) : e.isMissing = false := by
  cases e with
  | vfile c => rfl
  | vfolder => rfl
  | vmissing => exact absurd rfl h

theorem ensure_missing_outside (d : String) (v : Vault) (p : String)
    (hm : v.getAbs p = VEntry.vmissing) (hp : p ∉ chainStrings d) :
    ((ensureVaultDirectory d v).1).getAbs p = VEntry.vmissing := by
  cases hab : ((ensureVaultDirectory d v).1).getAbs p with
  | vfile c =>
    have hl := lookup_of_getAbs_file _ p c hab
    rw [ensureVaultDirectory_files] at hl
    rw [getAbs_of_lookup_some v p c hl] at hm
    exact absurd hm (by simp)
  | vfolder =>
    rcases ensureVaultDirectory_folderChar d v p hab with hf | hc
    · rw [hf] at hm; exact absurd hm (by simp)
    · exact absurd hc hp
  | vmissing => rfl

/-! ## Contract lemmas for the content-difference write step -/

theorem iws_eq (q : String) (b : Bool) (c : Content) (v : Vault) :
    inboundWriteStep q b c v =
      match v.getAbs q with
      | .vfile c0 =>
        if (if b then readBinOf c0 ≠ readBinOf c else readTextOf c0 ≠ readTextOf c) then
          (vaultModifyApply v q (if b then Content.bin (readBinOf c) else Content.text (readTextOf c)),
           [Act.vaultModify q (if b then Content.bin (readBinOf c) else Content.text (readTextOf c))])
        else (v, [])
      | _ => iwsCreate q b c v := by
  cases hab : v.getAbs q with
  | vfile c0 => rw [inboundWriteStep, hab]
  | vfolder => rw [inboundWriteStep, hab]; rfl
  | vmissing => rw [inboundWriteStep, hab]; rfl

theorem lookup_none_of_getAbs_missing (v : Vault) (p : String)
    (h : v.getAbs p = VEntry.vmissing) : v.files.lookup p = none := by
  unfold Vault.getAbs at h
  cases hl : List.lookup p v.files with
  | some c0 => rw [hl] at h; exact absurd h (by simp)
  | none => rfl

theorem modify_pres (v : Vault) (q : String) (stored : Content) (c0 : Content)
    (hab : v.getAbs q = VEntry.vfile c0) :
    PresStep v (vaultModifyApply v q stored) [q] := by
  refine ⟨?_, ?_, ?_⟩
  · intro p cp hp hpq
    have hne : p ≠ q := by simpa using hpq
    rw [getAbs_modifyApply_ne _ _ _ _ hne]
    exact hp
  · intro p hp
    by_cases hpq : p = q
    · subst hpq; rw [hab] at hp; exact absurd hp (by simp)
    · rw [getAbs_modifyApply_ne _ _ _ _ hpq]; exact hp
  · intro p hp
    by_cases hpq : p = q
    · subst hpq
      rw [getAbs_modifyApply_file v p stored c0 hab]
      simp
    · rw [getAbs_modifyApply_ne _ _ _ _ hpq]; exact hp

theorem modify_folderChar (v : Vault) (q : String) (stored : Content) :
    FolderChar v (vaultModifyApply v q stored) [] := by
  intro p hp
  by_cases hpq : p = q
  · subst hpq
    cases hab : v.getAbs p with
    | vfile c0 =>
      rw [getAbs_modifyApply_file v p stored c0 hab] at hp
      exact absurd hp (by simp)
    | vfolder => exact Or.inl rfl
    | vmissing =>
      rw [getAbs_modifyApply_nonfile v p stored
            (lookup_none_of_getAbs_missing v p hab)] at hp
      rw [hab] at hp
      exact absurd hp (by simp)
  · rw [getAbs_modifyApply_ne _ _ _ _ hpq] at hp
    exact Or.inl hp

theorem createCall_pres (v : Vault) (q : String) (stored : Content) :
    PresStep v (vaultCreateCall v q stored).1 [q] := by
  cases hab : v.getAbs q with
  | vmissing =>
    rw [vaultCreateCall_of_missing v q stored hab]
    refine ⟨?_, ?_, ?_⟩
    · intro p cp hp hpq
      have hne : p ≠ q := by simpa using hpq
      rw [getAbs_cons_file_ne _ _ _ _ hne]
      exact hp
    · intro p hp
      by_cases hpq : p = q
      · subst hpq; rw [hab] at hp; exact absurd hp (by simp)
      · rw [getAbs_cons_file_ne _ _ _ _ hpq]; exact hp
    · intro p hp
      by_cases hpq : p = q
      · subst hpq
        rw [getAbs_cons_file_self]
        simp
      · rw [getAbs_cons_file_ne _ _ _ _ hpq]; exact hp
  | vfile c0 =>
    rw [vaultCreateCall_of_present v q stored (by rw [hab]; simp)]
    exact PresStep_refl v [q]
  | vfolder =>
    rw [vaultCreateCall_of_present v q stored (by rw [hab]; simp)]
    exact PresStep_refl v [q]

theorem createCall_folderChar (v : Vault) (q : String) (stored : Content) :
    FolderChar v (vaultCreateCall v q stored).1 [] := by
  cases hab : v.getAbs q with
  | vmissing =>
    rw [vaultCreateCall_of_missing v q stored hab]
    intro p hp
    by_cases hpq : p = q
    · subst hpq
      rw [getAbs_cons_file_self] at hp
      exact absurd hp (by simp)
    · rw [getAbs_cons_file_ne _ _ _ _ hpq] at hp
      exact Or.inl hp
  | vfile c0 =>
    rw [vaultCreateCall_of_present v q stored (by rw [hab]; simp)]
    exact FolderChar_refl v []
  | vfolder =>
    rw [vaultCreateCall_of_present v q stored (by rw [hab]; simp)]
    exact FolderChar_refl v []

theorem iwsCreate_pres (q : String) (b : Bool) (c : Content) (v : Vault) :
    PresStep v (iwsCreate q b c v).1 [q] := by
  unfold iwsCreate
  dsimp only
  rcases hE : (if pathDirname q ≠ "" && pathDirname q ≠ "." then
      ensureVaultDirectory (pathDirname q) v else (v, [])) with ⟨vE, aE⟩
  have hpresE : PresStep v vE [] := by
    split at hE
    · have h1 : (ensureVaultDirectory (pathDirname q) v).1 = vE := by rw [hE]
      rw [← h1]
      exact ensureVaultDirectory_pres _ v
    · injection hE with h1 h2
      rw [← h1]
      exact PresStep_refl v []
  rcases hC : vaultCreateCall vE q
      (if b then Content.bin (readBinOf c) else Content.text (readTextOf c)) with ⟨vC, ok⟩
  have hpresC : PresStep vE vC [q] := by
    have h := createCall_pres vE q
      (if b then Content.bin (readBinOf c) else Content.text (readTextOf c))
    rw [hC] at h
    exact h
  have hpresVC : PresStep v vC [q] := PresStep_trans v vE vC [] [q] hpresE hpresC
  cases ok with
  | true => exact hpresVC
  | false =>
    dsimp only
    cases hab2 : vC.getAbs q with
    | vfile c0 =>
      dsimp only
      by_cases hd : (if b = true then readBinOf c0 ≠ readBinOf c
                     else readTextOf c0 ≠ readTextOf c)
      · rw [if_pos hd]
        refine PresStep_mono v _ ([q] ++ [q]) [q] ?_
          (PresStep_trans v vC _ [q] [q] hpresVC (modify_pres vC q _ c0 hab2))
        intro x hx
        simp at hx
        simp [hx]
      · rw [if_neg hd]
        exact hpresVC
    | vfolder => exact hpresVC
    | vmissing => exact hpresVC

theorem iwsCreate_folderChar (q : String) (b : Bool) (c : Content) (v : Vault) :
    FolderChar v (iwsCreate q b c v).1 (chainStrings (pathDirname q)) := by
  unfold iwsCreate
  dsimp only
  rcases hE : (if pathDirname q ≠ "" && pathDirname q ≠ "." then
      ensureVaultDirectory (pathDirname q) v else (v, [])) with ⟨vE, aE⟩
  have hfcE : FolderChar v vE (chainStrings (pathDirname q)) := by
    split at hE
    · have h1 : (ensureVaultDirectory (pathDirname q) v).1 = vE := by rw [hE]
      rw [← h1]
      intro p hp
      exact ensureVaultDirectory_folderChar _ v p hp
    · injection hE with h1 h2
      rw [← h1]
      exact FolderChar_refl v _
  rcases hC : vaultCreateCall vE q
      (if b then Content.bin (readBinOf c) else Content.text (readTextOf c)) with ⟨vC, ok⟩
  have hfcC : FolderChar vE vC [] := by
    have h := createCall_folderChar vE q
      (if b then Content.bin (readBinOf c) else Content.text (readTextOf c))
    rw [hC] at h
    exact h
  have hfcVC : FolderChar v vC (chainStrings (pathDirname q)) :=
    FolderChar_mono v vC (chainStrings (pathDirname q) ++ []) _
      (by intro x hx; simpa using hx)
      (FolderChar_trans v vE vC _ [] hfcE hfcC)
  cases ok with
  | true => exact hfcVC
  | false =>
    dsimp only
    cases hab2 : vC.getAbs q with
    | vfile c0 =>
      dsimp only
      by_cases hd : (if b = true then readBinOf c0 ≠ readBinOf c
                     else readTextOf c0 ≠ readTextOf c)
      · rw [if_pos hd]
        exact FolderChar_mono v _ (chainStrings (pathDirname q) ++ []) _
          (by intro x hx; simpa using hx)
          (FolderChar_trans v vC _ _ [] hfcVC (modify_folderChar vC q _))
      · rw [if_neg hd]
        exact hfcVC
    | vfolder => exact hfcVC
    | vmissing => exact hfcVC

theorem iwsCreate_establish (q : String) (b : Bool) (c : Content) (v : Vault)
    (hmiss : v.getAbs q = VEntry.vmissing)
    (hchain : q ∉ chainStrings (pathDirname q)) :
    ((iwsCreate q b c v).1).getAbs q
      = VEntry.vfile (if b then Content.bin (readBinOf c) else Content.text (readTextOf c)) := by
  unfold iwsCreate
  dsimp only
  rcases hE : (if pathDirname q ≠ "" && pathDirname q ≠ "." then
      ensureVaultDirectory (pathDirname q) v else (v, [])) with ⟨vE, aE⟩
  have hmE : vE.getAbs q = VEntry.vmissing := by
    split at hE
    · have h1 : (ensureVaultDirectory (pathDirname q) v).1 = vE := by rw [hE]
      rw [← h1]
      exact ensure_missing_outside _ v q hmiss hchain
    · injection hE with h1 h2
      rw [← h1]
      exact hmiss
  rw [vaultCreateCall_of_missing vE q _ hmE]
  exact getAbs_cons_file_self vE q _

theorem iws_pres (q : String) (b : Bool) (c : Content) (v : Vault) :
    PresStep v (inboundWriteStep q b c v).1 [q] := by
  rw [iws_eq]
  cases hab : v.getAbs q with
  | vfile c0 =>
    dsimp only
    by_cases hd : (if b = true then readBinOf c0 ≠ readBinOf c
                   else readTextOf c0 ≠ readTextOf c)
    · rw [if_pos hd]
      exact modify_pres v q _ c0 hab
    · rw [if_neg hd]
      exact PresStep_refl v [q]
  | vfolder => exact iwsCreate_pres q b c v
  | vmissing => exact iwsCreate_pres q b c v

theorem iws_folderChar (q : String) (b : Bool) (c : Content) (v : Vault) :
    FolderChar v (inboundWriteStep q b c v).1 (chainStrings (pathDirname q)) := by
  rw [iws_eq]
  cases hab : v.getAbs q with
  | vfile c0 =>
    dsimp only
    by_cases hd : (if b = true then readBinOf c0 ≠ readBinOf c
                   else readTextOf c0 ≠ readTextOf c)
    · rw [if_pos hd]
      exact FolderChar_mono v _ [] _ (by intro x hx; simp at hx)
        (modify_folderChar v q _)
    · rw [if_neg hd]
      exact FolderChar_refl v _
  | vfolder => exact iwsCreate_folderChar q b c v
  | vmissing => exact iwsCreate_folderChar q b c v

theorem iws_establish (q : String) (b : Bool) (c : Content) (v : Vault)
    (hb : isBinaryFileType q = b)
    (hnf : v.getAbs q ≠ VEntry.vfolder)
    (hchain : q ∉ chainStrings (pathDirname q)) :
    entryMatches q c ((inboundWriteStep q b c v).1) = true := by
  rw [iws_eq]
  cases hab : v.getAbs q with
  | vfile c0 =>
    dsimp only
    by_cases hd : (if b = true then readBinOf c0 ≠ readBinOf c
                   else readTextOf c0 ≠ readTextOf c)
    · rw [if_pos hd]
      unfold entryMatches
      rw [getAbs_modifyApply_file v q _ c0 hab, hb]
      cases b with
      | true => simp [readBinOf]
      | false => simp [readTextOf]
    · rw [if_neg hd]
      unfold entryMatches
      rw [hab, hb]
      cases b with
      | true =>
        have heq : readBinOf c0 = readBinOf c := by simpa using hd
        simp [heq]
      | false =>
        have heq : readTextOf c0 = readTextOf c := by simpa using hd
        simp [heq]
  | vfolder => exact absurd hab hnf
  | vmissing =>
    unfold entryMatches
    rw [iwsCreate_establish q b c v hab hchain, hb]
    cases b with
    | true => simp [readBinOf]
    | false => simp [readTextOf]

theorem iws_silent (q : String) (b : Bool) (c : Content) (v : Vault)
    (hb : isBinaryFileType q = b)
    (hm : entryMatches q c v = true) :
    inboundWriteStep q b c v = (v, []) := by
  unfold entryMatches at hm
  cases hab : v.getAbs q with
  | vfile c0 =>
    rw [hab] at hm
    dsimp only at hm
    rw [hb] at hm
    rw [iws_eq, hab]
    dsimp only
    cases b with
    | true =>
      have heq : readBinOf c0 = readBinOf c := by simpa using hm
      simp [heq]
    | false =>
      have heq : readTextOf c0 = readTextOf c := by simpa using hm
      simp [heq]
  | vfolder => rw [hab] at hm; exact absurd hm (by simp)
  | vmissing => rw [hab] at hm; exact absurd hm (by simp)

/-! ## Walk bookkeeping helpers -/

theorem not_mem_flatMap_of_disjoint (f : (List String × List String) → List String)
    (ps : List String) (parts : List (List String × List String))
    (h : ∀ pt ∈ parts, disjointL ps (f pt) = true) (x : String) (hx : x ∈ ps) :
    x ∉ parts.flatMap f := by
  intro hmem
  rw [List.mem_flatMap] at hmem
  obtain ⟨pt, hpt, hxf⟩ := hmem
  exact disjointL_mem ps (f pt) (h pt hpt) x hx hxf

theorem flatMap_not_mem_of_disjoint (ts : List String)
    (parts : List (List String × List String))
    (h : ∀ pt ∈ parts, disjointL pt.1 ts = true) (x : String)
    (hx : x ∈ parts.flatMap Prod.fst) : x ∉ ts := by
  rw [List.mem_flatMap] at hx
  obtain ⟨pt, hpt, hxf⟩ := hx
  exact disjointL_mem pt.1 ts (h pt hpt) x hxf

theorem walkFilePathsEntries_eq_parts (s : SyncRepSettings)
    (entries : List (String × ETree)) (rel : String) :
    walkFilePathsEntries s entries rel
      = (entryParts s entries rel).flatMap Prod.fst := by
  induction entries with
  | nil => rfl
  | cons e rest ih =>
    obtain ⟨name, child⟩ := e
    rw [walkFilePathsEntries.eq_def]
    dsimp only
    unfold entryParts at ih ⊢
    rw [List.map_cons, List.flatMap_cons, ih]
    unfold entryPart
    dsimp only
    cases hsh : shouldSyncFile s (joinRel rel name) with
    | false => rfl
    | true => cases child <;> rfl

theorem walkDirTargetsEntries_eq_parts (s : SyncRepSettings)
    (entries : List (String × ETree)) (rel : String) :
    walkDirTargetsEntries s entries rel
      = (entryParts s entries rel).flatMap Prod.snd := by
  induction entries with
  | nil => rfl
  | cons e rest ih =>
    obtain ⟨name, child⟩ := e
    rw [walkDirTargetsEntries.eq_def]
    dsimp only
    unfold entryParts at ih ⊢
    rw [List.map_cons, List.flatMap_cons, ih]
    unfold entryPart
    dsimp only
    cases hsh : shouldSyncFile s (joinRel rel name) with
    | false => rfl
    | true => cases child <;> rfl

theorem ensureGo_trace (segs : List String) :
    ∀ (cur : String) (v : Vault) (a : Act), a ∈ (ensureGo segs cur v).2 →
      ∃ d, a = Act.vaultCreateFolder d := by
  induction segs with
  | nil => intro cur v a ha; exact absurd ha (by simp [ensureGo])
  | cons seg rest ih =>
    intro cur v a ha
    rw [ensureGo] at ha
    cases hab : v.getAbs (if cur = "" then seg else cur ++ "/" ++ seg) with
    | vmissing =>
      rw [hab] at ha
      dsimp only at ha
      rcases hC : vaultCreateFolderCall v (if cur = "" then seg else cur ++ "/" ++ seg)
        with ⟨v1, ok⟩
      rw [hC] at ha
      dsimp only at ha
      rcases hG : ensureGo rest (if cur = "" then seg else cur ++ "/" ++ seg) v1
        with ⟨v2, acts⟩
      rw [hG] at ha
      dsimp only at ha
      rcases List.mem_cons.mp ha with h1 | h2
      · exact ⟨_, h1⟩
      · have hih := ih (if cur = "" then seg else cur ++ "/" ++ seg) v1 a
        rw [hG] at hih
        exact hih h2
    | vfile c =>
      rw [hab] at ha
      exact ih _ v a ha
    | vfolder =>
      rw [hab] at ha
      exact ih _ v a ha

theorem ensureVaultDirectory_trace (d : String) (v : Vault) (a : Act)
    (ha : a ∈ (ensureVaultDirectory d v).2) : ∃ p, a = Act.vaultCreateFolder p :=
  ensureGo_trace _ _ v a ha

/-! ## The recursive walk never throws on an error-free tree -/

mutual

theorem walk_thrown (s : SyncRepSettings) (t : ETree) (rel : String) (v : Vault)
    (h : treeNoErr t = true) :
    (syncDirectoryFromExternal s t rel v).2.2 = false := by
  cases t with
  | file c => rfl
  | dir listing =>
    rw [syncDirectoryFromExternal.eq_def]
    dsimp only
    cases hsh : shouldSyncFile s rel with
    | false => rfl
    | true =>
      cases listing with
      | error e =>
        rw [treeNoErr.eq_def] at h
        dsimp only at h
        exact absurd h (by simp)
      | ok entries =>
        rw [treeNoErr.eq_def] at h
        dsimp only at h
        cases hab : v.getAbs rel with
        | vmissing =>
          dsimp only
          rcases hE : ensureVaultDirectory rel v with ⟨v1, a1⟩
          dsimp only
          rcases hS : syncEntries s entries rel v1 with ⟨v2, a2, thr⟩
          dsimp only
          have hth := entries_thrown s entries rel v1 h
          rw [hS] at hth
          exact hth
        | vfile c0 =>
          dsimp only
          rcases hS : syncEntries s entries rel v with ⟨v2, a2, thr⟩
          dsimp only
          have hth := entries_thrown s entries rel v h
          rw [hS] at hth
          exact hth
        | vfolder =>
          dsimp only
          rcases hS : syncEntries s entries rel v with ⟨v2, a2, thr⟩
          dsimp only
          have hth := entries_thrown s entries rel v h
          rw [hS] at hth
          exact hth

theorem entries_thrown (s : SyncRepSettings) (entries : List (String × ETree))
    (rel : String) (v : Vault) (h : entriesNoErr entries = true) :
    (syncEntries s entries rel v).2.2 = false := by
  cases entries with
  | nil => rfl
  | cons e rest =>
    obtain ⟨name, child⟩ := e
    rw [entriesNoErr.eq_def] at h
    dsimp only at h
    rw [Bool.and_eq_true] at h
    rw [syncEntries.eq_def]
    dsimp only
    cases hsh : shouldSyncFile s (joinRel rel name) with
    | false =>
      exact entries_thrown s rest rel v h.2
    | true =>
      cases child with
      | dir listing =>
        rcases hW : syncDirectoryFromExternal s (ETree.dir listing) (joinRel rel name) v
          with ⟨v1, a1, thr1⟩
        dsimp only
        have ht1 := walk_thrown s (ETree.dir listing) (joinRel rel name) v h.1
        rw [hW] at ht1
        dsimp only at ht1
        rw [ht1]
        rcases hR : syncEntries s rest rel v1 with ⟨v2, a2, thr2⟩
        dsimp only
        have ht2 := entries_thrown s rest rel v1 h.2
        rw [hR] at ht2
        exact ht2
      | file content =>
        show (syncEntries s rest rel
          (syncExternalFileEntry content (joinRel rel name) v).1).2.2 = false
        exact entries_thrown s rest rel _ h.2

end

/-! ## Shape equations for the walk and the scan -/

theorem if_bang_true (α : Type) (b c : α) : (if (!true) = true then b else c) = c := rfl

theorem if_bang_false (α : Type) (b c : α) : (if (!false) = true then b else c) = b := rfl

theorem walkEnsure_pres (rel : String) (v : Vault) :
    PresStep v (walkEnsure rel v).1 [] := by
  unfold walkEnsure
  cases hab : v.getAbs rel with
  | vmissing => exact ensureVaultDirectory_pres rel v
  | vfile c0 => exact PresStep_refl v []
  | vfolder => exact PresStep_refl v []

theorem walkEnsure_folderChar (rel : String) (v : Vault) :
    FolderChar v (walkEnsure rel v).1 (chainStrings rel) := by
  unfold walkEnsure
  cases hab : v.getAbs rel with
  | vmissing => intro p hp; exact ensureVaultDirectory_folderChar rel v p hp
  | vfile c0 => exact FolderChar_refl v _
  | vfolder => exact FolderChar_refl v _

theorem walkEnsure_files (rel : String) (v : Vault) :
    ((walkEnsure rel v).1).files = v.files := by
  unfold walkEnsure
  cases hab : v.getAbs rel with
  | vmissing => exact ensureVaultDirectory_files rel v
  | vfile c0 => rfl
  | vfolder => rfl

theorem walkEnsure_folders_sub (rel : String) (v : Vault) (q : String)
    (hq : q ∈ v.folders) : q ∈ ((walkEnsure rel v).1).folders := by
  unfold walkEnsure
  cases hab : v.getAbs rel with
  | vmissing => exact ensureGo_folders_sub _ _ v q hq
  | vfile c0 => exact hq
  | vfolder => exact hq

theorem walkEnsure_trace (rel : String) (v : Vault) (a : Act)
    (ha : a ∈ (walkEnsure rel v).2) : ∃ d, a = Act.vaultCreateFolder d := by
  unfold walkEnsure at ha
  cases hab : v.getAbs rel with
  | vmissing => rw [hab] at ha; exact ensureVaultDirectory_trace rel v a ha
  | vfile c0 => rw [hab] at ha; exact absurd ha (by simp)
  | vfolder => rw [hab] at ha; exact absurd ha (by simp)

theorem walkEnsure_establish (rel : String) (v : Vault)
    (hgood : rel = "" ∨ goodPath rel = true) :
    ((walkEnsure rel v).1).getAbs rel ≠ VEntry.vmissing := by
  unfold walkEnsure
  cases hab : v.getAbs rel with
  | vmissing =>
    exact ensureVaultDirectory_establish rel v
      (hgood.elim (fun h => Or.inr h) (fun h => Or.inl h))
  | vfile c0 => rw [hab]; simp
  | vfolder => rw [hab]; simp

theorem walkEnsure_of_nonmissing (rel : String) (v : Vault)
    (h : v.getAbs rel ≠ VEntry.vmissing) : walkEnsure rel v = (v, []) := by
  unfold walkEnsure
  cases hab : v.getAbs rel with
  | vmissing => exact absurd hab h
  | vfile c0 => rfl
  | vfolder => rfl

theorem walk_eq_file (s : SyncRepSettings) (c : Except String Content)
    (rel : String) (v : Vault) :
    syncDirectoryFromExternal s (.file c) rel v = (v, [], false) := rfl

theorem walk_eq_skip (s : SyncRepSettings)
    (listing : Except String (List (String × ETree))) (rel : String) (v : Vault)
    (hsh : shouldSyncFile s rel = false) :
    syncDirectoryFromExternal s (.dir listing) rel v = (v, [], false) := by
  rw [syncDirectoryFromExternal.eq_def, hsh]
  rfl

theorem walk_eq_err (s : SyncRepSettings) (e : String) (rel : String) (v : Vault)
    (hsh : shouldSyncFile s rel = true) :
    syncDirectoryFromExternal s (.dir (.error e)) rel v
      = ((walkEnsure rel v).1, (walkEnsure rel v).2, true) := by
  rw [syncDirectoryFromExternal.eq_def, hsh]
  unfold walkEnsure
  cases hab : v.getAbs rel <;> rfl

theorem walk_eq_ok (s : SyncRepSettings) (entries : List (String × ETree))
    (rel : String) (v : Vault) (hsh : shouldSyncFile s rel = true) :
    syncDirectoryFromExternal s (.dir (.ok entries)) rel v
      = ((syncEntries s entries rel (walkEnsure rel v).1).1,
         (walkEnsure rel v).2
           ++ (syncEntries s entries rel (walkEnsure rel v).1).2.1,
         (syncEntries s entries rel (walkEnsure rel v).1).2.2) := by
  rw [syncDirectoryFromExternal.eq_def, hsh]
  unfold walkEnsure
  cases hab : v.getAbs rel <;> rfl

theorem syncE_nil (s : SyncRepSettings) (rel : String) (v : Vault) :
    syncEntries s [] rel v = (v, [], false) := rfl

theorem syncE_cons_skip (s : SyncRepSettings) (name : String) (child : ETree)
    (rest : List (String × ETree)) (rel : String) (v : Vault)
    (hsh : shouldSyncFile s (joinRel rel name) = false) :
    syncEntries s ((name, child) :: rest) rel v = syncEntries s rest rel v := by
  rw [syncEntries.eq_def]
  dsimp only
  rw [hsh]
  cases child <;> rfl

theorem syncE_cons_dir_thrown (s : SyncRepSettings) (name : String)
    (listing : Except String (List (String × ETree)))
    (rest : List (String × ETree)) (rel : String) (v : Vault)
    (hsh : shouldSyncFile s (joinRel rel name) = true)
    (hth : (syncDirectoryFromExternal s (.dir listing) (joinRel rel name) v).2.2 = true) :
    syncEntries s ((name, .dir listing) :: rest) rel v
      = ((syncDirectoryFromExternal s (.dir listing) (joinRel rel name) v).1,
         (syncDirectoryFromExternal s (.dir listing) (joinRel rel name) v).2.1,
         true) := by
  rw [syncEntries.eq_def]
  dsimp only
  rw [hsh, if_bang_true, hth]
  rfl

theorem syncE_cons_dir_ok (s : SyncRepSettings) (name : String)
    (listing : Except String (List (String × ETree)))
    (rest : List (String × ETree)) (rel : String) (v : Vault)
    (hsh : shouldSyncFile s (joinRel rel name) = true)
    (hth : (syncDirectoryFromExternal s (.dir listing) (joinRel rel name) v).2.2 = false) :
    syncEntries s ((name, .dir listing) :: rest) rel v
      = ((syncEntries s rest rel
            (syncDirectoryFromExternal s (.dir listing) (joinRel rel name) v).1).1,
         (syncDirectoryFromExternal s (.dir listing) (joinRel rel name) v).2.1
           ++ (syncEntries s rest rel
                (syncDirectoryFromExternal s (.dir listing) (joinRel rel name) v).1).2.1,
         (syncEntries s rest rel
            (syncDirectoryFromExternal s (.dir listing) (joinRel rel name) v).1).2.2) := by
  rw [syncEntries.eq_def]
  dsimp only
  rw [hsh, if_bang_true, hth]
  rfl

theorem syncE_cons_file (s : SyncRepSettings) (name : String)
    (content : Except String Content) (rest : List (String × ETree))
    (rel : String) (v : Vault)
    (hsh : shouldSyncFile s (joinRel rel name) = true) :
    syncEntries s ((name, .file content) :: rest) rel v
      = ((syncEntries s rest rel
            (syncExternalFileEntry content (joinRel rel name) v).1).1,
         (syncExternalFileEntry content (joinRel rel name) v).2
           ++ (syncEntries s rest rel
                (syncExternalFileEntry content (joinRel rel name) v).1).2.1,
         (syncEntries s rest rel
            (syncExternalFileEntry content (joinRel rel name) v).1).2.2) := by
  rw [syncEntries.eq_def]
  dsimp only
  rw [hsh, if_bang_true]

theorem scan_eq_file (s : SyncRepSettings) (c : Except String Content)
    (rel : String) (v : Vault) :
    scanAndCreateAllDirectories s (.file c) rel v = (v, []) := rfl

theorem scan_eq_root_err (s : SyncRepSettings) (e : String) (v : Vault) :
    scanAndCreateAllDirectories s (.dir (.error e)) "" v = (v, []) := rfl

theorem scan_eq_root_ok (s : SyncRepSettings) (entries : List (String × ETree))
    (v : Vault) :
    scanAndCreateAllDirectories s (.dir (.ok entries)) "" v
      = scanEntries s entries "" v := rfl

theorem scan_eq_skip (s : SyncRepSettings)
    (listing : Except String (List (String × ETree))) (rel : String) (v : Vault)
    (hrel : rel ≠ "") (hsh : shouldSyncFile s rel = false) :
    scanAndCreateAllDirectories s (.dir listing) rel v = (v, []) := by
  rw [scanAndCreateAllDirectories.eq_def]
  dsimp only
  rw [if_pos hrel, hsh]
  rfl

theorem scan_eq_sub_err (s : SyncRepSettings) (e : String) (rel : String)
    (v : Vault) (hrel : rel ≠ "") (hsh : shouldSyncFile s rel = true) :
    scanAndCreateAllDirectories s (.dir (.error e)) rel v
      = ((walkEnsure rel v).1, (walkEnsure rel v).2) := by
  rw [scanAndCreateAllDirectories.eq_def]
  dsimp only
  rw [if_pos hrel, hsh]
  unfold walkEnsure
  cases hab : v.getAbs rel <;> rfl

theorem scan_eq_sub_ok (s : SyncRepSettings) (entries : List (String × ETree))
    (rel : String) (v : Vault) (hrel : rel ≠ "")
    (hsh : shouldSyncFile s rel = true) :
    scanAndCreateAllDirectories s (.dir (.ok entries)) rel v
      = ((scanEntries s entries rel (walkEnsure rel v).1).1,
         (walkEnsure rel v).2
           ++ (scanEntries s entries rel (walkEnsure rel v).1).2) := by
  rw [scanAndCreateAllDirectories.eq_def]
  dsimp only
  rw [if_pos hrel, hsh]
  unfold walkEnsure
  cases hab : v.getAbs rel <;> rfl

theorem scanE_nil (s : SyncRepSettings) (rel : String) (v : Vault) :
    scanEntries s [] rel v = (v, []) := rfl

theorem scanE_cons_file (s : SyncRepSettings) (name : String)
    (content : Except String Content) (rest : List (String × ETree))
    (rel : String) (v : Vault) :
    scanEntries s ((name, .file content) :: rest) rel v
      = scanEntries s rest rel v := rfl

theorem scanE_cons_dir (s : SyncRepSettings) (name : String)
    (listing : Except String (List (String × ETree)))
    (rest : List (String × ETree)) (rel : String) (v : Vault) :
    scanEntries s ((name, .dir listing) :: rest) rel v
      = ((scanEntries s rest rel
            (scanAndCreateAllDirectories s (.dir listing) (joinRel rel name) v).1).1,
         (scanAndCreateAllDirectories s (.dir listing) (joinRel rel name) v).2
           ++ (scanEntries s rest rel
                (scanAndCreateAllDirectories s (.dir listing) (joinRel rel name) v).1).2) := rfl

/-! ## Shape equations for the derived predicates -/

theorem treeNoErr_dir_err (e : String) : treeNoErr (.dir (.error e)) = false := rfl

theorem treeNoErr_dir_ok (entries : List (String × ETree)) :
    treeNoErr (.dir (.ok entries)) = entriesNoErr entries := rfl

theorem entriesNoErr_cons (name : String) (child : ETree)
    (rest : List (String × ETree)) :
    entriesNoErr ((name, child) :: rest) = (treeNoErr child && entriesNoErr rest) := rfl

theorem treeNoFiles_dir_ok (entries : List (String × ETree)) :
    treeNoFiles (.dir (.ok entries)) = entriesNoFiles entries := rfl

theorem entriesNoFiles_cons (name : String) (child : ETree)
    (rest : List (String × ETree)) :
    entriesNoFiles ((name, child) :: rest)
      = (treeNoFiles child && entriesNoFiles rest) := rfl

theorem wfp_file (s : SyncRepSettings) (c : Except String Content) (rel : String) :
    walkFilePaths s (.file c) rel = [] := rfl

theorem wfp_skip (s : SyncRepSettings)
    (listing : Except String (List (String × ETree))) (rel : String)
    (hsh : shouldSyncFile s rel = false) :
    walkFilePaths s (.dir listing) rel = [] := by
  rw [walkFilePaths.eq_def]
  dsimp only
  rw [hsh]
  rfl

theorem wfp_err (s : SyncRepSettings) (e : String) (rel : String)
    (hsh : shouldSyncFile s rel = true) :
    walkFilePaths s (.dir (.error e)) rel = [] := by
  rw [walkFilePaths.eq_def]
  dsimp only
  rw [hsh]
  rfl

theorem wfp_ok (s : SyncRepSettings) (entries : List (String × ETree))
    (rel : String) (hsh : shouldSyncFile s rel = true) :
    walkFilePaths s (.dir (.ok entries)) rel = walkFilePathsEntries s entries rel := by
  rw [walkFilePaths.eq_def]
  dsimp only
  rw [hsh]
  rfl

theorem wfpE_nil (s : SyncRepSettings) (rel : String) :
    walkFilePathsEntries s [] rel = [] := rfl

theorem wfpE_cons_skip (s : SyncRepSettings) (name : String) (child : ETree)
    (rest : List (String × ETree)) (rel : String)
    (hsh : shouldSyncFile s (joinRel rel name) = false) :
    walkFilePathsEntries s ((name, child) :: rest) rel
      = walkFilePathsEntries s rest rel := by
  rw [walkFilePathsEntries.eq_def]
  dsimp only
  rw [hsh]
  rfl

theorem wfpE_cons_dir (s : SyncRepSettings) (name : String)
    (listing : Except String (List (String × ETree)))
    (rest : List (String × ETree)) (rel : String)
    (hsh : shouldSyncFile s (joinRel rel name) = true) :
    walkFilePathsEntries s ((name, .dir listing) :: rest) rel
      = walkFilePaths s (.dir listing) (joinRel rel name)
          ++ walkFilePathsEntries s rest rel := by
  rw [walkFilePathsEntries.eq_def]
  dsimp only
  rw [hsh]
  rfl

theorem wfpE_cons_file (s : SyncRepSettings) (name : String)
    (content : Except String Content) (rest : List (String × ETree)) (rel : String)
    (hsh : shouldSyncFile s (joinRel rel name) = true) :
    walkFilePathsEntries s ((name, .file content) :: rest) rel
      = joinRel rel name :: walkFilePathsEntries s rest rel := by
  rw [walkFilePathsEntries.eq_def]
  dsimp only
  rw [hsh]
  rfl

theorem wdt_file (s : SyncRepSettings) (c : Except String Content) (rel : String) :
    walkDirTargets s (.file c) rel = [] := rfl

theorem wdt_skip (s : SyncRepSettings)
    (listing : Except String (List (String × ETree))) (rel : String)
    (hsh : shouldSyncFile s rel = false) :
    walkDirTargets s (.dir listing) rel = [] := by
  rw [walkDirTargets.eq_def]
  dsimp only
  rw [hsh]
  rfl

theorem wdt_err (s : SyncRepSettings) (e : String) (rel : String)
    (hsh : shouldSyncFile s rel = true) :
    walkDirTargets s (.dir (.error e)) rel = chainStrings rel := by
  rw [walkDirTargets.eq_def]
  dsimp only
  rw [hsh]
  simp

theorem wdt_ok (s : SyncRepSettings) (entries : List (String × ETree))
    (rel : String) (hsh : shouldSyncFile s rel = true) :
    walkDirTargets s (.dir (.ok entries)) rel
      = chainStrings rel ++ walkDirTargetsEntries s entries rel := by
  rw [walkDirTargets.eq_def]
  dsimp only
  rw [hsh]
  rfl

theorem wdtE_nil (s : SyncRepSettings) (rel : String) :
    walkDirTargetsEntries s [] rel = [] := rfl

theorem wdtE_cons_skip (s : SyncRepSettings) (name : String) (child : ETree)
    (rest : List (String × ETree)) (rel : String)
    (hsh : shouldSyncFile s (joinRel rel name) = false) :
    walkDirTargetsEntries s ((name, child) :: rest) rel
      = walkDirTargetsEntries s rest rel := by
  rw [walkDirTargetsEntries.eq_def]
  dsimp only
  rw [hsh]
  rfl

theorem wdtE_cons_dir (s : SyncRepSettings) (name : String)
    (listing : Except String (List (String × ETree)))
    (rest : List (String × ETree)) (rel : String)
    (hsh : shouldSyncFile s (joinRel rel name) = true) :
    walkDirTargetsEntries s ((name, .dir listing) :: rest) rel
      = walkDirTargets s (.dir listing) (joinRel rel name)
          ++ walkDirTargetsEntries s rest rel := by
  rw [walkDirTargetsEntries.eq_def]
  dsimp only
  rw [hsh]
  rfl

theorem wdtE_cons_file (s : SyncRepSettings) (name : String)
    (content : Except String Content) (rest : List (String × ETree)) (rel : String)
    (hsh : shouldSyncFile s (joinRel rel name) = true) :
    walkDirTargetsEntries s ((name, .file content) :: rest) rel
      = chainStrings (pathDirname (joinRel rel name))
          ++ walkDirTargetsEntries s rest rel := by
  rw [walkDirTargetsEntries.eq_def]
  dsimp only
  rw [hsh]
  rfl

theorem sdt_file (s : SyncRepSettings) (c : Except String Content) (rel : String) :
    scanDirTargets s (.file c) rel = [] := rfl

theorem sdt_skip (s : SyncRepSettings)
    (listing : Except String (List (String × ETree))) (rel : String)
    (hrel : rel ≠ "") (hsh : shouldSyncFile s rel = false) :
    scanDirTargets s (.dir listing) rel = [] := by
  rw [scanDirTargets.eq_def]
  dsimp only
  rw [hsh, decide_eq_true hrel]
  rfl

theorem sdt_root_err (s : SyncRepSettings) (e : String) :
    scanDirTargets s (.dir (.error e)) "" = chainStrings "" := by
  rw [scanDirTargets.eq_def]
  simp

theorem sdt_root_ok (s : SyncRepSettings) (entries : List (String × ETree)) :
    scanDirTargets s (.dir (.ok entries)) ""
      = chainStrings "" ++ scanDirTargetsEntries s entries "" := by
  rw [scanDirTargets.eq_def]
  rfl

theorem sdt_sub_err (s : SyncRepSettings) (e : String) (rel : String)
    (hrel : rel ≠ "") (hsh : shouldSyncFile s rel = true) :
    scanDirTargets s (.dir (.error e)) rel = chainStrings rel := by
  rw [scanDirTargets.eq_def]
  dsimp only
  rw [hsh]
  simp

theorem sdt_sub_ok (s : SyncRepSettings) (entries : List (String × ETree))
    (rel : String) (hrel : rel ≠ "") (hsh : shouldSyncFile s rel = true) :
    scanDirTargets s (.dir (.ok entries)) rel
      = chainStrings rel ++ scanDirTargetsEntries s entries rel := by
  rw [scanDirTargets.eq_def]
  dsimp only
  rw [hsh]
  simp

theorem sdtE_nil (s : SyncRepSettings) (rel : String) :
    scanDirTargetsEntries s [] rel = [] := rfl

theorem sdtE_cons_dir (s : SyncRepSettings) (name : String)
    (listing : Except String (List (String × ETree)))
    (rest : List (String × ETree)) (rel : String) :
    scanDirTargetsEntries s ((name, .dir listing) :: rest) rel
      = scanDirTargets s (.dir listing) (joinRel rel name)
          ++ scanDirTargetsEntries s rest rel := rfl

theorem sdtE_cons_file (s : SyncRepSettings) (name : String)
    (content : Except String Content) (rest : List (String × ETree)) (rel : String) :
    scanDirTargetsEntries s ((name, .file content) :: rest) rel
      = scanDirTargetsEntries s rest rel := rfl

theorem synced_file (s : SyncRepSettings) (c : Except String Content)
    (rel : String) (v : Vault) : Synced s (.file c) rel v = true := rfl

theorem synced_skip (s : SyncRepSettings)
    (listing : Except String (List (String × ETree))) (rel : String) (v : Vault)
    (hsh : shouldSyncFile s rel = false) :
    Synced s (.dir listing) rel v = true := by
  rw [Synced.eq_def]
  dsimp only
  rw [hsh]
  rfl

theorem synced_err (s : SyncRepSettings) (e : String) (rel : String) (v : Vault)
    (hsh : shouldSyncFile s rel = true) :
    Synced s (.dir (.error e)) rel v = !(v.getAbs rel).isMissing := by
  rw [Synced.eq_def]
  dsimp only
  rw [hsh]
  simp

theorem synced_ok (s : SyncRepSettings) (entries : List (String × ETree))
    (rel : String) (v : Vault) (hsh : shouldSyncFile s rel = true) :
    Synced s (.dir (.ok entries)) rel v
      = (!(v.getAbs rel).isMissing && SyncedEntries s entries rel v) := by
  rw [Synced.eq_def]
  dsimp only
  rw [hsh]
  rfl

theorem syncedE_nil (s : SyncRepSettings) (rel : String) (v : Vault) :
    SyncedEntries s [] rel v = true := rfl

theorem syncedE_cons_skip (s : SyncRepSettings) (name : String) (child : ETree)
    (rest : List (String × ETree)) (rel : String) (v : Vault)
    (hsh : shouldSyncFile s (joinRel rel name) = false) :
    SyncedEntries s ((name, child) :: rest) rel v
      = SyncedEntries s rest rel v := by
  rw [SyncedEntries.eq_def]
  dsimp only
  rw [hsh]
  simp

theorem syncedE_cons_dir (s : SyncRepSettings) (name : String)
    (listing : Except String (List (String × ETree)))
    (rest : List (String × ETree)) (rel : String) (v : Vault)
    (hsh : shouldSyncFile s (joinRel rel name) = true) :
    SyncedEntries s ((name, .dir listing) :: rest) rel v
      = (Synced s (.dir listing) (joinRel rel name) v
          && SyncedEntries s rest rel v) := by
  rw [SyncedEntries.eq_def]
  dsimp only
  rw [hsh]
  rfl

theorem syncedE_cons_file_ok (s : SyncRepSettings) (name : String) (c : Content)
    (rest : List (String × ETree)) (rel : String) (v : Vault)
    (hsh : shouldSyncFile s (joinRel rel name) = true) :
    SyncedEntries s ((name, .file (.ok c)) :: rest) rel v
      = (entryMatches (joinRel rel name) c v && SyncedEntries s rest rel v) := by
  rw [SyncedEntries.eq_def]
  dsimp only
  rw [hsh]
  rfl

theorem syncedE_cons_file_err (s : SyncRepSettings) (name : String) (e : String)
    (rest : List (String × ETree)) (rel : String) (v : Vault)
    (hsh : shouldSyncFile s (joinRel rel name) = true) :
    SyncedEntries s ((name, .file (.error e)) :: rest) rel v
      = SyncedEntries s rest rel v := by
  rw [SyncedEntries.eq_def]
  dsimp only
  rw [hsh]
  simp

theorem ss_file (s : SyncRepSettings) (c : Except String Content)
    (rel : String) (v : Vault) : ScanSynced s (.file c) rel v = true := rfl

theorem ss_skip (s : SyncRepSettings)
    (listing : Except String (List (String × ETree))) (rel : String) (v : Vault)
    (hrel : rel ≠ "") (hsh : shouldSyncFile s rel = false) :
    ScanSynced s (.dir listing) rel v = true := by
  rw [ScanSynced.eq_def]
  dsimp only
  rw [hsh, decide_eq_true hrel]
  rfl

theorem ss_root_err (s : SyncRepSettings) (e : String) (v : Vault) :
    ScanSynced s (.dir (.error e)) "" v = true := by
  rw [ScanSynced.eq_def]
  simp

theorem ss_root_ok (s : SyncRepSettings) (entries : List (String × ETree))
    (v : Vault) :
    ScanSynced s (.dir (.ok entries)) "" v
      = ScanSyncedEntries s entries "" v := by
  rw [ScanSynced.eq_def]
  simp

theorem ss_sub_err (s : SyncRepSettings) (e : String) (rel : String) (v : Vault)
    (hrel : rel ≠ "") (hsh : shouldSyncFile s rel = true) :
    ScanSynced s (.dir (.error e)) rel v = !(v.getAbs rel).isMissing := by
  rw [ScanSynced.eq_def]
  dsimp only
  rw [hsh]
  simp [hrel]

theorem ss_sub_ok (s : SyncRepSettings) (entries : List (String × ETree))
    (rel : String) (v : Vault) (hrel : rel ≠ "")
    (hsh : shouldSyncFile s rel = true) :
    ScanSynced s (.dir (.ok entries)) rel v
      = (!(v.getAbs rel).isMissing && ScanSyncedEntries s entries rel v) := by
  rw [ScanSynced.eq_def]
  dsimp only
  rw [hsh]
  simp [hrel]

theorem ssE_nil (s : SyncRepSettings) (rel : String) (v : Vault) :
    ScanSyncedEntries s [] rel v = true := rfl

theorem ssE_cons_dir (s : SyncRepSettings) (name : String)
    (listing : Except String (List (String × ETree)))
    (rest : List (String × ETree)) (rel : String) (v : Vault) :
    ScanSyncedEntries s ((name, .dir listing) :: rest) rel v
      = (ScanSynced s (.dir listing) (joinRel rel name) v
          && ScanSyncedEntries s rest rel v) := rfl

theorem ssE_cons_file (s : SyncRepSettings) (name : String)
    (content : Except String Content) (rest : List (String × ETree))
    (rel : String) (v : Vault) :
    ScanSyncedEntries s ((name, .file content) :: rest) rel v
      = ScanSyncedEntries s rest rel v := by
  rw [ScanSyncedEntries.eq_def]
  simp

theorem wt_file (s : SyncRepSettings) (c : Except String Content) (rel : String) :
    walkTidy s (.file c) rel = true := rfl

theorem wt_ok (s : SyncRepSettings) (entries : List (String × ETree))
    (rel : String) (hsh : shouldSyncFile s rel = true) :
    walkTidy s (.dir (.ok entries)) rel
      = (partsOK (entryParts s entries rel)
          && disjointL (walkFilePathsEntries s entries rel) (chainStrings rel)
          && walkTidyEntries s entries rel) := by
  rw [walkTidy.eq_def]
  dsimp only
  rw [hsh]
  rfl

theorem wtE_nil (s : SyncRepSettings) (rel : String) :
    walkTidyEntries s [] rel = true := rfl

theorem wtE_cons_skip (s : SyncRepSettings) (name : String) (child : ETree)
    (rest : List (String × ETree)) (rel : String)
    (hsh : shouldSyncFile s (joinRel rel name) = false) :
    walkTidyEntries s ((name, child) :: rest) rel
      = walkTidyEntries s rest rel := by
  rw [walkTidyEntries.eq_def]
  dsimp only
  rw [hsh]
  simp

theorem wtE_cons_dir (s : SyncRepSettings) (name : String)
    (listing : Except String (List (String × ETree)))
    (rest : List (String × ETree)) (rel : String)
    (hsh : shouldSyncFile s (joinRel rel name) = true) :
    walkTidyEntries s ((name, .dir listing) :: rest) rel
      = ((goodPath (joinRel rel name) && walkTidy s (.dir listing) (joinRel rel name))
          && walkTidyEntries s rest rel) := by
  rw [walkTidyEntries.eq_def]
  dsimp only
  rw [hsh]
  rfl

theorem wtE_cons_file (s : SyncRepSettings) (name : String)
    (content : Except String Content) (rest : List (String × ETree)) (rel : String)
    (hsh : shouldSyncFile s (joinRel rel name) = true) :
    walkTidyEntries s ((name, .file content) :: rest) rel
      = (goodPath (joinRel rel name) && walkTidyEntries s rest rel) := by
  rw [walkTidyEntries.eq_def]
  dsimp only
  rw [hsh]
  simp

theorem st_file (s : SyncRepSettings) (c : Except String Content) (rel : String) :
    scanTidy s (.file c) rel = true := rfl

theorem st_root_ok (s : SyncRepSettings) (entries : List (String × ETree)) :
    scanTidy s (.dir (.ok entries)) "" = scanTidyEntries s entries "" := by
  rw [scanTidy.eq_def]
  rfl

theorem st_sub_ok (s : SyncRepSettings) (entries : List (String × ETree))
    (rel : String) (hrel : rel ≠ "") (hsh : shouldSyncFile s rel = true) :
    scanTidy s (.dir (.ok entries)) rel = scanTidyEntries s entries rel := by
  rw [scanTidy.eq_def]
  dsimp only
  rw [hsh]
  simp

theorem stE_nil (s : SyncRepSettings) (rel : String) :
    scanTidyEntries s [] rel = true := rfl

theorem stE_cons_dir (s : SyncRepSettings) (name : String)
    (listing : Except String (List (String × ETree)))
    (rest : List (String × ETree)) (rel : String) :
    scanTidyEntries s ((name, .dir listing) :: rest) rel
      = ((goodPath (joinRel rel name) && scanTidy s (.dir listing) (joinRel rel name))
          && scanTidyEntries s rest rel) := rfl

theorem stE_cons_file (s : SyncRepSettings) (name : String)
    (content : Except String Content) (rest : List (String × ETree)) (rel : String) :
    scanTidyEntries s ((name, .file content) :: rest) rel
      = scanTidyEntries s rest rel := by
  rw [scanTidyEntries.eq_def]
  simp

/-! ## Preservation and folder-creation contracts of the walk -/

theorem sfe_pres (content : Except String Content) (p : String) (v : Vault) :
    PresStep v (syncExternalFileEntry content p v).1 [p] := by
  unfold syncExternalFileEntry
  cases content with
  | error err => exact PresStep_refl v _
  | ok c => exact iws_pres p _ c v

theorem sfe_folderChar (content : Except String Content) (p : String) (v : Vault) :
    FolderChar v (syncExternalFileEntry content p v).1
      (chainStrings (pathDirname p)) := by
  unfold syncExternalFileEntry
  cases content with
  | error err => exact FolderChar_refl v _
  | ok c => exact iws_folderChar p _ c v

mutual

theorem walk_pres (s : SyncRepSettings) (t : ETree) (rel : String) (v : Vault) :
    PresStep v (syncDirectoryFromExternal s t rel v).1 (walkFilePaths s t rel) := by
  cases t with
  | file c => rw [walk_eq_file]; exact PresStep_refl v _
  | dir listing =>
    cases hsh : shouldSyncFile s rel with
    | false => rw [walk_eq_skip s listing rel v hsh]; exact PresStep_refl v _
    | true =>
      cases listing with
      | error e =>
        rw [walk_eq_err s e rel v hsh, wfp_err s e rel hsh]
        exact PresStep_mono v _ [] _ (by intro x hx; simp at hx)
          (walkEnsure_pres rel v)
      | ok entries =>
        rw [walk_eq_ok s entries rel v hsh, wfp_ok s entries rel hsh]
        exact PresStep_trans v _ _ [] _ (walkEnsure_pres rel v)
          (entries_pres s entries rel (walkEnsure rel v).1)

theorem entries_pres (s : SyncRepSettings) (entries : List (String × ETree))
    (rel : String) (v : Vault) :
    PresStep v (syncEntries s entries rel v).1
      (walkFilePathsEntries s entries rel) := by
  cases entries with
  | nil => rw [syncE_nil]; exact PresStep_refl v _
  | cons e rest =>
    obtain ⟨name, child⟩ := e
    cases hsh : shouldSyncFile s (joinRel rel name) with
    | false =>
      rw [syncE_cons_skip s name child rest rel v hsh,
          wfpE_cons_skip s name child rest rel hsh]
      exact entries_pres s rest rel v
    | true =>
      cases child with
      | dir listing =>
        rw [wfpE_cons_dir s name listing rest rel hsh]
        cases hth : (syncDirectoryFromExternal s (.dir listing)
            (joinRel rel name) v).2.2 with
        | true =>
          rw [syncE_cons_dir_thrown s name listing rest rel v hsh hth]
          exact PresStep_mono v _
            (walkFilePaths s (.dir listing) (joinRel rel name)) _
            (fun x hx => List.mem_append.mpr (Or.inl hx))
            (walk_pres s (.dir listing) (joinRel rel name) v)
        | false =>
          rw [syncE_cons_dir_ok s name listing rest rel v hsh hth]
          exact PresStep_trans v _ _ _ _
            (walk_pres s (.dir listing) (joinRel rel name) v)
            (entries_pres s rest rel _)
      | file content =>
        rw [wfpE_cons_file s name content rest rel hsh,
            syncE_cons_file s name content rest rel v hsh]
        exact PresStep_trans v _ _ _ _
          (sfe_pres content (joinRel rel name) v)
          (entries_pres s rest rel _)

end

mutual

theorem walk_folderChar (s : SyncRepSettings) (t : ETree) (rel : String)
    (v : Vault) :
    FolderChar v (syncDirectoryFromExternal s t rel v).1 (walkDirTargets s t rel) := by
  cases t with
  | file c => rw [walk_eq_file]; exact FolderChar_refl v _
  | dir listing =>
    cases hsh : shouldSyncFile s rel with
    | false => rw [walk_eq_skip s listing rel v hsh]; exact FolderChar_refl v _
    | true =>
      cases listing with
      | error e =>
        rw [walk_eq_err s e rel v hsh, wdt_err s e rel hsh]
        exact walkEnsure_folderChar rel v
      | ok entries =>
        rw [walk_eq_ok s entries rel v hsh, wdt_ok s entries rel hsh]
        exact FolderChar_trans v _ _ _ _ (walkEnsure_folderChar rel v)
          (entries_folderChar s entries rel (walkEnsure rel v).1)

theorem entries_folderChar (s : SyncRepSettings) (entries : List (String × ETree))
    (rel : String) (v : Vault) :
    FolderChar v (syncEntries s entries rel v).1
      (walkDirTargetsEntries s entries rel) := by
  cases entries with
  | nil => rw [syncE_nil]; exact FolderChar_refl v _
  | cons e rest =>
    obtain ⟨name, child⟩ := e
    cases hsh : shouldSyncFile s (joinRel rel name) with
    | false =>
      rw [syncE_cons_skip s name child rest rel v hsh,
          wdtE_cons_skip s name child rest rel hsh]
      exact entries_folderChar s rest rel v
    | true =>
      cases child with
      | dir listing =>
        rw [wdtE_cons_dir s name listing rest rel hsh]
        cases hth : (syncDirectoryFromExternal s (.dir listing)
            (joinRel rel name) v).2.2 with
        | true =>
          rw [syncE_cons_dir_thrown s name listing rest rel v hsh hth]
          exact FolderChar_mono v _
            (walkDirTargets s (.dir listing) (joinRel rel name)) _
            (fun x hx => List.mem_append.mpr (Or.inl hx))
            (walk_folderChar s (.dir listing) (joinRel rel name) v)
        | false =>
          rw [syncE_cons_dir_ok s name listing rest rel v hsh hth]
          exact FolderChar_trans v _ _ _ _
            (walk_folderChar s (.dir listing) (joinRel rel name) v)
            (entries_folderChar s rest rel _)
      | file content =>
        rw [wdtE_cons_file s name content rest rel hsh,
            syncE_cons_file s name content rest rel v hsh]
        exact FolderChar_trans v _ _ _ _
          (sfe_folderChar content (joinRel rel name) v)
          (entries_folderChar s rest rel _)

end

/-! ## The synchronized predicates are stable under preserving steps -/

theorem nonmissing_of_bang (e : VEntry) (h : (!e.isMissing) = true) :
    e ≠ VEntry.vmissing := by
  cases e with
  | vmissing => exact absurd h (by simp [VEntry.isMissing])
  | vfile c => simp
  | vfolder => simp

theorem bang_of_nonmissing (e : VEntry) (h : e ≠ VEntry.vmissing) :
    (!e.isMissing) = true := by
  rw [notMissing_of_ne e h]
  rfl

mutual

theorem Synced_pres (s : SyncRepSettings) (t : ETree) (rel : String)
    (v w : Vault) (avoid : List String) (hs : Synced s t rel v = true)
    (hpres : PresStep v w avoid)
    (hav : ∀ p ∈ walkFilePaths s t rel, p ∉ avoid) :
    Synced s t rel w = true := by
  cases t with
  | file c => rw [synced_file]
  | dir listing =>
    cases hsh : shouldSyncFile s rel with
    | false => rw [synced_skip s listing rel w hsh]
    | true =>
      cases listing with
      | error e =>
        rw [synced_err s e rel w hsh]
        rw [synced_err s e rel v hsh] at hs
        exact bang_of_nonmissing _ (hpres.2.2 rel (nonmissing_of_bang _ hs))
      | ok entries =>
        rw [synced_ok s entries rel w hsh, Bool.and_eq_true]
        rw [synced_ok s entries rel v hsh, Bool.and_eq_true] at hs
        refine ⟨bang_of_nonmissing _ (hpres.2.2 rel (nonmissing_of_bang _ hs.1)), ?_⟩
        refine SyncedEntries_pres s entries rel v w avoid hs.2 hpres ?_
        rw [wfp_ok s entries rel hsh] at hav
        exact hav

theorem SyncedEntries_pres (s : SyncRepSettings) (entries : List (String × ETree))
    (rel : String) (v w : Vault) (avoid : List String)
    (hs : SyncedEntries s entries rel v = true) (hpres : PresStep v w avoid)
    (hav : ∀ p ∈ walkFilePathsEntries s entries rel, p ∉ avoid) :
    SyncedEntries s entries rel w = true := by
  cases entries with
  | nil => rw [syncedE_nil]
  | cons e rest =>
    obtain ⟨name, child⟩ := e
    cases hsh : shouldSyncFile s (joinRel rel name) with
    | false =>
      rw [syncedE_cons_skip s name child rest rel w hsh]
      rw [syncedE_cons_skip s name child rest rel v hsh] at hs
      refine SyncedEntries_pres s rest rel v w avoid hs hpres ?_
      rw [wfpE_cons_skip s name child rest rel hsh] at hav
      exact hav
    | true =>
      cases child with
      | dir listing =>
        rw [syncedE_cons_dir s name listing rest rel w hsh, Bool.and_eq_true]
        rw [syncedE_cons_dir s name listing rest rel v hsh, Bool.and_eq_true] at hs
        rw [wfpE_cons_dir s name listing rest rel hsh] at hav
        refine ⟨Synced_pres s (.dir listing) (joinRel rel name) v w avoid hs.1 hpres ?_, ?_⟩
        · intro p hp
          exact hav p (List.mem_append.mpr (Or.inl hp))
        · refine SyncedEntries_pres s rest rel v w avoid hs.2 hpres ?_
          intro p hp
          exact hav p (List.mem_append.mpr (Or.inr hp))
      | file content =>
        cases content with
        | ok c =>
          rw [syncedE_cons_file_ok s name c rest rel w hsh, Bool.and_eq_true]
          rw [syncedE_cons_file_ok s name c rest rel v hsh, Bool.and_eq_true] at hs
          rw [wfpE_cons_file s name (.ok c) rest rel hsh] at hav
          refine ⟨entryMatches_pres (joinRel rel name) c v w avoid hs.1 hpres
            (hav _ (List.mem_cons_self _ _)), ?_⟩
          refine SyncedEntries_pres s rest rel v w avoid hs.2 hpres ?_
          intro p hp
          exact hav p (List.mem_cons_of_mem _ hp)
        | error err =>
          rw [syncedE_cons_file_err s name err rest rel w hsh]
          rw [syncedE_cons_file_err s name err rest rel v hsh] at hs
          rw [wfpE_cons_file s name (.error err) rest rel hsh] at hav
          refine SyncedEntries_pres s rest rel v w avoid hs hpres ?_
          intro p hp
          exact hav p (List.mem_cons_of_mem _ hp)

end

mutual

theorem ScanSynced_pres (s : SyncRepSettings) (t : ETree) (rel : String)
    (v w : Vault) (hs : ScanSynced s t rel v = true)
    (hmiss : ∀ p, v.getAbs p ≠ VEntry.vmissing → w.getAbs p ≠ VEntry.vmissing) :
    ScanSynced s t rel w = true := by
  cases t with
  | file c => rw [ss_file]
  | dir listing =>
    by_cases hrel : rel = ""
    · subst hrel
      cases listing with
      | error e => rw [ss_root_err]
      | ok entries =>
        rw [ss_root_ok] at hs ⊢
        exact ScanSyncedEntries_pres s entries "" v w hs hmiss
    · cases hsh : shouldSyncFile s rel with
      | false => rw [ss_skip s listing rel w hrel hsh]
      | true =>
        cases listing with
        | error e =>
          rw [ss_sub_err s e rel w hrel hsh]
          rw [ss_sub_err s e rel v hrel hsh] at hs
          exact bang_of_nonmissing _ (hmiss rel (nonmissing_of_bang _ hs))
        | ok entries =>
          rw [ss_sub_ok s entries rel w hrel hsh, Bool.and_eq_true]
          rw [ss_sub_ok s entries rel v hrel hsh, Bool.and_eq_true] at hs
          exact ⟨bang_of_nonmissing _ (hmiss rel (nonmissing_of_bang _ hs.1)),
            ScanSyncedEntries_pres s entries rel v w hs.2 hmiss⟩

theorem ScanSyncedEntries_pres (s : SyncRepSettings)
    (entries : List (String × ETree)) (rel : String) (v w : Vault)
    (hs : ScanSyncedEntries s entries rel v = true)
    (hmiss : ∀ p, v.getAbs p ≠ VEntry.vmissing → w.getAbs p ≠ VEntry.vmissing) :
    ScanSyncedEntries s entries rel w = true := by
  cases entries with
  | nil => rw [ssE_nil]
  | cons e rest =>
    obtain ⟨name, child⟩ := e
    cases child with
    | dir listing =>
      rw [ssE_cons_dir, Bool.and_eq_true] at hs ⊢
      exact ⟨ScanSynced_pres s (.dir listing) (joinRel rel name) v w hs.1 hmiss,
        ScanSyncedEntries_pres s rest rel v w hs.2 hmiss⟩
    | file content =>
      rw [ssE_cons_file] at hs ⊢
      exact ScanSyncedEntries_pres s rest rel v w hs hmiss

end

/-! ## Contracts of the structure scan -/

mutual

theorem scanA_files (s : SyncRepSettings) (t : ETree) (rel : String) (v : Vault) :
    ((scanAndCreateAllDirectories s t rel v).1).files = v.files := by
  cases t with
  | file c => rw [scan_eq_file]
  | dir listing =>
    by_cases hrel : rel = ""
    · subst hrel
      cases listing with
      | error e => rw [scan_eq_root_err]
      | ok entries => rw [scan_eq_root_ok]; exact scanE_files s entries "" v
    · cases hsh : shouldSyncFile s rel with
      | false => rw [scan_eq_skip s listing rel v hrel hsh]
      | true =>
        cases listing with
        | error e =>
          rw [scan_eq_sub_err s e rel v hrel hsh]
          exact walkEnsure_files rel v
        | ok entries =>
          rw [scan_eq_sub_ok s entries rel v hrel hsh]
          rw [scanE_files s entries rel _, walkEnsure_files rel v]

theorem scanE_files (s : SyncRepSettings) (entries : List (String × ETree))
    (rel : String) (v : Vault) :
    ((scanEntries s entries rel v).1).files = v.files := by
  cases entries with
  | nil => rw [scanE_nil]
  | cons e rest =>
    obtain ⟨name, child⟩ := e
    cases child with
    | dir listing =>
      rw [scanE_cons_dir]
      rw [scanE_files s rest rel _,
          scanA_files s (.dir listing) (joinRel rel name) v]
    | file content =>
      rw [scanE_cons_file]
      exact scanE_files s rest rel v

end

mutual

theorem scanA_folders_sub (s : SyncRepSettings) (t : ETree) (rel : String)
    (v : Vault) (q : String) (hq : q ∈ v.folders) :
    q ∈ ((scanAndCreateAllDirectories s t rel v).1).folders := by
  cases t with
  | file c => rw [scan_eq_file]; exact hq
  | dir listing =>
    by_cases hrel : rel = ""
    · subst hrel
      cases listing with
      | error e => rw [scan_eq_root_err]; exact hq
      | ok entries => rw [scan_eq_root_ok]; exact scanE_folders_sub s entries "" v q hq
    · cases hsh : shouldSyncFile s rel with
      | false => rw [scan_eq_skip s listing rel v hrel hsh]; exact hq
      | true =>
        cases listing with
        | error e =>
          rw [scan_eq_sub_err s e rel v hrel hsh]
          exact walkEnsure_folders_sub rel v q hq
        | ok entries =>
          rw [scan_eq_sub_ok s entries rel v hrel hsh]
          exact scanE_folders_sub s entries rel _ q (walkEnsure_folders_sub rel v q hq)

theorem scanE_folders_sub (s : SyncRepSettings) (entries : List (String × ETree))
    (rel : String) (v : Vault) (q : String) (hq : q ∈ v.folders) :
    q ∈ ((scanEntries s entries rel v).1).folders := by
  cases entries with
  | nil => rw [scanE_nil]; exact hq
  | cons e rest =>
    obtain ⟨name, child⟩ := e
    cases child with
    | dir listing =>
      rw [scanE_cons_dir]
      exact scanE_folders_sub s rest rel _ q
        (scanA_folders_sub s (.dir listing) (joinRel rel name) v q hq)
    | file content =>
      rw [scanE_cons_file]
      exact scanE_folders_sub s rest rel v q hq

end

theorem scanA_pres (s : SyncRepSettings) (t : ETree) (rel : String) (v : Vault) :
    PresStep v (scanAndCreateAllDirectories s t rel v).1 [] :=
  pres_of_files_eq_folders_sub v _ (scanA_files s t rel v)
    (scanA_folders_sub s t rel v)

theorem scanE_pres (s : SyncRepSettings) (entries : List (String × ETree))
    (rel : String) (v : Vault) :
    PresStep v (scanEntries s entries rel v).1 [] :=
  pres_of_files_eq_folders_sub v _ (scanE_files s entries rel v)
    (scanE_folders_sub s entries rel v)

mutual

theorem scanA_folderChar (s : SyncRepSettings) (t : ETree) (rel : String)
    (v : Vault) :
    FolderChar v (scanAndCreateAllDirectories s t rel v).1
      (scanDirTargets s t rel) := by
  cases t with
  | file c => rw [scan_eq_file]; exact FolderChar_refl v _
  | dir listing =>
    by_cases hrel : rel = ""
    · subst hrel
      cases listing with
      | error e => rw [scan_eq_root_err]; exact FolderChar_refl v _
      | ok entries =>
        rw [scan_eq_root_ok, sdt_root_ok]
        exact FolderChar_mono v _ (scanDirTargetsEntries s entries "") _
          (fun x hx => List.mem_append.mpr (Or.inr hx))
          (scanE_folderChar s entries "" v)
    · cases hsh : shouldSyncFile s rel with
      | false => rw [scan_eq_skip s listing rel v hrel hsh]; exact FolderChar_refl v _
      | true =>
        cases listing with
        | error e =>
          rw [scan_eq_sub_err s e rel v hrel hsh, sdt_sub_err s e rel hrel hsh]
          exact walkEnsure_folderChar rel v
        | ok entries =>
          rw [scan_eq_sub_ok s entries rel v hrel hsh, sdt_sub_ok s entries rel hrel hsh]
          exact FolderChar_trans v _ _ _ _ (walkEnsure_folderChar rel v)
            (scanE_folderChar s entries rel _)

theorem scanE_folderChar (s : SyncRepSettings) (entries : List (String × ETree))
    (rel : String) (v : Vault) :
    FolderChar v (scanEntries s entries rel v).1
      (scanDirTargetsEntries s entries rel) := by
  cases entries with
  | nil => rw [scanE_nil]; exact FolderChar_refl v _
  | cons e rest =>
    obtain ⟨name, child⟩ := e
    cases child with
    | dir listing =>
      rw [scanE_cons_dir, sdtE_cons_dir]
      exact FolderChar_trans v _ _ _ _
        (scanA_folderChar s (.dir listing) (joinRel rel name) v)
        (scanE_folderChar s rest rel _)
    | file content =>
      rw [scanE_cons_file, sdtE_cons_file]
      exact scanE_folderChar s rest rel v

end

mutual

theorem scanA_trace (s : SyncRepSettings) (t : ETree) (rel : String) (v : Vault)
    (a : Act) (ha : a ∈ (scanAndCreateAllDirectories s t rel v).2) :
    ∃ d, a = Act.vaultCreateFolder d := by
  cases t with
  | file c => rw [scan_eq_file] at ha; exact absurd ha (by simp)
  | dir listing =>
    by_cases hrel : rel = ""
    · subst hrel
      cases listing with
      | error e => rw [scan_eq_root_err] at ha; exact absurd ha (by simp)
      | ok entries =>
        rw [scan_eq_root_ok] at ha
        exact scanE_trace s entries "" v a ha
    · cases hsh : shouldSyncFile s rel with
      | false =>
        rw [scan_eq_skip s listing rel v hrel hsh] at ha
        exact absurd ha (by simp)
      | true =>
        cases listing with
        | error e =>
          rw [scan_eq_sub_err s e rel v hrel hsh] at ha
          exact walkEnsure_trace rel v a ha
        | ok entries =>
          rw [scan_eq_sub_ok s entries rel v hrel hsh] at ha
          rcases List.mem_append.mp ha with h1 | h2
          · exact walkEnsure_trace rel v a h1
          · exact scanE_trace s entries rel _ a h2

theorem scanE_trace (s : SyncRepSettings) (entries : List (String × ETree))
    (rel : String) (v : Vault) (a : Act)
    (ha : a ∈ (scanEntries s entries rel v).2) :
    ∃ d, a = Act.vaultCreateFolder d := by
  cases entries with
  | nil => rw [scanE_nil] at ha; exact absurd ha (by simp)
  | cons e rest =>
    obtain ⟨name, child⟩ := e
    cases child with
    | dir listing =>
      rw [scanE_cons_dir] at ha
      rcases List.mem_append.mp ha with h1 | h2
      · exact scanA_trace s (.dir listing) (joinRel rel name) v a h1
      · exact scanE_trace s rest rel _ a h2
    | file content =>
      rw [scanE_cons_file] at ha
      exact scanE_trace s rest rel v a ha

end

mutual

theorem scanA_silent (s : SyncRepSettings) (t : ETree) (rel : String) (v : Vault)
    (hs : ScanSynced s t rel v = true) :
    scanAndCreateAllDirectories s t rel v = (v, []) := by
  cases t with
  | file c => rw [scan_eq_file]
  | dir listing =>
    by_cases hrel : rel = ""
    · subst hrel
      cases listing with
      | error e => rw [scan_eq_root_err]
      | ok entries =>
        rw [ss_root_ok] at hs
        rw [scan_eq_root_ok]
        exact scanE_silent s entries "" v hs
    · cases hsh : shouldSyncFile s rel with
      | false => rw [scan_eq_skip s listing rel v hrel hsh]
      | true =>
        cases listing with
        | error e =>
          rw [ss_sub_err s e rel v hrel hsh] at hs
          rw [scan_eq_sub_err s e rel v hrel hsh,
              walkEnsure_of_nonmissing rel v (nonmissing_of_bang _ hs)]
        | ok entries =>
          rw [ss_sub_ok s entries rel v hrel hsh, Bool.and_eq_true] at hs
          rw [scan_eq_sub_ok s entries rel v hrel hsh,
              walkEnsure_of_nonmissing rel v (nonmissing_of_bang _ hs.1)]
          dsimp only
          rw [scanE_silent s entries rel v hs.2]
          rfl

theorem scanE_silent (s : SyncRepSettings) (entries : List (String × ETree))
    (rel : String) (v : Vault) (hs : ScanSyncedEntries s entries rel v = true) :
    scanEntries s entries rel v = (v, []) := by
  cases entries with
  | nil => rw [scanE_nil]
  | cons e rest =>
    obtain ⟨name, child⟩ := e
    cases child with
    | dir listing =>
      rw [ssE_cons_dir, Bool.and_eq_true] at hs
      rw [scanE_cons_dir, scanA_silent s (.dir listing) (joinRel rel name) v hs.1]
      dsimp only
      rw [scanE_silent s rest rel v hs.2]
      rfl
    | file content =>
      rw [ssE_cons_file] at hs
      rw [scanE_cons_file]
      exact scanE_silent s rest rel v hs

end

mutual

theorem scanA_establish (s : SyncRepSettings) (t : ETree) (rel : String)
    (v : Vault) (hst : scanTidy s t rel = true)
    (hgood : rel = "" ∨ goodPath rel = true) :
    ScanSynced s t rel (scanAndCreateAllDirectories s t rel v).1 = true := by
  cases t with
  | file c => rw [ss_file]
  | dir listing =>
    by_cases hrel : rel = ""
    · subst hrel
      cases listing with
      | error e => rw [ss_root_err]
      | ok entries =>
        rw [st_root_ok] at hst
        rw [scan_eq_root_ok, ss_root_ok]
        exact scanE_establish s entries "" v hst
    · cases hsh : shouldSyncFile s rel with
      | false => rw [ss_skip s listing rel _ hrel hsh]
      | true =>
        cases listing with
        | error e =>
          rw [scan_eq_sub_err s e rel v hrel hsh, ss_sub_err s e rel _ hrel hsh]
          exact bang_of_nonmissing _ (walkEnsure_establish rel v hgood)
        | ok entries =>
          rw [st_sub_ok s entries rel hrel hsh] at hst
          rw [scan_eq_sub_ok s entries rel v hrel hsh,
              ss_sub_ok s entries rel _ hrel hsh, Bool.and_eq_true]
          constructor
          · refine bang_of_nonmissing _ ?_
            exact (scanE_pres s entries rel (walkEnsure rel v).1).2.2 rel
              (walkEnsure_establish rel v hgood)
          · exact scanE_establish s entries rel _ hst

theorem scanE_establish (s : SyncRepSettings) (entries : List (String × ETree))
    (rel : String) (v : Vault) (hst : scanTidyEntries s entries rel = true) :
    ScanSyncedEntries s entries rel (scanEntries s entries rel v).1 = true := by
  cases entries with
  | nil => rw [ssE_nil]
  | cons e rest =>
    obtain ⟨name, child⟩ := e
    cases child with
    | dir listing =>
      rw [stE_cons_dir, Bool.and_eq_true, Bool.and_eq_true] at hst
      rw [scanE_cons_dir, ssE_cons_dir, Bool.and_eq_true]
      constructor
      · exact ScanSynced_pres s (.dir listing) (joinRel rel name)
          (scanAndCreateAllDirectories s (.dir listing) (joinRel rel name) v).1
          (scanEntries s rest rel
            (scanAndCreateAllDirectories s (.dir listing) (joinRel rel name) v).1).1
          (scanA_establish s (.dir listing) (joinRel rel name) v hst.1.2
            (Or.inr hst.1.1))
          ((scanE_pres s rest rel _).2.2)
      · exact scanE_establish s rest rel _ hst.2
    | file content =>
      rw [stE_cons_file] at hst
      rw [scanE_cons_file, ssE_cons_file]
      exact scanE_establish s rest rel v hst

end

/-! ## Entry-part equations -/

theorem sfe_err (e : String) (p : String) (v : Vault) :
    syncExternalFileEntry (.error e) p v = (v, []) := rfl

theorem sfe_silent (c : Content) (p : String) (v : Vault)
    (hm : entryMatches p c v = true) :
    syncExternalFileEntry (.ok c) p v = (v, []) := by
  unfold syncExternalFileEntry
  exact iws_silent p _ c v rfl hm

theorem entryParts_cons (s : SyncRepSettings) (e : String × ETree)
    (rest : List (String × ETree)) (rel : String) :
    entryParts s (e :: rest) rel = entryPart s rel e :: entryParts s rest rel := rfl

theorem partsOK_cons (ps ts : List String)
    (rest : List (List String × List String)) :
    partsOK ((ps, ts) :: rest)
      = (disjointL ps ts &&
         rest.all (fun pt =>
           disjointL ps pt.1 && disjointL pt.1 ps &&
           disjointL ps pt.2 && disjointL pt.1 ts) &&
         partsOK rest) := rfl

theorem entryPart_skip (s : SyncRepSettings) (rel name : String) (child : ETree)
    (hsh : shouldSyncFile s (joinRel rel name) = false) :
    entryPart s rel (name, child) = ([], []) := by
  unfold entryPart
  dsimp only
  rw [hsh]
  rfl

theorem entryPart_dir (s : SyncRepSettings) (rel name : String)
    (listing : Except String (List (String × ETree)))
    (hsh : shouldSyncFile s (joinRel rel name) = true) :
    entryPart s rel (name, .dir listing)
      = (walkFilePaths s (.dir listing) (joinRel rel name),
         walkDirTargets s (.dir listing) (joinRel rel name)) := by
  unfold entryPart
  dsimp only
  rw [hsh]
  rfl

theorem entryPart_file (s : SyncRepSettings) (rel name : String)
    (content : Except String Content)
    (hsh : shouldSyncFile s (joinRel rel name) = true) :
    entryPart s rel (name, .file content)
      = ([joinRel rel name], chainStrings (pathDirname (joinRel rel name))) := by
  unfold entryPart
  dsimp only
  rw [hsh]
  rfl

/-! ## A synchronized walk does nothing -/

mutual

theorem walk_silent (s : SyncRepSettings) (t : ETree) (rel : String) (v : Vault)
    (hs : Synced s t rel v = true) :
    (syncDirectoryFromExternal s t rel v).1 = v
      ∧ (syncDirectoryFromExternal s t rel v).2.1 = [] := by
  cases t with
  | file c => rw [walk_eq_file]; exact ⟨rfl, rfl⟩
  | dir listing =>
    cases hsh : shouldSyncFile s rel with
    | false => rw [walk_eq_skip s listing rel v hsh]; exact ⟨rfl, rfl⟩
    | true =>
      cases listing with
      | error e =>
        rw [synced_err s e rel v hsh] at hs
        rw [walk_eq_err s e rel v hsh,
            walkEnsure_of_nonmissing rel v (nonmissing_of_bang _ hs)]
        exact ⟨rfl, rfl⟩
      | ok entries =>
        rw [synced_ok s entries rel v hsh, Bool.and_eq_true] at hs
        rw [walk_eq_ok s entries rel v hsh,
            walkEnsure_of_nonmissing rel v (nonmissing_of_bang _ hs.1)]
        dsimp only
        obtain ⟨h1, h2⟩ := entries_silent s entries rel v hs.2
        exact ⟨h1, by rw [List.nil_append]; exact h2⟩

theorem entries_silent (s : SyncRepSettings) (entries : List (String × ETree))
    (rel : String) (v : Vault) (hs : SyncedEntries s entries rel v = true) :
    (syncEntries s entries rel v).1 = v ∧ (syncEntries s entries rel v).2.1 = [] := by
  cases entries with
  | nil => rw [syncE_nil]; exact ⟨rfl, rfl⟩
  | cons e rest =>
    obtain ⟨name, child⟩ := e
    cases hsh : shouldSyncFile s (joinRel rel name) with
    | false =>
      rw [syncedE_cons_skip s name child rest rel v hsh] at hs
      rw [syncE_cons_skip s name child rest rel v hsh]
      exact entries_silent s rest rel v hs
    | true =>
      cases child with
      | dir listing =>
        rw [syncedE_cons_dir s name listing rest rel v hsh, Bool.and_eq_true] at hs
        obtain ⟨hw1, hw2⟩ := walk_silent s (.dir listing) (joinRel rel name) v hs.1
        cases hth : (syncDirectoryFromExternal s (.dir listing)
            (joinRel rel name) v).2.2 with
        | true =>
          rw [syncE_cons_dir_thrown s name listing rest rel v hsh hth]
          exact ⟨hw1, hw2⟩
        | false =>
          rw [syncE_cons_dir_ok s name listing rest rel v hsh hth, hw1, hw2]
          obtain ⟨h1, h2⟩ := entries_silent s rest rel v hs.2
          exact ⟨h1, by rw [List.nil_append]; exact h2⟩
      | file content =>
        cases content with
        | ok c =>
          rw [syncedE_cons_file_ok s name c rest rel v hsh, Bool.and_eq_true] at hs
          rw [syncE_cons_file s name (.ok c) rest rel v hsh,
              sfe_silent c (joinRel rel name) v hs.1]
          dsimp only
          obtain ⟨h1, h2⟩ := entries_silent s rest rel v hs.2
          exact ⟨h1, by rw [List.nil_append]; exact h2⟩
        | error err =>
          rw [syncedE_cons_file_err s name err rest rel v hsh] at hs
          rw [syncE_cons_file s name (.error err) rest rel v hsh,
              sfe_err err (joinRel rel name) v]
          dsimp only
          obtain ⟨h1, h2⟩ := entries_silent s rest rel v hs
          exact ⟨h1, by rw [List.nil_append]; exact h2⟩

end

/-! ## One walk establishes the synchronized state -/

mutual

theorem walk_establish (s : SyncRepSettings) (t : ETree) (rel : String) (v : Vault)
    (hne : treeNoErr t = true)
    (htd : walkTidy s t rel = true)
    (hcf : ∀ p ∈ walkFilePaths s t rel, ((v.getAbs p).isFolder) = false)
    (hgood : rel = "" ∨ goodPath rel = true) :
    Synced s t rel (syncDirectoryFromExternal s t rel v).1 = true := by
  cases t with
  | file c => rw [synced_file]
  | dir listing =>
    cases hsh : shouldSyncFile s rel with
    | false => rw [synced_skip s listing rel _ hsh]
    | true =>
      cases listing with
      | error e =>
        rw [treeNoErr_dir_err] at hne
        exact absurd hne (by simp)
      | ok entries =>
        rw [treeNoErr_dir_ok] at hne
        rw [wt_ok s entries rel hsh] at htd
        simp only [Bool.and_eq_true] at htd
        obtain ⟨⟨hpo, hdisj⟩, htde⟩ := htd
        rw [walk_eq_ok s entries rel v hsh]
        rw [synced_ok s entries rel _ hsh, Bool.and_eq_true]
        constructor
        · exact bang_of_nonmissing _
            ((entries_pres s entries rel (walkEnsure rel v).1).2.2 rel
              (walkEnsure_establish rel v hgood))
        · refine entries_establish s entries rel (walkEnsure rel v).1 hne hpo htde ?_
          intro p hp
          have hpv : ((v.getAbs p).isFolder) = false := by
            refine hcf p ?_
            rw [wfp_ok s entries rel hsh]
            exact hp
          refine notFolder_of_ne _ ?_
          intro hf
          rcases walkEnsure_folderChar rel v p hf with hvf | hchain
          · exact absurd hvf (ne_of_notFolder _ hpv)
          · exact disjointL_mem _ _ hdisj p hp hchain

theorem entries_establish (s : SyncRepSettings) (entries : List (String × ETree))
    (rel : String) (v : Vault)
    (hne : entriesNoErr entries = true)
    (hpo : partsOK (entryParts s entries rel) = true)
    (htd : walkTidyEntries s entries rel = true)
    (hcf : ∀ p ∈ walkFilePathsEntries s entries rel, ((v.getAbs p).isFolder) = false) :
    SyncedEntries s entries rel (syncEntries s entries rel v).1 = true := by
  cases entries with
  | nil => rw [syncedE_nil]
  | cons e rest =>
    obtain ⟨name, child⟩ := e
    rw [entriesNoErr_cons, Bool.and_eq_true] at hne
    cases hsh : shouldSyncFile s (joinRel rel name) with
    | false =>
      rw [entryParts_cons, entryPart_skip s rel name child hsh, partsOK_cons] at hpo
      simp only [Bool.and_eq_true] at hpo
      rw [wtE_cons_skip s name child rest rel hsh] at htd
      rw [wfpE_cons_skip s name child rest rel hsh] at hcf
      rw [syncE_cons_skip s name child rest rel v hsh,
          syncedE_cons_skip s name child rest rel _ hsh]
      exact entries_establish s rest rel v hne.2 hpo.2 htd hcf
    | true =>
      cases child with
      | dir listing =>
        rw [entryParts_cons, entryPart_dir s rel name listing hsh, partsOK_cons] at hpo
        simp only [Bool.and_eq_true] at hpo
        obtain ⟨⟨hd1, hall⟩, hporest⟩ := hpo
        rw [wtE_cons_dir s name listing rest rel hsh] at htd
        simp only [Bool.and_eq_true] at htd
        obtain ⟨⟨hgp, htdc⟩, htdr⟩ := htd
        rw [wfpE_cons_dir s name listing rest rel hsh] at hcf
        have hth : (syncDirectoryFromExternal s (.dir listing)
            (joinRel rel name) v).2.2 = false :=
          walk_thrown s (.dir listing) (joinRel rel name) v hne.1
        rw [syncE_cons_dir_ok s name listing rest rel v hsh hth]
        rw [syncedE_cons_dir s name listing rest rel _ hsh, Bool.and_eq_true]
        constructor
        · refine Synced_pres s (.dir listing) (joinRel rel name)
            (syncDirectoryFromExternal s (.dir listing) (joinRel rel name) v).1
            _ (walkFilePathsEntries s rest rel)
            ?_ (entries_pres s rest rel _) ?_
          · exact walk_establish s (.dir listing) (joinRel rel name) v hne.1 htdc
              (fun p hp => hcf p (List.mem_append.mpr (Or.inl hp))) (Or.inr hgp)
          · intro p hp
            rw [walkFilePathsEntries_eq_parts]
            refine not_mem_flatMap_of_disjoint Prod.fst _ _ ?_ p hp
            intro pt hpt
            have h := List.all_eq_true.mp hall pt hpt
            simp only [Bool.and_eq_true] at h
            exact h.1.1.1
        · refine entries_establish s rest rel _ hne.2 hporest htdr ?_
          intro q hq
          refine notFolder_of_ne _ ?_
          intro hf
          rcases walk_folderChar s (.dir listing) (joinRel rel name) v q hf with hvf | hts
          · exact absurd hvf
              (ne_of_notFolder _ (hcf q (List.mem_append.mpr (Or.inr hq))))
          · have hq2 : q ∈ (entryParts s rest rel).flatMap Prod.fst := by
              rw [← walkFilePathsEntries_eq_parts]
              exact hq
            refine absurd hts (flatMap_not_mem_of_disjoint _ _ ?_ q hq2)
            intro pt hpt
            have h := List.all_eq_true.mp hall pt hpt
            simp only [Bool.and_eq_true] at h
            exact h.2
      | file content =>
        cases content with
        | error err =>
          exact absurd hne.1
            (by rw [show treeNoErr (ETree.file (Except.error err)) = false from rfl]
                simp)
        | ok c =>
          rw [entryParts_cons, entryPart_file s rel name (.ok c) hsh, partsOK_cons] at hpo
          simp only [Bool.and_eq_true] at hpo
          obtain ⟨⟨hd1, hall⟩, hporest⟩ := hpo
          rw [wtE_cons_file s name (.ok c) rest rel hsh] at htd
          rw [Bool.and_eq_true] at htd
          rw [wfpE_cons_file s name (.ok c) rest rel hsh] at hcf
          rw [syncE_cons_file s name (.ok c) rest rel v hsh]
          rw [syncedE_cons_file_ok s name c rest rel _ hsh, Bool.and_eq_true]
          have hnf : v.getAbs (joinRel rel name) ≠ VEntry.vfolder :=
            ne_of_notFolder _ (hcf _ (List.mem_cons_self _ _))
          have hchain : joinRel rel name
              ∉ chainStrings (pathDirname (joinRel rel name)) :=
            disjointL_mem _ _ hd1 _ (by simp)
          have hest : entryMatches (joinRel rel name) c
              ((syncExternalFileEntry (.ok c) (joinRel rel name) v).1) = true := by
            unfold syncExternalFileEntry
            exact iws_establish (joinRel rel name) _ c v rfl hnf hchain
          constructor
          · refine entryMatches_pres (joinRel rel name) c _ _
              (walkFilePathsEntries s rest rel) hest (entries_pres s rest rel _) ?_
            rw [walkFilePathsEntries_eq_parts]
            refine not_mem_flatMap_of_disjoint Prod.fst _ _ ?_ (joinRel rel name)
              (List.mem_singleton_self _)
            intro pt hpt
            have h := List.all_eq_true.mp hall pt hpt
            simp only [Bool.and_eq_true] at h
            exact h.1.1.1
          · refine entries_establish s rest rel _ hne.2 hporest htd.2 ?_
            intro q hq
            refine notFolder_of_ne _ ?_
            intro hf
            rcases sfe_folderChar (.ok c) (joinRel rel name) v q hf with hvf | hts
            · exact absurd hvf
                (ne_of_notFolder _ (hcf q (List.mem_cons_of_mem _ hq)))
            · have hq2 : q ∈ (entryParts s rest rel).flatMap Prod.fst := by
                rw [← walkFilePathsEntries_eq_parts]
                exact hq
              refine absurd hts (flatMap_not_mem_of_disjoint _ _ ?_ q hq2)
              intro pt hpt
              have h := List.all_eq_true.mp hall pt hpt
              simp only [Bool.and_eq_true] at h
              exact h.2

end

/-! ## A walk over a file-free tree performs no file writes -/

mutual

theorem walk_noFiles_trace (s : SyncRepSettings) (t : ETree) (rel : String)
    (v : Vault) (hnf : treeNoFiles t = true) :
    ∀ a ∈ (syncDirectoryFromExternal s t rel v).2.1, a.isVaultFileWrite = false := by
  cases t with
  | file c =>
    exact absurd hnf
      (by rw [show treeNoFiles (ETree.file c) = false from rfl]; simp)
  | dir listing =>
    cases hsh : shouldSyncFile s rel with
    | false =>
      rw [walk_eq_skip s listing rel v hsh]
      intro a ha
      exact absurd ha (by simp)
    | true =>
      cases listing with
      | error e =>
        rw [walk_eq_err s e rel v hsh]
        intro a ha
        obtain ⟨d, hd⟩ := walkEnsure_trace rel v a ha
        rw [hd]
        rfl
      | ok entries =>
        rw [treeNoFiles_dir_ok] at hnf
        rw [walk_eq_ok s entries rel v hsh]
        intro a ha
        rcases List.mem_append.mp ha with h1 | h2
        · obtain ⟨d, hd⟩ := walkEnsure_trace rel v a h1
          rw [hd]
          rfl
        · exact entries_noFiles_trace s entries rel _ hnf a h2

theorem entries_noFiles_trace (s : SyncRepSettings)
    (entries : List (String × ETree)) (rel : String) (v : Vault)
    (hnf : entriesNoFiles entries = true) :
    ∀ a ∈ (syncEntries s entries rel v).2.1, a.isVaultFileWrite = false := by
  cases entries with
  | nil =>
    rw [syncE_nil]
    intro a ha
    exact absurd ha (by simp)
  | cons e rest =>
    obtain ⟨name, child⟩ := e
    rw [entriesNoFiles_cons, Bool.and_eq_true] at hnf
    cases hsh : shouldSyncFile s (joinRel rel name) with
    | false =>
      rw [syncE_cons_skip s name child rest rel v hsh]
      exact entries_noFiles_trace s rest rel v hnf.2
    | true =>
      cases child with
      | dir listing =>
        cases hth : (syncDirectoryFromExternal s (.dir listing)
            (joinRel rel name) v).2.2 with
        | true =>
          rw [syncE_cons_dir_thrown s name listing rest rel v hsh hth]
          exact walk_noFiles_trace s (.dir listing) (joinRel rel name) v hnf.1
        | false =>
          rw [syncE_cons_dir_ok s name listing rest rel v hsh hth]
          intro a ha
          rcases List.mem_append.mp ha with h1 | h2
          · exact walk_noFiles_trace s (.dir listing) (joinRel rel name) v hnf.1 a h1
          · exact entries_noFiles_trace s rest rel _ hnf.2 a h2
      | file content =>
        exact absurd hnf.1
          (by rw [show treeNoFiles (ETree.file content) = false from rfl]; simp)

end

/-! ## The external-folder loops -/

theorem extWalksOf_nil (s : SyncRepSettings) (extWorld : List (String × ETree)) :
    extWalksOf s [] extWorld = [] := rfl

theorem extWalksOf_cons_none (s : SyncRepSettings) (f : String)
    (rest : List String) (extWorld : List (String × ETree))
    (hlk : extWorld.lookup f = none) :
    extWalksOf s (f :: rest) extWorld = extWalksOf s rest extWorld := by
  unfold extWalksOf
  rw [List.filterMap_cons, hlk]
  rfl

theorem extWalksOf_cons_some (s : SyncRepSettings) (f : String)
    (rest : List String) (extWorld : List (String × ETree)) (t : ETree)
    (hlk : extWorld.lookup f = some t) :
    extWalksOf s (f :: rest) extWorld
      = (extRelFor s f, t) :: extWalksOf s rest extWorld := by
  unfold extWalksOf
  rw [List.filterMap_cons, hlk]
  rfl

theorem walksFilePaths_nil (s : SyncRepSettings) : walksFilePaths s [] = [] := rfl

theorem walksFilePaths_cons (s : SyncRepSettings) (w : String × ETree)
    (ws : List (String × ETree)) :
    walksFilePaths s (w :: ws)
      = walkFilePaths s w.2 w.1 ++ walksFilePaths s ws := by
  unfold walksFilePaths
  rw [List.flatMap_cons]

theorem walksDirTargets_cons (s : SyncRepSettings) (w : String × ETree)
    (ws : List (String × ETree)) :
    walksDirTargets s (w :: ws)
      = walkDirTargets s w.2 w.1 ++ walksDirTargets s ws := by
  unfold walksDirTargets
  rw [List.flatMap_cons]

theorem walksScanTargets_cons (s : SyncRepSettings) (w : String × ETree)
    (ws : List (String × ETree)) :
    walksScanTargets s (w :: ws)
      = scanDirTargets s w.2 w.1 ++ walksScanTargets s ws := by
  unfold walksScanTargets
  rw [List.flatMap_cons]

theorem scanExt_nil (s : SyncRepSettings) (extWorld : List (String × ETree))
    (v : Vault) : scanExtFolders s [] extWorld v = (v, []) := rfl

theorem scanExt_cons_none (s : SyncRepSettings) (f : String) (rest : List String)
    (extWorld : List (String × ETree)) (v : Vault)
    (hlk : extWorld.lookup f = none) :
    scanExtFolders s (f :: rest) extWorld v = scanExtFolders s rest extWorld v := by
  rw [scanExtFolders]
  rw [hlk]

theorem scanExt_cons_some (s : SyncRepSettings) (f : String) (rest : List String)
    (extWorld : List (String × ETree)) (t : ETree) (v : Vault)
    (hlk : extWorld.lookup f = some t) :
    scanExtFolders s (f :: rest) extWorld v
      = ((scanExtFolders s rest extWorld
            (scanAndCreateAllDirectories s t (extRelFor s f) v).1).1,
         (scanAndCreateAllDirectories s t (extRelFor s f) v).2
           ++ (scanExtFolders s rest extWorld
                (scanAndCreateAllDirectories s t (extRelFor s f) v).1).2) := by
  rw [scanExtFolders]
  rw [hlk]

theorem syncExt_nil (s : SyncRepSettings) (extWorld : List (String × ETree))
    (v : Vault) : syncExtFolders s [] extWorld v = (v, []) := rfl

theorem syncExt_cons_none (s : SyncRepSettings) (f : String) (rest : List String)
    (extWorld : List (String × ETree)) (v : Vault)
    (hlk : extWorld.lookup f = none) :
    syncExtFolders s (f :: rest) extWorld v = syncExtFolders s rest extWorld v := by
  rw [syncExtFolders]
  rw [hlk]

theorem syncExt_cons_some_thrown (s : SyncRepSettings) (f : String)
    (rest : List String) (extWorld : List (String × ETree)) (t : ETree) (v : Vault)
    (hlk : extWorld.lookup f = some t)
    (hth : (syncDirectoryFromExternal s t (extRelFor s f) v).2.2 = true) :
    syncExtFolders s (f :: rest) extWorld v
      = ((syncDirectoryFromExternal s t (extRelFor s f) v).1,
         (syncDirectoryFromExternal s t (extRelFor s f) v).2.1) := by
  rw [syncExtFolders]
  rw [hlk]
  dsimp only
  rw [hth]
  rfl

theorem syncExt_cons_some_ok (s : SyncRepSettings) (f : String)
    (rest : List String) (extWorld : List (String × ETree)) (t : ETree) (v : Vault)
    (hlk : extWorld.lookup f = some t)
    (hth : (syncDirectoryFromExternal s t (extRelFor s f) v).2.2 = false) :
    syncExtFolders s (f :: rest) extWorld v
      = ((syncExtFolders s rest extWorld
            (syncDirectoryFromExternal s t (extRelFor s f) v).1).1,
         (syncDirectoryFromExternal s t (extRelFor s f) v).2.1
           ++ (syncExtFolders s rest extWorld
                (syncDirectoryFromExternal s t (extRelFor s f) v).1).2) := by
  rw [syncExtFolders]
  rw [hlk]
  dsimp only
  rw [hth]
  rfl

theorem scanExt_files (s : SyncRepSettings) (folders : List String)
    (extWorld : List (String × ETree)) (v : Vault) :
    ((scanExtFolders s folders extWorld v).1).files = v.files := by
  induction folders generalizing v with
  | nil => rw [scanExt_nil]
  | cons f rest ih =>
    cases hlk : extWorld.lookup f with
    | none => rw [scanExt_cons_none s f rest extWorld v hlk]; exact ih v
    | some t =>
      rw [scanExt_cons_some s f rest extWorld t v hlk]
      rw [ih _, scanA_files]

theorem scanExt_folders_sub (s : SyncRepSettings) (folders : List String)
    (extWorld : List (String × ETree)) (v : Vault) (q : String)
    (hq : q ∈ v.folders) :
    q ∈ ((scanExtFolders s folders extWorld v).1).folders := by
  induction folders generalizing v with
  | nil => rw [scanExt_nil]; exact hq
  | cons f rest ih =>
    cases hlk : extWorld.lookup f with
    | none => rw [scanExt_cons_none s f rest extWorld v hlk]; exact ih v hq
    | some t =>
      rw [scanExt_cons_some s f rest extWorld t v hlk]
      exact ih _ (scanA_folders_sub s t (extRelFor s f) v q hq)

theorem scanExt_pres (s : SyncRepSettings) (folders : List String)
    (extWorld : List (String × ETree)) (v : Vault) :
    PresStep v (scanExtFolders s folders extWorld v).1 [] :=
  pres_of_files_eq_folders_sub v _ (scanExt_files s folders extWorld v)
    (scanExt_folders_sub s folders extWorld v)

theorem scanExt_trace (s : SyncRepSettings) (folders : List String)
    (extWorld : List (String × ETree)) (v : Vault) (a : Act)
    (ha : a ∈ (scanExtFolders s folders extWorld v).2) :
    ∃ d, a = Act.vaultCreateFolder d := by
  induction folders generalizing v with
  | nil => rw [scanExt_nil] at ha; exact absurd ha (by simp)
  | cons f rest ih =>
    cases hlk : extWorld.lookup f with
    | none =>
      rw [scanExt_cons_none s f rest extWorld v hlk] at ha
      exact ih v ha
    | some t =>
      rw [scanExt_cons_some s f rest extWorld t v hlk] at ha
      rcases List.mem_append.mp ha with h1 | h2
      · exact scanA_trace s t (extRelFor s f) v a h1
      · exact ih _ h2

theorem scanExt_folderChar (s : SyncRepSettings) (folders : List String)
    (extWorld : List (String × ETree)) (v : Vault) :
    FolderChar v (scanExtFolders s folders extWorld v).1
      (walksScanTargets s (extWalksOf s folders extWorld)) := by
  induction folders generalizing v with
  | nil => rw [scanExt_nil]; exact FolderChar_refl v _
  | cons f rest ih =>
    cases hlk : extWorld.lookup f with
    | none =>
      rw [scanExt_cons_none s f rest extWorld v hlk,
          extWalksOf_cons_none s f rest extWorld hlk]
      exact ih v
    | some t =>
      rw [scanExt_cons_some s f rest extWorld t v hlk,
          extWalksOf_cons_some s f rest extWorld t hlk,
          walksScanTargets_cons]
      exact FolderChar_trans v _ _ _ _
        (scanA_folderChar s t (extRelFor s f) v) (ih _)

theorem scanExt_silent (s : SyncRepSettings) (folders : List String)
    (extWorld : List (String × ETree)) (v : Vault)
    (hs : ∀ w ∈ extWalksOf s folders extWorld, ScanSynced s w.2 w.1 v = true) :
    scanExtFolders s folders extWorld v = (v, []) := by
  induction folders generalizing v with
  | nil => rw [scanExt_nil]
  | cons f rest ih =>
    cases hlk : extWorld.lookup f with
    | none =>
      rw [scanExt_cons_none s f rest extWorld v hlk]
      refine ih v ?_
      intro w hw
      refine hs w ?_
      rw [extWalksOf_cons_none s f rest extWorld hlk]
      exact hw
    | some t =>
      have hs2 := hs
      rw [extWalksOf_cons_some s f rest extWorld t hlk] at hs2
      rw [scanExt_cons_some s f rest extWorld t v hlk,
          scanA_silent s t (extRelFor s f) v (hs2 _ (List.mem_cons_self _ _))]
      dsimp only
      rw [ih v (fun w hw => hs2 w (List.mem_cons_of_mem _ hw))]
      rfl

theorem scanExt_establish (s : SyncRepSettings) (folders : List String)
    (extWorld : List (String × ETree)) (v : Vault)
    (hall : ∀ w ∈ extWalksOf s folders extWorld,
      scanTidy s w.2 w.1 = true ∧ (w.1 = "" ∨ goodPath w.1 = true)) :
    ∀ w ∈ extWalksOf s folders extWorld,
      ScanSynced s w.2 w.1 (scanExtFolders s folders extWorld v).1 = true := by
  induction folders generalizing v with
  | nil => intro w hw; rw [extWalksOf_nil] at hw; exact absurd hw (by simp)
  | cons f rest ih =>
    cases hlk : extWorld.lookup f with
    | none =>
      intro w hw
      rw [extWalksOf_cons_none s f rest extWorld hlk] at hw
      rw [scanExt_cons_none s f rest extWorld v hlk]
      refine ih v ?_ w hw
      intro w2 hw2
      refine hall w2 ?_
      rw [extWalksOf_cons_none s f rest extWorld hlk]
      exact hw2
    | some t =>
      have hall2 := hall
      rw [extWalksOf_cons_some s f rest extWorld t hlk] at hall2
      intro w hw
      rw [extWalksOf_cons_some s f rest extWorld t hlk] at hw
      rw [scanExt_cons_some s f rest extWorld t v hlk]
      rcases List.mem_cons.mp hw with hw1 | hwr
      · subst hw1
        refine ScanSynced_pres s t (extRelFor s f) _ _ ?_
          ((scanExt_pres s rest extWorld _).2.2)
        obtain ⟨hst, hgd⟩ := hall2 _ (List.mem_cons_self _ _)
        exact scanA_establish s t (extRelFor s f) v hst hgd
      · exact ih _ (fun w2 hw2 => hall2 w2 (List.mem_cons_of_mem _ hw2)) w hwr

theorem not_mem_flatMap_walks (s : SyncRepSettings)
    (f : (String × ETree) → List String) (ps : List String)
    (ws : List (String × ETree))
    (h : ∀ w ∈ ws, disjointL ps (f w) = true) (x : String) (hx : x ∈ ps) :
    x ∉ ws.flatMap f := by
  intro hmem
  rw [List.mem_flatMap] at hmem
  obtain ⟨w, hw, hxf⟩ := hmem
  exact disjointL_mem ps (f w) (h w hw) x hx hxf

theorem crossOK_cons (s : SyncRepSettings) (w : String × ETree)
    (rest : List (String × ETree)) :
    crossOK s (w :: rest)
      = (disjointL (walkFilePaths s w.2 w.1) (walkDirTargets s w.2 w.1) &&
         disjointL (walkFilePaths s w.2 w.1) (scanDirTargets s w.2 w.1) &&
         rest.all (fun w2 =>
           disjointL (walkFilePaths s w.2 w.1) (walkFilePaths s w2.2 w2.1) &&
           disjointL (walkFilePaths s w2.2 w2.1) (walkFilePaths s w.2 w.1) &&
           disjointL (walkFilePaths s w.2 w.1) (walkDirTargets s w2.2 w2.1) &&
           disjointL (walkFilePaths s w2.2 w2.1) (walkDirTargets s w.2 w.1) &&
           disjointL (walkFilePaths s w.2 w.1) (scanDirTargets s w2.2 w2.1) &&
           disjointL (walkFilePaths s w2.2 w2.1) (scanDirTargets s w.2 w.1)) &&
         crossOK s rest) := rfl

theorem crossOK_fp_scan (s : SyncRepSettings) (ws : List (String × ETree))
    (h : crossOK s ws = true) :
    ∀ wi ∈ ws, ∀ wj ∈ ws,
      disjointL (walkFilePaths s wi.2 wi.1) (scanDirTargets s wj.2 wj.1) = true := by
  induction ws with
  | nil => intro wi hwi; exact absurd hwi (by simp)
  | cons w rest ih =>
    rw [crossOK_cons, Bool.and_eq_true, Bool.and_eq_true, Bool.and_eq_true] at h
    obtain ⟨⟨⟨hod, hos⟩, hall⟩, hrest⟩ := h
    intro wi hwi wj hwj
    rcases List.mem_cons.mp hwi with hi | hi
    · rcases List.mem_cons.mp hwj with hj | hj
      · subst hi
        subst hj
        exact hos
      · subst hi
        have h2 := List.all_eq_true.mp hall wj hj
        simp only [Bool.and_eq_true] at h2
        exact h2.1.2
    · rcases List.mem_cons.mp hwj with hj | hj
      · subst hj
        have h2 := List.all_eq_true.mp hall wi hi
        simp only [Bool.and_eq_true] at h2
        exact h2.2
      · exact ih hrest wi hi wj hj

theorem syncExt_pres (s : SyncRepSettings) (folders : List String)
    (extWorld : List (String × ETree)) (v : Vault) :
    PresStep v (syncExtFolders s folders extWorld v).1
      (walksFilePaths s (extWalksOf s folders extWorld)) := by
  induction folders generalizing v with
  | nil => rw [syncExt_nil]; exact PresStep_refl v _
  | cons f rest ih =>
    cases hlk : extWorld.lookup f with
    | none =>
      rw [syncExt_cons_none s f rest extWorld v hlk,
          extWalksOf_cons_none s f rest extWorld hlk]
      exact ih v
    | some t =>
      rw [extWalksOf_cons_some s f rest extWorld t hlk, walksFilePaths_cons]
      cases hth : (syncDirectoryFromExternal s t (extRelFor s f) v).2.2 with
      | true =>
        rw [syncExt_cons_some_thrown s f rest extWorld t v hlk hth]
        exact PresStep_mono v _ (walkFilePaths s t (extRelFor s f)) _
          (fun x hx => List.mem_append.mpr (Or.inl hx))
          (walk_pres s t (extRelFor s f) v)
      | false =>
        rw [syncExt_cons_some_ok s f rest extWorld t v hlk hth]
        exact PresStep_trans v _ _ _ _ (walk_pres s t (extRelFor s f) v) (ih _)

theorem syncExt_folderChar (s : SyncRepSettings) (folders : List String)
    (extWorld : List (String × ETree)) (v : Vault) :
    FolderChar v (syncExtFolders s folders extWorld v).1
      (walksDirTargets s (extWalksOf s folders extWorld)) := by
  induction folders generalizing v with
  | nil => rw [syncExt_nil]; exact FolderChar_refl v _
  | cons f rest ih =>
    cases hlk : extWorld.lookup f with
    | none =>
      rw [syncExt_cons_none s f rest extWorld v hlk,
          extWalksOf_cons_none s f rest extWorld hlk]
      exact ih v
    | some t =>
      rw [extWalksOf_cons_some s f rest extWorld t hlk, walksDirTargets_cons]
      cases hth : (syncDirectoryFromExternal s t (extRelFor s f) v).2.2 with
      | true =>
        rw [syncExt_cons_some_thrown s f rest extWorld t v hlk hth]
        exact FolderChar_mono v _ (walkDirTargets s t (extRelFor s f)) _
          (fun x hx => List.mem_append.mpr (Or.inl hx))
          (walk_folderChar s t (extRelFor s f) v)
      | false =>
        rw [syncExt_cons_some_ok s f rest extWorld t v hlk hth]
        exact FolderChar_trans v _ _ _ _ (walk_folderChar s t (extRelFor s f) v) (ih _)

theorem syncExt_silent (s : SyncRepSettings) (folders : List String)
    (extWorld : List (String × ETree)) (v : Vault)
    (hs : ∀ w ∈ extWalksOf s folders extWorld,
      Synced s w.2 w.1 v = true ∧ treeNoErr w.2 = true) :
    syncExtFolders s folders extWorld v = (v, []) := by
  induction folders generalizing v with
  | nil => rw [syncExt_nil]
  | cons f rest ih =>
    cases hlk : extWorld.lookup f with
    | none =>
      rw [syncExt_cons_none s f rest extWorld v hlk]
      refine ih v ?_
      intro w hw
      refine hs w ?_
      rw [extWalksOf_cons_none s f rest extWorld hlk]
      exact hw
    | some t =>
      have hs2 := hs
      rw [extWalksOf_cons_some s f rest extWorld t hlk] at hs2
      obtain ⟨hsy, hne⟩ := hs2 _ (List.mem_cons_self _ _)
      have hth : (syncDirectoryFromExternal s t (extRelFor s f) v).2.2 = false :=
        walk_thrown s t (extRelFor s f) v hne
      obtain ⟨hv1, htr⟩ := walk_silent s t (extRelFor s f) v hsy
      rw [syncExt_cons_some_ok s f rest extWorld t v hlk hth, hv1, htr,
          ih v (fun w hw => hs2 w (List.mem_cons_of_mem _ hw))]
      rfl

theorem syncExt_establish (s : SyncRepSettings) (folders : List String)
    (extWorld : List (String × ETree)) (v : Vault)
    (hall : ∀ w ∈ extWalksOf s folders extWorld,
      treeNoErr w.2 = true ∧ walkTidy s w.2 w.1 = true
        ∧ (w.1 = "" ∨ goodPath w.1 = true))
    (hcf : ∀ q ∈ walksFilePaths s (extWalksOf s folders extWorld),
      ((v.getAbs q).isFolder) = false)
    (hcross : crossOK s (extWalksOf s folders extWorld) = true) :
    ∀ w ∈ extWalksOf s folders extWorld,
      Synced s w.2 w.1 (syncExtFolders s folders extWorld v).1 = true := by
  induction folders generalizing v with
  | nil => intro w hw; rw [extWalksOf_nil] at hw; exact absurd hw (by simp)
  | cons f rest ih =>
    cases hlk : extWorld.lookup f with
    | none =>
      intro w hw
      rw [extWalksOf_cons_none s f rest extWorld hlk] at hw
      rw [syncExt_cons_none s f rest extWorld v hlk]
      rw [extWalksOf_cons_none s f rest extWorld hlk] at hall hcf hcross
      exact ih v hall hcf hcross w hw
    | some t =>
      rw [extWalksOf_cons_some s f rest extWorld t hlk] at hall hcf hcross ⊢
      rw [walksFilePaths_cons] at hcf
      rw [crossOK_cons, Bool.and_eq_true, Bool.and_eq_true, Bool.and_eq_true] at hcross
      obtain ⟨⟨⟨hod, hos⟩, hallc⟩, hrest⟩ := hcross
      obtain ⟨hne, htd, hgd⟩ := hall _ (List.mem_cons_self _ _)
      have hth : (syncDirectoryFromExternal s t (extRelFor s f) v).2.2 = false :=
        walk_thrown s t (extRelFor s f) v hne
      rw [syncExt_cons_some_ok s f rest extWorld t v hlk hth]
      have hestHead : Synced s t (extRelFor s f)
          (syncDirectoryFromExternal s t (extRelFor s f) v).1 = true :=
        walk_establish s t (extRelFor s f) v hne htd
          (fun p hp => hcf p (List.mem_append.mpr (Or.inl hp))) hgd
      intro w hw
      rcases List.mem_cons.mp hw with hw1 | hwr
      · subst hw1
        refine Synced_pres s t (extRelFor s f)
          (syncDirectoryFromExternal s t (extRelFor s f) v).1 _
          (walksFilePaths s (extWalksOf s rest extWorld))
          hestHead (syncExt_pres s rest extWorld _) ?_
        intro p hp
        unfold walksFilePaths
        refine not_mem_flatMap_walks s _ _ _ ?_ p hp
        intro w2 hw2
        have h2 := List.all_eq_true.mp hallc w2 hw2
        simp only [Bool.and_eq_true] at h2
        exact h2.1.1.1.1.1
      · refine ih _ (fun w2 hw2 => hall w2 (List.mem_cons_of_mem _ hw2)) ?_ hrest w hwr
        intro q hq
        refine notFolder_of_ne _ ?_
        intro hf
        rcases walk_folderChar s t (extRelFor s f) v q hf with hvf | hts
        · exact absurd hvf
            (ne_of_notFolder _ (hcf q (List.mem_append.mpr (Or.inr hq))))
        · unfold walksFilePaths at hq
          rw [List.mem_flatMap] at hq
          obtain ⟨w2, hw2, hq2⟩ := hq
          have h2 := List.all_eq_true.mp hallc w2 hw2
          simp only [Bool.and_eq_true] at h2
          exact disjointL_mem _ _ h2.1.1.2 q hq2 hts

/-! ## Assembly equations for full synchronization -/

theorem clashFree_forall (s : SyncRepSettings) (t : ETree) (rel : String)
    (v : Vault) (h : walkClashFree s t rel v = true) :
    ∀ p ∈ walkFilePaths s t rel, ((v.getAbs p).isFolder) = false := by
  unfold walkClashFree at h
  rw [List.all_eq_true] at h
  intro p hp
  have h2 := h p hp
  simpa using h2

theorem allWalks_eq (s : SyncRepSettings) (rootTree : ETree)
    (extWorld : List (String × ETree)) :
    allWalks s rootTree extWorld
      = ("", rootTree) :: extWalksOf s s.externalIncludedFolders extWorld := rfl

theorem syncAll_eq_ok (s : SyncRepSettings) (rootTree : ETree)
    (extWorld : List (String × ETree)) (v : Vault)
    (hpath : ¬ s.syncFolderPath = "")
    (hth : (syncDirectoryFromExternal s rootTree ""
        (scanExtFolders s s.externalIncludedFolders extWorld
          (scanAndCreateAllDirectories s rootTree "" v).1).1).2.2 = false) :
    syncAllExternalDirectories s (some rootTree) extWorld v
      = ((syncExtFolders s s.externalIncludedFolders extWorld
            (syncDirectoryFromExternal s rootTree ""
              (scanExtFolders s s.externalIncludedFolders extWorld
                (scanAndCreateAllDirectories s rootTree "" v).1).1).1).1,
         (scanAndCreateAllDirectories s rootTree "" v).2
           ++ (scanExtFolders s s.externalIncludedFolders extWorld
                (scanAndCreateAllDirectories s rootTree "" v).1).2
           ++ (syncDirectoryFromExternal s rootTree ""
                (scanExtFolders s s.externalIncludedFolders extWorld
                  (scanAndCreateAllDirectories s rootTree "" v).1).1).2.1
           ++ (syncExtFolders s s.externalIncludedFolders extWorld
                (syncDirectoryFromExternal s rootTree ""
                  (scanExtFolders s s.externalIncludedFolders extWorld
                    (scanAndCreateAllDirectories s rootTree "" v).1).1).1).2) := by
  unfold syncAllExternalDirectories
  rw [if_neg hpath]
  dsimp only
  rw [hth]
  rfl

theorem syncAll_eq_thrown (s : SyncRepSettings) (rootTree : ETree)
    (extWorld : List (String × ETree)) (v : Vault)
    (hpath : ¬ s.syncFolderPath = "")
    (hth : (syncDirectoryFromExternal s rootTree ""
        (scanExtFolders s s.externalIncludedFolders extWorld
          (scanAndCreateAllDirectories s rootTree "" v).1).1).2.2 = true) :
    syncAllExternalDirectories s (some rootTree) extWorld v
      = ((syncDirectoryFromExternal s rootTree ""
            (scanExtFolders s s.externalIncludedFolders extWorld
              (scanAndCreateAllDirectories s rootTree "" v).1).1).1,
         (scanAndCreateAllDirectories s rootTree "" v).2
           ++ (scanExtFolders s s.externalIncludedFolders extWorld
                (scanAndCreateAllDirectories s rootTree "" v).1).2
           ++ (syncDirectoryFromExternal s rootTree ""
                (scanExtFolders s s.externalIncludedFolders extWorld
                  (scanAndCreateAllDirectories s rootTree "" v).1).1).2.1) := by
  unfold syncAllExternalDirectories
  rw [if_neg hpath]
  dsimp only
  rw [hth]
  rfl

theorem phase1_eq (s : SyncRepSettings) (rootTree : ETree)
    (extWorld : List (String × ETree)) (v : Vault) :
    fullSyncPhase1 s rootTree extWorld v
      = ((scanExtFolders s s.externalIncludedFolders extWorld
            (scanAndCreateAllDirectories s rootTree "" v).1).1,
         (scanAndCreateAllDirectories s rootTree "" v).2
           ++ (scanExtFolders s s.externalIncludedFolders extWorld
                (scanAndCreateAllDirectories s rootTree "" v).1).2) := rfl

theorem phase2_eq_ok (s : SyncRepSettings) (rootTree : ETree)
    (extWorld : List (String × ETree)) (v : Vault)
    (hth : (syncDirectoryFromExternal s rootTree "" v).2.2 = false) :
    fullSyncPhase2 s rootTree extWorld v
      = ((syncExtFolders s s.externalIncludedFolders extWorld
            (syncDirectoryFromExternal s rootTree "" v).1).1,
         (syncDirectoryFromExternal s rootTree "" v).2.1
           ++ (syncExtFolders s s.externalIncludedFolders extWorld
                (syncDirectoryFromExternal s rootTree "" v).1).2) := by
  unfold fullSyncPhase2
  dsimp only
  rw [hth]
  rfl

theorem phase2_eq_thrown (s : SyncRepSettings) (rootTree : ETree)
    (extWorld : List (String × ETree)) (v : Vault)
    (hth : (syncDirectoryFromExternal s rootTree "" v).2.2 = true) :
    fullSyncPhase2 s rootTree extWorld v
      = ((syncDirectoryFromExternal s rootTree "" v).1,
         (syncDirectoryFromExternal s rootTree "" v).2.1) := by
  unfold fullSyncPhase2
  dsimp only
  rw [hth]
  rfl

theorem syncAll_silent (s : SyncRepSettings) (rootTree : ETree)
    (extWorld : List (String × ETree)) (v1 : Vault)
    (hpath : ¬ s.syncFolderPath = "")
    (hSSroot : ScanSynced s rootTree "" v1 = true)
    (hSSext : ∀ w ∈ extWalksOf s s.externalIncludedFolders extWorld,
      ScanSynced s w.2 w.1 v1 = true)
    (hSyroot : Synced s rootTree "" v1 = true)
    (hneroot : treeNoErr rootTree = true)
    (hSyext : ∀ w ∈ extWalksOf s s.externalIncludedFolders extWorld,
      Synced s w.2 w.1 v1 = true ∧ treeNoErr w.2 = true) :
    syncAllExternalDirectories s (some rootTree) extWorld v1 = (v1, []) := by
  have hA : scanAndCreateAllDirectories s rootTree "" v1 = (v1, []) :=
    scanA_silent s rootTree "" v1 hSSroot
  have hB : scanExtFolders s s.externalIncludedFolders extWorld v1 = (v1, []) :=
    scanExt_silent s s.externalIncludedFolders extWorld v1 hSSext
  obtain ⟨hC1, hC2⟩ := walk_silent s rootTree "" v1 hSyroot
  have hthr : (syncDirectoryFromExternal s rootTree "" v1).2.2 = false :=
    walk_thrown s rootTree "" v1 hneroot
  have hD : syncExtFolders s s.externalIncludedFolders extWorld v1 = (v1, []) :=
    syncExt_silent s s.externalIncludedFolders extWorld v1 hSyext
  rw [syncAll_eq_ok s rootTree extWorld v1 hpath
      (by rw [hA]; dsimp only; rw [hB]; exact hthr)]
  rw [hA]
  dsimp only
  rw [hB]
  dsimp only
  rw [hC1, hC2, hD]
  rfl

/-! ## C2: idempotence of full synchronization -/

/-- C2 counterexample: a managed folder occupying the path of an external
file makes every run of full synchronization retry the failing create: on
the second invocation over an unchanged external tree the engine still
issues a managed-store write call (the vault create of x), refuting the
unconditional zero-write claim. -/
theorem c2_counterexample :
    (syncAllExternalDirectories cfgAll (some treeClash) []
       (syncAllExternalDirectories cfgAll (some treeClash) [] vaultFolderX).1).2
      = [Act.vaultCreate "x" (Content.text "hi")]
    ∧ Act.isVaultWrite (Act.vaultCreate "x" (Content.text "hi")) = true := by
  exact ⟨by decide, rfl⟩

/-- C2 as amended: over a configured sync root, an external world whose
walks read without failure, are tidy and pairwise separated, and whose
participating file paths are not shadowed by managed folders (the
decidable FullSyncHyp, which holds of every world mirroring an actual
directory tree), the second invocation of full synchronization performs
no managed-store call at all: its trace is empty. -/
theorem c2_amended_full_sync_idempotent (s : SyncRepSettings) (rootTree : ETree)
    (extWorld : List (String × ETree)) (v : Vault)
    (hpath : s.syncFolderPath ≠ "")
    (hfull : FullSyncHyp s rootTree extWorld v = true) :
    (syncAllExternalDirectories s (some rootTree) extWorld
       (syncAllExternalDirectories s (some rootTree) extWorld v).1).2 = [] := by
  unfold FullSyncHyp at hfull
  rw [Bool.and_eq_true] at hfull
  obtain ⟨hallb, hcross⟩ := hfull
  rw [allWalks_eq, List.all_eq_true] at hallb
  rw [allWalks_eq] at hcross
  rw [crossOK_cons, Bool.and_eq_true, Bool.and_eq_true, Bool.and_eq_true] at hcross
  obtain ⟨⟨⟨hod0, hos0⟩, hallc⟩, hcrossE⟩ := hcross
  have hhead := hallb _ (List.mem_cons_self _ _)
  simp only [Bool.and_eq_true] at hhead
  obtain ⟨⟨⟨⟨hne0, htd0⟩, hst0⟩, hcl0⟩, hgd0⟩ := hhead
  have htail : ∀ w ∈ extWalksOf s s.externalIncludedFolders extWorld,
      treeNoErr w.2 = true ∧ walkTidy s w.2 w.1 = true ∧ scanTidy s w.2 w.1 = true
        ∧ walkClashFree s w.2 w.1 v = true ∧ (w.1 = "" ∨ goodPath w.1 = true) := by
    intro w hw
    have h2 := hallb w (List.mem_cons_of_mem _ hw)
    simp only [Bool.and_eq_true] at h2
    obtain ⟨⟨⟨⟨h2a, h2b⟩, h2c⟩, h2d⟩, h2e⟩ := h2
    refine ⟨h2a, h2b, h2c, h2d, ?_⟩
    simpa using h2e
  generalize hvA : (scanAndCreateAllDirectories s rootTree "" v).1 = vA
  generalize hvB : (scanExtFolders s s.externalIncludedFolders extWorld vA).1 = vB
  generalize hvC : (syncDirectoryFromExternal s rootTree "" vB).1 = vC
  generalize hvD : (syncExtFolders s s.externalIncludedFolders extWorld vC).1 = vD
  have H1 : ScanSynced s rootTree "" vA = true := by
    have h := scanA_establish s rootTree "" v hst0 (Or.inl rfl)
    rw [hvA] at h
    exact h
  have hmissAB : ∀ p, vA.getAbs p ≠ VEntry.vmissing → vB.getAbs p ≠ VEntry.vmissing := by
    have h := (scanExt_pres s s.externalIncludedFolders extWorld vA).2.2
    rw [hvB] at h
    exact h
  have hmissBC : ∀ p, vB.getAbs p ≠ VEntry.vmissing → vC.getAbs p ≠ VEntry.vmissing := by
    have h := (walk_pres s rootTree "" vB).2.2
    rw [hvC] at h
    exact h
  have hmissCD : ∀ p, vC.getAbs p ≠ VEntry.vmissing → vD.getAbs p ≠ VEntry.vmissing := by
    have h := (syncExt_pres s s.externalIncludedFolders extWorld vC).2.2
    rw [hvD] at h
    exact h
  have H2 : ∀ w ∈ extWalksOf s s.externalIncludedFolders extWorld,
      ScanSynced s w.2 w.1 vB = true := by
    have h := scanExt_establish s s.externalIncludedFolders extWorld vA
      (fun w hw => ⟨(htail w hw).2.2.1, (htail w hw).2.2.2.2⟩)
    rw [hvB] at h
    exact h
  have H3 : ScanSynced s rootTree "" vB = true :=
    ScanSynced_pres s rootTree "" vA vB H1 hmissAB
  have HFC1 : FolderChar v vB
      (scanDirTargets s rootTree ""
        ++ walksScanTargets s (extWalksOf s s.externalIncludedFolders extWorld)) := by
    have h := FolderChar_trans v _ _ _ _ (scanA_folderChar s rootTree "" v)
      (scanExt_folderChar s s.externalIncludedFolders extWorld
        (scanAndCreateAllDirectories s rootTree "" v).1)
    rw [hvA, hvB] at h
    exact h
  have H4 : ∀ p ∈ walkFilePaths s rootTree "",
      ((vB.getAbs p).isFolder) = false := by
    intro p hp
    refine notFolder_of_ne _ ?_
    intro hf
    rcases HFC1 p hf with hvf | hmem
    · exact absurd hvf (ne_of_notFolder _ (clashFree_forall s rootTree "" v hcl0 p hp))
    · rcases List.mem_append.mp hmem with hm1 | hm2
      · exact disjointL_mem _ _ hos0 p hp hm1
      · unfold walksScanTargets at hm2
        rw [List.mem_flatMap] at hm2
        obtain ⟨w2, hw2, hq2⟩ := hm2
        have h2 := List.all_eq_true.mp hallc w2 hw2
        simp only [Bool.and_eq_true] at h2
        exact disjointL_mem _ _ h2.1.2 p hp hq2
  have H5 : Synced s rootTree "" vC = true := by
    have h := walk_establish s rootTree "" vB hne0 htd0 H4 (Or.inl rfl)
    rw [hvC] at h
    exact h
  have hthr : (syncDirectoryFromExternal s rootTree "" vB).2.2 = false :=
    walk_thrown s rootTree "" vB hne0
  have HFC2 : FolderChar v vC
      ((scanDirTargets s rootTree ""
         ++ walksScanTargets s (extWalksOf s s.externalIncludedFolders extWorld))
        ++ walkDirTargets s rootTree "") := by
    have h := FolderChar_trans v vB _ _ _ HFC1 (walk_folderChar s rootTree "" vB)
    rw [hvC] at h
    exact h
  have H7 : ∀ q ∈ walksFilePaths s (extWalksOf s s.externalIncludedFolders extWorld),
      ((vC.getAbs q).isFolder) = false := by
    intro q hq
    unfold walksFilePaths at hq
    rw [List.mem_flatMap] at hq
    obtain ⟨wj, hwj, hqj⟩ := hq
    refine notFolder_of_ne _ ?_
    intro hf
    rcases HFC2 q hf with hvf | hmem
    · exact absurd hvf (ne_of_notFolder _
        (clashFree_forall s wj.2 wj.1 v (htail wj hwj).2.2.2.1 q hqj))
    · rcases List.mem_append.mp hmem with hm12 | hm3
      · rcases List.mem_append.mp hm12 with hm1 | hm2
        · have h2 := List.all_eq_true.mp hallc wj hwj
          simp only [Bool.and_eq_true] at h2
          exact disjointL_mem _ _ h2.2 q hqj hm1
        · unfold walksScanTargets at hm2
          rw [List.mem_flatMap] at hm2
          obtain ⟨wk, hwk, hqk⟩ := hm2
          exact disjointL_mem _ _ (crossOK_fp_scan s _ hcrossE wj hwj wk hwk) q hqj hqk
      · have h2 := List.all_eq_true.mp hallc wj hwj
        simp only [Bool.and_eq_true] at h2
        exact disjointL_mem _ _ h2.1.1.2 q hqj hm3
  have H8 : ∀ w ∈ extWalksOf s s.externalIncludedFolders extWorld,
      Synced s w.2 w.1 vD = true := by
    have h := syncExt_establish s s.externalIncludedFolders extWorld vC
      (fun w hw => ⟨(htail w hw).1, (htail w hw).2.1, (htail w hw).2.2.2.2⟩) H7 hcrossE
    rw [hvD] at h
    exact h
  have hpresCD : PresStep vC vD
      (walksFilePaths s (extWalksOf s s.externalIncludedFolders extWorld)) := by
    have h := syncExt_pres s s.externalIncludedFolders extWorld vC
    rw [hvD] at h
    exact h
  have H9 : Synced s rootTree "" vD = true := by
    refine Synced_pres s rootTree "" vC vD
      (walksFilePaths s (extWalksOf s s.externalIncludedFolders extWorld))
      H5 hpresCD ?_
    intro p hp
    unfold walksFilePaths
    refine not_mem_flatMap_walks s _ _ _ ?_ p hp
    intro w2 hw2
    have h2 := List.all_eq_true.mp hallc w2 hw2
    simp only [Bool.and_eq_true] at h2
    exact h2.1.1.1.1.1
  have H10 : ScanSynced s rootTree "" vD = true :=
    ScanSynced_pres s rootTree "" vC vD
      (ScanSynced_pres s rootTree "" vB vC H3 hmissBC) hmissCD
  have H11 : ∀ w ∈ extWalksOf s s.externalIncludedFolders extWorld,
      ScanSynced s w.2 w.1 vD = true := by
    intro w hw
    exact ScanSynced_pres s w.2 w.1 vC vD
      (ScanSynced_pres s w.2 w.1 vB vC (H2 w hw) hmissBC) hmissCD
  have hrun1 : (syncAllExternalDirectories s (some rootTree) extWorld v).1 = vD := by
    rw [syncAll_eq_ok s rootTree extWorld v hpath (by rw [hvA, hvB]; exact hthr)]
    dsimp only
    rw [hvA, hvB, hvC, hvD]
  rw [hrun1]
  rw [syncAll_silent s rootTree extWorld vD hpath H10 H11 H9 hne0
      (fun w hw => ⟨H8 w hw, (htail w hw).1⟩)]

/-- C2 witness: the clean world (a directory with a note and an empty
directory) satisfies the hypotheses, and the second full-sync run over it
issues no managed-store call. -/
theorem c2_witness :
    cfgAll.syncFolderPath ≠ "" ∧ FullSyncHyp cfgAll treeClean [] vaultEmpty = true
    ∧ (syncAllExternalDirectories cfgAll (some treeClean) []
         (syncAllExternalDirectories cfgAll (some treeClean) [] vaultEmpty).1).2 = [] :=
  ⟨by decide, by decide,
   c2_amended_full_sync_idempotent cfgAll treeClean [] vaultEmpty (by decide) (by decide)⟩

/-! ## C3: the two phases of full synchronization -/

theorem syncExt_noFiles_trace (s : SyncRepSettings) (folders : List String)
    (extWorld : List (String × ETree)) (v : Vault)
    (hnf : ∀ w ∈ extWalksOf s folders extWorld, treeNoFiles w.2 = true) :
    ∀ a ∈ (syncExtFolders s folders extWorld v).2, a.isVaultFileWrite = false := by
  induction folders generalizing v with
  | nil =>
    rw [syncExt_nil]
    intro a ha
    exact absurd ha (by simp)
  | cons f rest ih =>
    cases hlk : extWorld.lookup f with
    | none =>
      rw [syncExt_cons_none s f rest extWorld v hlk]
      refine ih v ?_
      intro w hw
      refine hnf w ?_
      rw [extWalksOf_cons_none s f rest extWorld hlk]
      exact hw
    | some t =>
      have hnf2 := hnf
      rw [extWalksOf_cons_some s f rest extWorld t hlk] at hnf2
      have hhead : treeNoFiles t = true := hnf2 _ (List.mem_cons_self _ _)
      cases hth : (syncDirectoryFromExternal s t (extRelFor s f) v).2.2 with
      | true =>
        rw [syncExt_cons_some_thrown s f rest extWorld t v hlk hth]
        exact walk_noFiles_trace s t (extRelFor s f) v hhead
      | false =>
        rw [syncExt_cons_some_ok s f rest extWorld t v hlk hth]
        intro a ha
        rcases List.mem_append.mp ha with h1 | h2
        · exact walk_noFiles_trace s t (extRelFor s f) v hhead a h1
        · exact ih _ (fun w hw => hnf2 w (List.mem_cons_of_mem _ hw)) a h2

/-- C3: full synchronization over a configured sync root is exactly phase 1
(the structure scans of the sync root and of every configured external
folder) followed by phase 2 (the content walks of the same trees): the
result state is that of phase 2 run on the phase-1 state and the trace is
the phase-1 trace followed by the phase-2 trace; the phase-1 trace
consists solely of managed-directory creations; after phase 1 every
participating external directory has its managed directory (the structure
scans are synchronized), so empty directories are mirrored; and over a
world without files — such as a single empty external directory — the
whole run issues zero managed file-write calls. -/
theorem c3_two_phase_full_sync (s : SyncRepSettings) (rootTree : ETree)
    (extWorld : List (String × ETree)) (v : Vault)
    (hpath : s.syncFolderPath ≠ "") :
    (syncAllExternalDirectories s (some rootTree) extWorld v
       = ((fullSyncPhase2 s rootTree extWorld
             (fullSyncPhase1 s rootTree extWorld v).1).1,
          (fullSyncPhase1 s rootTree extWorld v).2
            ++ (fullSyncPhase2 s rootTree extWorld
                 (fullSyncPhase1 s rootTree extWorld v).1).2))
    ∧ (∀ a ∈ (fullSyncPhase1 s rootTree extWorld v).2,
        ∃ d, a = Act.vaultCreateFolder d)
    ∧ ((allWalks s rootTree extWorld).all (fun w =>
          scanTidy s w.2 w.1 && (decide (w.1 = "") || goodPath w.1)) = true →
        ∀ w ∈ allWalks s rootTree extWorld,
          ScanSynced s w.2 w.1 (fullSyncPhase1 s rootTree extWorld v).1 = true)
    ∧ ((allWalks s rootTree extWorld).all (fun w => treeNoFiles w.2) = true →
        ∀ a ∈ (syncAllExternalDirectories s (some rootTree) extWorld v).2,
          Act.isVaultFileWrite a = false) := by
  refine ⟨?_, ?_, ?_, ?_⟩
  · cases hth : (syncDirectoryFromExternal s rootTree ""
        (scanExtFolders s s.externalIncludedFolders extWorld
          (scanAndCreateAllDirectories s rootTree "" v).1).1).2.2 with
    | false =>
      rw [syncAll_eq_ok s rootTree extWorld v hpath hth, phase1_eq]
      dsimp only
      rw [phase2_eq_ok s rootTree extWorld _ hth]
      dsimp only
      rw [List.append_assoc ((scanAndCreateAllDirectories s rootTree "" v).2
            ++ (scanExtFolders s s.externalIncludedFolders extWorld
                 (scanAndCreateAllDirectories s rootTree "" v).1).2)]
    | true =>
      rw [syncAll_eq_thrown s rootTree extWorld v hpath hth, phase1_eq]
      dsimp only
      rw [phase2_eq_thrown s rootTree extWorld _ hth]
  · rw [phase1_eq]
    dsimp only
    intro a ha
    rcases List.mem_append.mp ha with h1 | h2
    · exact scanA_trace s rootTree "" v a h1
    · exact scanExt_trace s s.externalIncludedFolders extWorld _ a h2
  · intro hscan
    rw [allWalks_eq, List.all_eq_true] at hscan
    have hhead := hscan _ (List.mem_cons_self _ _)
    rw [Bool.and_eq_true] at hhead
    intro w hw
    rw [allWalks_eq] at hw
    rw [phase1_eq]
    dsimp only
    rcases List.mem_cons.mp hw with hw1 | hwr
    · subst hw1
      exact ScanSynced_pres s rootTree ""
        (scanAndCreateAllDirectories s rootTree "" v).1 _
        (scanA_establish s rootTree "" v hhead.1 (Or.inl rfl))
        ((scanExt_pres s s.externalIncludedFolders extWorld _).2.2)
    · refine scanExt_establish s s.externalIncludedFolders extWorld _ ?_ w hwr
      intro w2 hw2
      have h2 := hscan w2 (List.mem_cons_of_mem _ hw2)
      rw [Bool.and_eq_true] at h2
      refine ⟨h2.1, ?_⟩
      simpa using h2.2
  · intro hnof
    rw [allWalks_eq, List.all_eq_true] at hnof
    have hroot : treeNoFiles rootTree = true := hnof _ (List.mem_cons_self _ _)
    have hextnf : ∀ w ∈ extWalksOf s s.externalIncludedFolders extWorld,
        treeNoFiles w.2 = true := fun w hw => hnof w (List.mem_cons_of_mem _ hw)
    intro a ha
    cases hth : (syncDirectoryFromExternal s rootTree ""
        (scanExtFolders s s.externalIncludedFolders extWorld
          (scanAndCreateAllDirectories s rootTree "" v).1).1).2.2 with
    | false =>
      rw [syncAll_eq_ok s rootTree extWorld v hpath hth] at ha
      dsimp only at ha
      rcases List.mem_append.mp ha with h123 | h4
      · rcases List.mem_append.mp h123 with h12 | h3
        · rcases List.mem_append.mp h12 with h1 | h2
          · obtain ⟨d, hd⟩ := scanA_trace s rootTree "" v a h1
            rw [hd]
            rfl
          · obtain ⟨d, hd⟩ := scanExt_trace s s.externalIncludedFolders extWorld _ a h2
            rw [hd]
            rfl
        · exact walk_noFiles_trace s rootTree "" _ hroot a h3
      · exact syncExt_noFiles_trace s s.externalIncludedFolders extWorld _ hextnf a h4
    | true =>
      rw [syncAll_eq_thrown s rootTree extWorld v hpath hth] at ha
      dsimp only at ha
      rcases List.mem_append.mp ha with h12 | h3
      · rcases List.mem_append.mp h12 with h1 | h2
        · obtain ⟨d, hd⟩ := scanA_trace s rootTree "" v a h1
          rw [hd]
          rfl
        · obtain ⟨d, hd⟩ := scanExt_trace s s.externalIncludedFolders extWorld _ a h2
          rw [hd]
          rfl
      · exact walk_noFiles_trace s rootTree "" _ hroot a h3

/-- C3 witness: over a world holding exactly one empty external directory,
full synchronization decomposes into the two phases, phase 1 creates only
directories, the structure scan is synchronized after phase 1, and no file
write is issued. -/
theorem c3_witness :
    cfgAll.syncFolderPath ≠ ""
    ∧ ((syncAllExternalDirectories cfgAll (some treeEmptyDir) [] vaultEmpty
         = ((fullSyncPhase2 cfgAll treeEmptyDir []
               (fullSyncPhase1 cfgAll treeEmptyDir [] vaultEmpty).1).1,
            (fullSyncPhase1 cfgAll treeEmptyDir [] vaultEmpty).2
              ++ (fullSyncPhase2 cfgAll treeEmptyDir []
                   (fullSyncPhase1 cfgAll treeEmptyDir [] vaultEmpty).1).2))
       ∧ (∀ a ∈ (fullSyncPhase1 cfgAll treeEmptyDir [] vaultEmpty).2,
           ∃ d, a = Act.vaultCreateFolder d)
       ∧ ((allWalks cfgAll treeEmptyDir []).all (fun w =>
             scanTidy cfgAll w.2 w.1 && (decide (w.1 = "") || goodPath w.1)) = true →
           ∀ w ∈ allWalks cfgAll treeEmptyDir [],
             ScanSynced cfgAll w.2 w.1
               (fullSyncPhase1 cfgAll treeEmptyDir [] vaultEmpty).1 = true)
       ∧ ((allWalks cfgAll treeEmptyDir []).all (fun w => treeNoFiles w.2) = true →
           ∀ a ∈ (syncAllExternalDirectories cfgAll (some treeEmptyDir) [] vaultEmpty).2,
             Act.isVaultFileWrite a = false)) :=
  ⟨by decide, c3_two_phase_full_sync cfgAll treeEmptyDir [] vaultEmpty (by decide)⟩
